import Mathlib

/-!
Scheduler and Event of the SystemC kernel (`src/systemc/core`).

A shallow embedding of `scheduler.cc` and `event.cc`, followed by the
properties established about them.

Conventions of the embedding:

* `Tick` is a 64-bit unsigned integer in the source; it is a `Nat` here and the
  one arithmetic expression that can wrap (`Event::notify(const sc_time &)`) is
  reduced modulo `2 ^ 64`.
* Intrusive lists (`NodeList`) are Lean lists; `popListNode` is `List.erase`.
* The host event queue is a current tick and the list of scheduled handles.
* Code outside the scheduler that the scheduler calls into (process bodies,
  channel `update()`, module callbacks) is a script of calls back into the
  scheduler, chosen by an environment `Env` from the state it is started in.
* A thread runs in a fiber of its own and leaves it only by a call of
  `Scheduler::yield` (`wait()` in `sc_module.cc`). `yield` is one such call, by
  whichever fiber, with the stretch of the process it dispatches;
  `yieldOnPrimary` is the call made on the primary fiber, from call to return.
-/

namespace sc_gem5

/-! ## Host event queue -/

/-- Simulated time, `Tick` of the host simulator (`uint64_t`). -/
abbrev Tick := Nat

/-- Number of values of a 64-bit tick. -/
def TickMod : Nat := 2 ^ 64

/-- The events this code hands to the host queue: the five timers owned by the
scheduler, the `delayedNotifyEvent` member of the event with the given identity,
and any other host event. -/
inductive Handle where
  | readyEvent
  | pauseEvent
  | stopEvent
  | starvationEvent
  | maxTickEvent
  | delayedNotifyEvent (ev : Nat)
  | other (n : Nat)
  deriving DecidableEq, Repr

/-- Modelled from the spec: the host event queue (`sim/eventq.hh` is not among
the sources). It is "the sole authority for what tick is it and what fires
next": a current tick and the scheduled handles with their ticks. -/
structure EventQueue where
  curTick : Tick
  pending : List (Handle × Tick)
  deriving DecidableEq, Repr

/-- Modelled from the spec: `event.scheduled()`, whether the handle is on the
host queue. -/
def EventQueue.scheduled (q : EventQueue) (h : Handle) : Bool :=
  q.pending.any (fun e => decide (e.1 = h))

/-- Modelled from the spec: `event.when()`, the tick a scheduled handle is due. -/
def EventQueue.when (q : EventQueue) (h : Handle) : Tick :=
  match q.pending.find? (fun e => decide (e.1 = h)) with
  | some e => e.2
  | none => 0

/-- Modelled from the spec: `schedule(event, tick)` of the host queue. -/
def EventQueue.schedule (q : EventQueue) (h : Handle) (t : Tick) : EventQueue :=
  { q with pending := q.pending ++ [(h, t)] }

/-- Modelled from the spec: `deschedule(event)` of the host queue. -/
def EventQueue.deschedule (q : EventQueue) (h : Handle) : EventQueue :=
  { q with pending := q.pending.filter (fun e => decide (e.1 ≠ h)) }

/-- Modelled from the spec: `getCurTick()` of the host queue. -/
def EventQueue.getCurTick (q : EventQueue) : Tick := q.curTick

/-- Number of entries the handle has on the host queue. -/
def EventQueue.handles (q : EventQueue) (h : Handle) : Nat :=
  q.pending.countP (fun e => decide (e.1 = h))

/-! ## Event (`event.cc`) -/

/-- The fields of `sc_gem5::Event` fixed at construction. `_sc_event` is the
identity of the owning `sc_event` (the pointer stored in the registries). -/
structure Event where
  _sc_event : Nat
  _basename : String
  _name : String
  parent : Option Nat
  deriving DecidableEq, Repr

/-- The globals `topLevelEvents` and `allEvents` of `event.cc`, the child-event
sets of the parent objects, and the queue behind `scheduler.schedule` /
`scheduler.deschedule`. -/
structure EventWorld where
  topLevelEvents : List Event
  allEvents : List Event
  childEvents : List (Nat × Nat)
  eq : EventQueue
  deriving DecidableEq, Repr

/-- The handle of the `delayedNotifyEvent` member of an event. -/
def Event.delayedNotifyEvent (e : Event) : Handle :=
  Handle.delayedNotifyEvent e._sc_event

/-- A C string: the characters before the first NUL (`c_str()` as seen by
`strcmp`). -/
def c_str (s : String) : List Char :=
  s.toList.takeWhile (fun c => decide (c ≠ Char.ofNat 0))

/-- Position of the first element satisfying `p`, the length when there is
none (the end iterator). -/
def firstIndex {α : Type} (p : α → Bool) : List α → Nat
  | [] => 0
  | a :: rest => if p a then 0 else firstIndex p rest + 1

/-- `findEvent(name)`: scan `allEvents` from the front and stop at the first
event whose name compares equal under `strcmp`; the result is an iterator,
here a position, `allEvents.length` standing for `allEvents.end()`. -/
def findEvent (allEvents : List Event) (name : String) : Nat :=
  firstIndex (fun e => decide (c_str e._name = c_str name)) allEvents

/-- `std::find(begin, end, _sc_event)`: first position holding this identity. -/
def findIdentity (events : List Event) (id : Nat) : Nat :=
  firstIndex (fun e => decide (e._sc_event = id)) events

/-- The statements `std::swap(*it, v.back()); v.pop_back();`. Dereferencing the
end iterator has no defined result (`none`). -/
def swapPopBack {α : Type} (v : List α) (it : Nat) : Option (List α) :=
  match v.getLast? with
  | none => none
  | some back => if it < v.length then some ((v.set it back).dropLast) else none

/-- Modelled from the spec: `Object::delChildEvent`, which removes the event
from its parent's child-event set (`object.cc` is not among the sources). -/
def delChildEvent (children : List (Nat × Nat)) (par ev : Nat) : List (Nat × Nat) :=
  children.filter (fun c => decide (c ≠ (par, ev)))

/-- `Event::~Event`. `none` stands for a failed `assert` or a dereferenced end
iterator. -/
def Event.destroy (e : Event) (w : EventWorld) : Option EventWorld :=
  let unlinked : Option EventWorld :=
    match e.parent with
    | some par =>
      some { w with childEvents := delChildEvent w.childEvents par e._sc_event }
    | none =>
      let it := findIdentity w.topLevelEvents e._sc_event
      if it = w.topLevelEvents.length then none
      else
        match swapPopBack w.topLevelEvents it with
        | some tl => some { w with topLevelEvents := tl }
        | none => none
  match unlinked with
  | none => none
  | some w1 =>
    match swapPopBack w1.allEvents (findEvent w1.allEvents e._name) with
    | none => none
    | some all =>
      let w2 := { w1 with allEvents := all }
      if w2.eq.scheduled e.delayedNotifyEvent then
        some { w2 with eq := w2.eq.deschedule e.delayedNotifyEvent }
      else some w2

/-- `Event::inHierarchy`. -/
def Event.inHierarchy (e : Event) : Bool := e._name.length != 0

/-- The tick computed at the top of `Event::notify(const sc_time &)`:
`t.value() * SimClock::Int::ps + scheduler.getCurTick()` in 64-bit unsigned
arithmetic. `ps` is the constant `SimClock::Int::ps`. -/
def Event.newTick (ps : Nat) (t : Nat) (q : EventQueue) : Tick :=
  (t * ps + q.getCurTick) % TickMod

/-- `Event::notify(const sc_core::sc_time &t)`; `t` is `t.value()`. -/
def Event.notify (ps : Nat) (e : Event) (t : Nat) (q : EventQueue) : EventQueue :=
  let new_tick := Event.newTick ps t q
  if q.scheduled e.delayedNotifyEvent then
    let old_tick := q.when e.delayedNotifyEvent
    if new_tick ≥ old_tick then q
    else (q.deschedule e.delayedNotifyEvent).schedule e.delayedNotifyEvent new_tick
  else q.schedule e.delayedNotifyEvent new_tick

/-- `Event::cancel`. -/
def Event.cancel (e : Event) (q : EventQueue) : EventQueue :=
  if q.scheduled e.delayedNotifyEvent then q.deschedule e.delayedNotifyEvent else q

/-- One `notify(delay)` call made when the host queue stands at tick
`call.1`, with delay `call.2`. -/
def Event.notifyAt (ps : Nat) (e : Event) (q : EventQueue) (call : Tick × Nat) : EventQueue :=
  Event.notify ps e call.2 { q with curTick := call.1 }

/-- A sequence of `notify(delay)` calls on one event, nothing firing and no
`cancel` in between; time may advance between the calls. -/
def Event.notifyAll (ps : Nat) (e : Event) (calls : List (Tick × Nat)) (q : EventQueue) : EventQueue :=
  calls.foldl (Event.notifyAt ps e) q

/-- The tick requested by one call of a sequence. -/
def Event.requested (ps : Nat) (call : Tick × Nat) : Tick :=
  (call.2 * ps + call.1) % TickMod

/-! ## Collaborators of the scheduler -/

/-- The process kinds of `sc_core::sc_curr_proc_kind`. -/
inductive sc_curr_proc_kind where
  | SC_NO_PROC_
  | SC_METHOD_PROC_
  | SC_THREAD_PROC_
  | SC_CTHREAD_PROC_
  deriving DecidableEq, Repr

/-- A process as the scheduler sees it: an identity and its `procKind()`. -/
structure Process where
  id : Nat
  procKind : sc_curr_proc_kind
  deriving DecidableEq, Repr

/-- A channel taking part in the request-update protocol. -/
structure Channel where
  id : Nat
  deriving DecidableEq, Repr

/-- Modelled from the spec: `Process::needsStart()` (`process.hh` is not among
the sources). A process "requires an explicit first invocation (as opposed to
being resumed mid-body)" exactly when it is a run-to-completion method. -/
def Process.needsStart (p : Process) : Bool :=
  decide (p.procKind = sc_curr_proc_kind.SC_METHOD_PROC_)

/-- The simulation phases of `sc_core::sc_status`. -/
inductive sc_status where
  | SC_ELABORATION
  | SC_BEFORE_END_OF_ELABORATION
  | SC_END_OF_ELABORATION
  | SC_START_OF_SIMULATION
  | SC_RUNNING
  | SC_PAUSED
  | SC_STOPPED
  | SC_END_OF_SIMULATION
  deriving DecidableEq, Repr

/-- Modelled from the spec: the numeric value of a status, in the order of the
lifecycle "elaboration, start, running, stopped" (the enumeration is declared
in `sc_main.hh`, which is not among the sources). -/
def sc_status.toNat : sc_status → Nat
  | SC_ELABORATION => 0x01
  | SC_BEFORE_END_OF_ELABORATION => 0x02
  | SC_END_OF_ELABORATION => 0x04
  | SC_START_OF_SIMULATION => 0x08
  | SC_RUNNING => 0x10
  | SC_PAUSED => 0x20
  | SC_STOPPED => 0x40
  | SC_END_OF_SIMULATION => 0x80

/-- What the scheduler was seen to hand control to, in order (a record kept
beside the state; the scheduler never reads it). `update` carries the ready
list and the update list as they stood when `channel->update()` was called. -/
inductive Obs where
  | run (p : Process)
  | update (c : Channel) (readyList : List Process) (updateList : List Channel)
  | finalize (p : Process)
  | end_of_simulation
  deriving DecidableEq, Repr

/-! ## Scheduler state -/

/-- The members of `sc_gem5::Scheduler`, together with the state of its
collaborators that its functions read or write: the queue `eq` points to
(`none` for `nullptr`), the pending-exception slots of the processes, the
kernel status and flags of `kernel.cc`, and the record of calls. A timer is
armed when its handle is on the queue. `parked` holds the threads whose fiber
is parked inside a call of `yield()` of their own, at the switch of fiber, and
`raised` records, in order, the exceptions that such a call threw in the fiber
of its thread when it went on. -/
structure Scheduler where
  eq : Option EventQueue
  readyList : List Process
  updateList : List Channel
  initList : List Process
  toFinalize : List Process
  eventsToSchedule : List (Handle × Tick)
  scMain : Bool
  _started : Bool
  _paused : Bool
  _stopped : Bool
  runToTime : Bool
  maxTick : Tick
  _numCycles : Nat
  _current : Option Process
  initReady : Bool
  excWrapper : List (Process × Nat)
  status : sc_status
  stopAfterCallbacks : Bool
  endComplete : Bool
  log : List Obs
  startComplete : Bool := false
  parked : List Process := []
  raised : List (Process × Nat) := []
  deriving DecidableEq, Repr

/-- `Scheduler::Scheduler()`: no event manager, no timer armed, all lists
empty, all flags false, and the kernel in its initial status. -/
def Scheduler.new : Scheduler :=
  { eq := none, readyList := [], updateList := [], initList := [], toFinalize := [],
    eventsToSchedule := [], scMain := false, _started := false, _paused := false,
    _stopped := false, runToTime := false, maxTick := 0, _numCycles := 0,
    _current := none, initReady := false, excWrapper := [],
    status := sc_status.SC_ELABORATION, stopAfterCallbacks := false,
    endComplete := false, log := [] }

/-- Why a run of the program was cut short. -/
inductive Abort where
  | panic
  | assertion
  | fatal
  | nullDeref
  deriving DecidableEq, Repr

/-- Result of running scheduler code: it returns with a state, it leaves by a
C++ exception with the state at the throw, it aborts, or the model ran out of
fuel in one of the two loops that need not end. -/
inductive Outcome where
  | ok (s : Scheduler)
  | threw (exc : Nat) (s : Scheduler)
  | abort (why : Abort)
  | outOfFuel
  deriving DecidableEq, Repr

/-- Sequencing: the continuation runs only after a normal return; an
exception, an abort and exhausted fuel all end the run where they occur. -/
def Outcome.bind (o : Outcome) (f : Scheduler → Outcome) : Outcome :=
  match o with
  | ok s => f s
  | threw exc s => threw exc s
  | abort why => abort why
  | outOfFuel => outOfFuel

/-- The state an outcome ends in, by return or by exception. -/
def Outcome.state? : Outcome → Option Scheduler
  | ok s => some s
  | threw _ s => some s
  | abort _ => none
  | outOfFuel => none

/-! ## Calls from outside the scheduler -/

/-- A call into the scheduler made by code the scheduler has handed control to
(a process body, a channel `update()`, a module callback). `setException`
stands for the process recording a pending exception in `excWrapper`. -/
inductive Action where
  | ready (p : Process)
  | requestUpdate (c : Channel)
  | reg (p : Process)
  | dontInitialize (p : Process)
  | schedulePause
  | scheduleStop (finish_delta : Bool)
  | setException (p : Process) (exc : Nat)
  deriving DecidableEq, Repr

/-- What lies outside the sources: the calls a process makes while it runs
until it suspends or finishes, the calls a channel makes in `update()`, the
calls the modules make in `end_of_simulation()`, each chosen from the state
they start in, and `starved()`, which is declared in `scheduler.hh`. -/
structure Env where
  body : Process → Scheduler → List Action
  update : Channel → Scheduler → List Action
  end_of_simulation : Scheduler → List Action
  starved : Scheduler → Bool

/-! ## Lists of the scheduler (`NodeList`) -/

/-- `p->popListNode()`: unlink the process from whichever list holds its
node. -/
def popListNode (p : Process) (s : Scheduler) : Scheduler :=
  { s with readyList := s.readyList.erase p, initList := s.initList.erase p,
           toFinalize := s.toFinalize.erase p }

/-- `channel->popListNode()`. -/
def popChannel (c : Channel) (s : Scheduler) : Scheduler :=
  { s with updateList := s.updateList.erase c }

/-- `list.getNext()`: the head of the list, or null. -/
def getNext {α : Type} (l : List α) : Option α := l.head?

/-- `timer.scheduled()` for a timer of the scheduler. -/
def Scheduler.scheduled (s : Scheduler) (h : Handle) : Bool :=
  match s.eq with
  | none => false
  | some q => q.scheduled h

/-- `eq->schedule(&event, tick)`; `eq` may be null. -/
def eqSchedule (h : Handle) (t : Tick) (s : Scheduler) : Outcome :=
  match s.eq with
  | none => Outcome.abort Abort.nullDeref
  | some q => Outcome.ok { s with eq := some (q.schedule h t) }

/-- `eq->schedule(&event, eq->getCurTick())`. -/
def eqScheduleNow (h : Handle) (s : Scheduler) : Outcome :=
  match s.eq with
  | none => Outcome.abort Abort.nullDeref
  | some q => Outcome.ok { s with eq := some (q.schedule h q.getCurTick) }

/-- `if (event.scheduled()) eq->deschedule(&event);`. -/
def descheduleIfScheduled (h : Handle) (s : Scheduler) : Scheduler :=
  match s.eq with
  | none => s
  | some q => if q.scheduled h then { s with eq := some (q.deschedule h) } else s

/-! ## Scheduler (`scheduler.cc`) -/

/-- `Scheduler::setEventQueue` (called from `Kernel::startup`). -/
def setEventQueue (q : EventQueue) (s : Scheduler) : Scheduler :=
  { s with eq := some q }

/-- `Scheduler::scheduleReadyEvent`. -/
def scheduleReadyEvent (s : Scheduler) : Outcome :=
  if !s.scheduled Handle.readyEvent then
    match s.eq with
    | none => Outcome.abort Abort.panic
    | some q =>
      let q1 := q.schedule Handle.readyEvent q.getCurTick
      if q1.scheduled Handle.starvationEvent then
        Outcome.ok { s with eq := some (q1.deschedule Handle.starvationEvent) }
      else Outcome.ok { s with eq := some q1 }
  else Outcome.ok s

/-- `Scheduler::scheduleStarvationEvent`. -/
def scheduleStarvationEvent (s : Scheduler) : Outcome :=
  if !s.scheduled Handle.starvationEvent then
    match s.eq with
    | none => Outcome.abort Abort.panic
    | some q =>
      let q1 := q.schedule Handle.starvationEvent q.getCurTick
      if q1.scheduled Handle.readyEvent then
        Outcome.ok { s with eq := some (q1.deschedule Handle.readyEvent) }
      else Outcome.ok { s with eq := some q1 }
  else Outcome.ok s

/-- `readyList.pushFirst(p)`: the node is unlinked from where it is and linked
in at the front. -/
def readyPushFirst (p : Process) (s : Scheduler) : Scheduler :=
  let s1 := popListNode p s
  { s1 with readyList := p :: s1.readyList }

/-- `readyList.pushLast(p)`. -/
def readyPushLast (p : Process) (s : Scheduler) : Scheduler :=
  let s1 := popListNode p s
  { s1 with readyList := s1.readyList ++ [p] }

/-- `Scheduler::ready`. -/
def ready (p : Process) (s : Scheduler) : Outcome :=
  if p.procKind = sc_curr_proc_kind.SC_METHOD_PROC_ then
    scheduleReadyEvent (readyPushFirst p s)
  else
    scheduleReadyEvent (readyPushLast p s)

/-- `Scheduler::requestUpdate`. -/
def requestUpdate (c : Channel) (s : Scheduler) : Outcome :=
  let s1 := popChannel c s
  scheduleReadyEvent { s1 with updateList := s1.updateList ++ [c] }

/-- `p->finalize()`: the static sensitivities are wired; the scheduler only
sees that the call was made. -/
def finalize (p : Process) (s : Scheduler) : Scheduler :=
  { s with log := s.log ++ [Obs.finalize p] }

/-- `Scheduler::reg`. `p->ready()` marks the process ready with the
scheduler. -/
def reg (p : Process) (s : Scheduler) : Outcome :=
  if s.initReady then
    ready p (finalize p s)
  else
    let s1 := popListNode p s
    Outcome.ok { s1 with initList := s1.initList ++ [p] }

/-- `Scheduler::dontInitialize`. -/
def dontInitialize (p : Process) (s : Scheduler) : Scheduler :=
  if s.initReady then
    popListNode p s
  else
    let s1 := popListNode p s
    { s1 with toFinalize := s1.toFinalize ++ [p] }

/-- `Scheduler::schedulePause`. -/
def schedulePause (s : Scheduler) : Outcome :=
  if s.scheduled Handle.pauseEvent then Outcome.ok s
  else eqScheduleNow Handle.pauseEvent s

/-- The first loop of `scheduleStop`: `while ((p = readyList.getNext()))
p->popListNode();`. Each turn removes the head, so the length of the list is
fuel enough. -/
def flushReady : Nat → Scheduler → Scheduler
  | 0, s => s
  | n + 1, s =>
    match getNext s.readyList with
    | none => s
    | some p => flushReady n (popListNode p s)

/-- The second loop of `scheduleStop`, over the update list. -/
def flushUpdates : Nat → Scheduler → Scheduler
  | 0, s => s
  | n + 1, s =>
    match getNext s.updateList with
    | none => s
    | some c => flushUpdates n (popChannel c s)

/-- `Scheduler::scheduleStop`. -/
def scheduleStop (finish_delta : Bool) (s : Scheduler) : Outcome :=
  if s.scheduled Handle.stopEvent then Outcome.ok s
  else
    let s1 :=
      if !finish_delta then
        let sr := flushReady s.readyList.length s
        flushUpdates sr.updateList.length sr
      else s
    eqScheduleNow Handle.stopEvent s1

/-- One call made by outside code. -/
def Action.apply (a : Action) (s : Scheduler) : Outcome :=
  match a with
  | ready p => sc_gem5.ready p s
  | requestUpdate c => sc_gem5.requestUpdate c s
  | reg p => sc_gem5.reg p s
  | dontInitialize p => Outcome.ok (sc_gem5.dontInitialize p s)
  | schedulePause => sc_gem5.schedulePause s
  | scheduleStop finish_delta => sc_gem5.scheduleStop finish_delta s
  | setException p exc =>
    Outcome.ok { s with excWrapper := (p, exc) :: s.excWrapper.filter (fun e => decide (e.1 ≠ p)) }

/-- The calls of a script, in order. -/
def runScript : List Action → Scheduler → Outcome
  | [], s => Outcome.ok s
  | a :: rest, s => (a.apply s).bind (runScript rest)

/-- The first loop of `prepareForInit`, over `toFinalize`: finalize the head
and unlink it, until the list is empty. -/
def finalizeLoop : Nat → Scheduler → Scheduler
  | 0, s => s
  | n + 1, s =>
    match getNext s.toFinalize with
    | none => s
    | some p => finalizeLoop n (popListNode p (finalize p s))

/-- The second loop of `prepareForInit`, over `initList`: finalize the head,
unlink it and mark it ready. -/
def initLoop : Nat → Scheduler → Outcome
  | 0, s => Outcome.ok s
  | n + 1, s =>
    match getNext s.initList with
    | none => Outcome.ok s
    | some p => (ready p (popListNode p (finalize p s))).bind (initLoop n)

/-- The third loop of `prepareForInit`: `eq->schedule(ets.first, ets.second)`
for each deferred event. -/
def scheduleDeferred : List (Handle × Tick) → Scheduler → Outcome
  | [], s => Outcome.ok s
  | ets :: rest, s => (eqSchedule ets.1 ets.2 s).bind (scheduleDeferred rest)

/-- `Scheduler::prepareForInit`. -/
def prepareForInit (s : Scheduler) : Outcome :=
  let s1 := finalizeLoop s.toFinalize.length s
  (initLoop s1.initList.length s1).bind fun s2 =>
  (scheduleDeferred s2.eventsToSchedule s2).bind fun s3 =>
  let s4 := { s3 with eventsToSchedule := [] }
  (if s4._started then eqSchedule Handle.maxTickEvent s4.maxTick s4 else Outcome.ok s4).bind
    fun s5 => Outcome.ok { s5 with initReady := true }

/-- The process runs until it suspends or finishes (`_current->fiber()->run()`
and, for a process that needs starting, `_current->run()`): the scheduler sees
the calls it makes meanwhile. -/
def runProcess (env : Env) (p : Process) (s : Scheduler) : Outcome :=
  let s1 := { s with log := s.log ++ [Obs.run p] }
  runScript (env.body p s1) s1

/-- Lines 121 to 127 of `Scheduler::yield`, run by a call of `yield()` when its
fiber has control again: a pending exception of the process that is then
`_current` is taken out of its slot and thrown; the `assert` rejects a process
that needs starting. -/
def rethrow (s : Scheduler) : Outcome :=
  match s._current with
  | none => Outcome.ok s
  | some c =>
    match s.excWrapper.lookup c with
    | none => Outcome.ok s
    | some ew =>
      if c.needsStart then Outcome.abort Abort.assertion
      else
        Outcome.threw ew
          { s with excWrapper := s.excWrapper.filter (fun e => decide (e.1 ≠ c)) }

/-- An execution context: the primary fiber, on which the scheduler's own code
runs, or the fiber of a process. -/
inductive Fiber where
  | primary
  | ofProcess (p : Process)
  deriving DecidableEq, Repr

/-- Modelled from the spec: `Process::fiber()` (`process.hh` is not among the
sources). A process that "requires an explicit first invocation (as opposed to
being resumed mid-body)" has no body to be resumed in: it is invoked by the
call `_current->run()` of line 119, on the primary fiber, where `runReady`
runs. Every other process has a "resumable execution context" of its own. -/
def Process.fiber (p : Process) : Fiber :=
  if p.needsStart then Fiber.primary else Fiber.ofProcess p

/-- The switch of line 116 gives control to the fiber of the thread `p`, which
is `_current`. A thread that ran before left its fiber by a call of `yield()`
of its own (`wait()` in `sc_module.cc`) and is parked in that call at the
switch of fiber; the call now goes on with lines 118 to 127 (line 118 does
nothing for a process that needs no starting): an exception pending for the
thread is taken out of its slot and thrown there, in the fiber of the thread
and into its body, which is recorded in `raised`. A thread that runs for the
first time starts in its body. -/
def resumeInYield (p : Process) (s : Scheduler) : Outcome :=
  if p ∈ s.parked then
    match rethrow { s with parked := s.parked.erase p } with
    | Outcome.threw exc s2 => Outcome.ok { s2 with raised := s2.raised ++ [(p, exc)] }
    | o => o
  else Outcome.ok s

/-- The thread `p` hands control back: it calls `yield()` (by `wait()`, or at
the end of its body), and its fiber is parked in that call as soon as the call
switches to another fiber. -/
def park (p : Process) (s : Scheduler) : Scheduler :=
  if p ∈ s.parked then s else { s with parked := s.parked ++ [p] }

/-- A call of `Scheduler::yield`, by whichever fiber makes it, up to the point
where the process it dispatches hands control back. The head of the ready list
becomes the current process and is unlinked (lines 108 to 114); with an empty
list control goes to the primary fiber, which has nothing to run. A process
without a fiber of its own is run by call on the primary fiber (lines 118 and
119), and lines 121 to 127 follow when it returns. For a thread, line 116
switches to its fiber: its own pending call of `yield()` goes on
(`resumeInYield`) and it runs until it hands control back by the next call of
`yield()`, which is the next call of this function; lines 118 to 127 of the
present call run only when the fiber that made it is given control again. -/
def yield (env : Env) (s : Scheduler) : Outcome :=
  let s0 := { s with _current := getNext s.readyList }
  match s0._current with
  | none => Outcome.ok s0
  | some p =>
    match p.fiber with
    | Fiber.primary =>
      (if p.needsStart then runProcess env p (popListNode p s0)
        else Outcome.ok (popListNode p s0)).bind rethrow
    | Fiber.ofProcess _ =>
      (resumeInYield p (popListNode p s0)).bind fun s2 =>
      (runProcess env p s2).bind fun s3 => Outcome.ok (park p s3)

/-- A call of `Scheduler::yield` made on the primary fiber (by `runReady`),
from the call to its return. A thread that it dispatches hands control back by
a call of `yield()` of its own, which dispatches the next process, and so on:
control is on the primary fiber again, and the call returns, when one of these
calls finds the ready list empty or dispatches a process that runs on the
primary fiber. The chain need not end, hence the fuel. -/
def yieldOnPrimary (env : Env) : Nat → Scheduler → Outcome
  | 0, _ => Outcome.outOfFuel
  | n + 1, s =>
    match getNext s.readyList with
    | none => yield env s
    | some p =>
      match p.fiber with
      | Fiber.primary => yield env s
      | Fiber.ofProcess _ => (yield env s).bind (yieldOnPrimary env n)

/-- The evaluation phase of `runReady`: `do yield(); while (!readyList.empty())`.
The loop runs on the primary fiber, so each turn is a call of `yield()` made
there, from the call to its return. The loop need not end, hence the fuel,
which bounds the turns of the loop and the calls of `yield()` behind each. -/
def evaluate (env : Env) : Nat → Scheduler → Outcome
  | 0, _ => Outcome.outOfFuel
  | n + 1, s =>
    (yieldOnPrimary env (n + 2) s).bind fun s1 =>
      if s1.readyList.isEmpty then Outcome.ok s1 else evaluate env n s1

/-- The call `channel->update()`: it is recorded with the lists as they stand,
then the channel makes its calls. -/
def runChannel (env : Env) (c : Channel) (s : Scheduler) : Outcome :=
  let s1 := { s with log := s.log ++ [Obs.update c s.readyList s.updateList] }
  runScript (env.update c s1) s1

/-- `Scheduler::update`. The loop need not end, hence the fuel. -/
def update (env : Env) : Nat → Scheduler → Outcome
  | 0, s =>
    match getNext s.updateList with
    | none => Outcome.ok s
    | some _ => Outcome.outOfFuel
  | n + 1, s =>
    match getNext s.updateList with
    | none => Outcome.ok s
    | some channel => (runChannel env channel (popChannel channel s)).bind (update env n)

/-- `Scheduler::runReady`; `fuel` bounds the turns of each of its two loops. -/
def runReady (env : Env) (fuel : Nat) (s : Scheduler) : Outcome :=
  let empty := s.readyList.isEmpty
  (evaluate env fuel s).bind fun s1 =>
  let s2 := if !empty then { s1 with _numCycles := s1._numCycles + 1 } else s1
  (update env fuel s2).bind fun s3 =>
  if env.starved s3 && !s3.runToTime then scheduleStarvationEvent s3
  else Outcome.ok s3

/-- `Kernel::stopWork` (`kernel.cc`). -/
def stopWork (env : Env) (s : Scheduler) : Outcome :=
  let s1 := { s with status := sc_status.SC_END_OF_SIMULATION,
                     log := s.log ++ [Obs.end_of_simulation] }
  (runScript (env.end_of_simulation s1) s1).bind fun s2 =>
  let s3 := { s2 with endComplete := true, status := sc_status.SC_STOPPED }
  if s3.stopAfterCallbacks then Outcome.abort Abort.fatal else Outcome.ok s3

/-- `Kernel::stop` (`kernel.cc`). -/
def kernelStop (env : Env) (s : Scheduler) : Outcome :=
  if s.status.toNat < sc_status.SC_RUNNING.toNat then
    Outcome.ok { s with stopAfterCallbacks := true }
  else stopWork env s

/-- `scMain->run()`: control goes back to the fiber that called `start`. -/
def runScMain (s : Scheduler) : Outcome :=
  if s.scMain then Outcome.ok s else Outcome.abort Abort.nullDeref

/-- `Scheduler::pause`. -/
def pause (s : Scheduler) : Outcome :=
  runScMain { s with _paused := true, status := sc_status.SC_PAUSED }

/-- `Scheduler::stop`. -/
def stop (env : Env) (s : Scheduler) : Outcome :=
  (kernelStop env { s with _stopped := true }).bind runScMain

/-- `Scheduler::start` up to the point where it either returns at once or
hands control to the simulation (`Fiber::primaryFiber()->run()`). -/
def startEnter (env : Env) (max_tick : Tick) (run_to_time : Bool) (s : Scheduler) : Outcome :=
  let s1 := { s with scMain := true, _started := true, _paused := false,
                     _stopped := false, runToTime := run_to_time, maxTick := max_tick }
  if env.starved s1 && !s1.runToTime then Outcome.ok s1
  else if s1.initReady then
    eqSchedule Handle.maxTickEvent s1.maxTick { s1 with status := sc_status.SC_RUNNING }
  else Outcome.ok s1

/-- Whether `start` comes back without entering the simulation. -/
def startReturnsAtOnce (env : Env) (max_tick : Tick) (run_to_time : Bool) (s : Scheduler) : Bool :=
  env.starved { s with scMain := true, _started := true, _paused := false,
                       _stopped := false, runToTime := run_to_time, maxTick := max_tick }
    && !run_to_time

/-- `Scheduler::start` from the point where control comes back from the
simulation: the four `deschedule` statements. -/
def startReturn (s : Scheduler) : Scheduler :=
  descheduleIfScheduled Handle.starvationEvent
    (descheduleIfScheduled Handle.maxTickEvent
      (descheduleIfScheduled Handle.stopEvent
        (descheduleIfScheduled Handle.pauseEvent s)))

/-- `Scheduler::start`, with `simulation` for what happens between the switch
to the primary fiber and the switch back. -/
def start (env : Env) (simulation : Scheduler → Outcome) (max_tick : Tick)
    (run_to_time : Bool) (s : Scheduler) : Outcome :=
  if startReturnsAtOnce env max_tick run_to_time s then startEnter env max_tick run_to_time s
  else
    ((startEnter env max_tick run_to_time s).bind simulation).bind
      fun s1 => Outcome.ok (startReturn s1)

/-- Modelled from the spec: the host queue fires a scheduled timer of the
scheduler. The handle leaves the queue, time moves to its tick and the
callback bound to the timer runs: `runReady` for the ready timer, `pause` for
the pause timer, `stop` for the stop timer, and a return of control to the
driver (`pause`) for the starvation and max-tick timers. -/
def fire (env : Env) (fuel : Nat) (h : Handle) (s : Scheduler) : Outcome :=
  match s.eq with
  | none => Outcome.ok s
  | some q =>
    if q.scheduled h then
      let s1 := { s with eq := some { q.deschedule h with curTick := q.when h } }
      match h with
      | Handle.readyEvent => runReady env fuel s1
      | Handle.pauseEvent => pause s1
      | Handle.stopEvent => stop env s1
      | Handle.starvationEvent => pause s1
      | Handle.maxTickEvent => pause s1
      | _ => Outcome.ok s1
    else Outcome.ok s

/-- The operations on the scheduler. -/
inductive Op where
  | setEventQueue (q : EventQueue)
  | ready (p : Process)
  | requestUpdate (c : Channel)
  | reg (p : Process)
  | dontInitialize (p : Process)
  | yield
  | update (fuel : Nat)
  | runReady (fuel : Nat)
  | pause
  | stop
  | startEnter (max_tick : Tick) (run_to_time : Bool)
  | startReturn
  | schedulePause
  | scheduleStop (finish_delta : Bool)
  | prepareForInit
  | fire (fuel : Nat) (h : Handle)
  deriving DecidableEq, Repr

/-- One operation. The event manager is installed once, and the queue that is
installed holds none of the scheduler's timers, which are only ever scheduled
through `eq`. -/
def Op.run (env : Env) (op : Op) (s : Scheduler) : Outcome :=
  match op with
  | setEventQueue q =>
    if s.eq.isNone && !q.scheduled Handle.readyEvent && !q.scheduled Handle.starvationEvent
    then Outcome.ok (sc_gem5.setEventQueue q s) else Outcome.ok s
  | ready p => sc_gem5.ready p s
  | requestUpdate c => sc_gem5.requestUpdate c s
  | reg p => sc_gem5.reg p s
  | dontInitialize p => Outcome.ok (sc_gem5.dontInitialize p s)
  | yield => sc_gem5.yield env s
  | update fuel => sc_gem5.update env fuel s
  | runReady fuel => sc_gem5.runReady env fuel s
  | pause => sc_gem5.pause s
  | stop => sc_gem5.stop env s
  | startEnter max_tick run_to_time => sc_gem5.startEnter env max_tick run_to_time s
  | startReturn => Outcome.ok (sc_gem5.startReturn s)
  | schedulePause => sc_gem5.schedulePause s
  | scheduleStop finish_delta => sc_gem5.scheduleStop finish_delta s
  | prepareForInit => sc_gem5.prepareForInit s
  | fire fuel h => sc_gem5.fire env fuel h s

/-- A sequence of operations, each starting where the one before returned. -/
def runOps (env : Env) : List Op → Scheduler → Outcome
  | [], s => Outcome.ok s
  | op :: rest, s => (op.run env s).bind (runOps env rest)

/-! ## Notions used to state the properties -/

/-- Whether the process is of method kind, the test made by `ready`. -/
def Process.isMethod (p : Process) : Bool :=
  decide (p.procKind = sc_curr_proc_kind.SC_METHOD_PROC_)

/-- No process that is not a method stands before a method. -/
def MethodsFirst (l : List Process) : Prop :=
  l.Pairwise (fun a b => b.isMethod = true → a.isMethod = true)

/-- Not both the ready-dispatch timer and the starvation timer are armed. -/
def TimersExclusive (s : Scheduler) : Prop :=
  ¬ (s.scheduled Handle.readyEvent = true ∧ s.scheduled Handle.starvationEvent = true)

/-- The states the scheduler can be in: the constructed one, and every state
an operation ends in, by return or by exception, when started in such a state. -/
inductive Reachable (env : Env) : Scheduler → Prop where
  | constructed : Reachable env Scheduler.new
  | step (op : Op) (s s' : Scheduler) :
      Reachable env s → (op.run env s).state? = some s' → Reachable env s'

/-- `ready(p)` for each process of the list, in order. -/
def readyAll : List Process → Scheduler → Outcome
  | [], s => Outcome.ok s
  | p :: rest, s => (ready p s).bind (readyAll rest)

/-- `requestUpdate(c)` for each channel of the list, in order. -/
def requestAll : List Channel → Scheduler → Outcome
  | [], s => Outcome.ok s
  | c :: rest, s => (requestUpdate c s).bind (requestAll rest)

/-- Successive calls of `yield()`. -/
def yields (env : Env) : Nat → Scheduler → Outcome
  | 0, s => Outcome.ok s
  | n + 1, s => (yield env s).bind (yields env n)

/-- The processes that were given control, in order. -/
def dispatched (log : List Obs) : List Process :=
  log.filterMap fun o =>
    match o with
    | Obs.run p => some p
    | _ => none

/-- The channels whose `update()` was called, in order, each with the update
list as it stood at the call. -/
def updateCalls (log : List Obs) : List (Channel × List Channel) :=
  log.filterMap fun o =>
    match o with
    | Obs.update c _ u => some (c, u)
    | _ => none

/-- The ready lists seen by the calls of `channel->update()`, in order. -/
def readyAtUpdates (log : List Obs) : List (List Process) :=
  log.filterMap fun o =>
    match o with
    | Obs.update _ r _ => some r
    | _ => none

/-- The order in which successive `yield()` calls dispatch the processes on
which `ready()` was called, in the order of the list, before any of them ran:
one `yield()` per process. -/
def dispatchOrder (env : Env) (ps : List Process) (s : Scheduler) : Option (List Process) :=
  match readyAll ps s with
  | Outcome.ok s1 =>
    match yields env ps.length s1 with
    | Outcome.ok s2 => some ((dispatched s2.log).drop (dispatched s1.log).length)
    | _ => none
  | _ => none

/-- Two processes of the same kind are dispatched in the order in which
`ready()` was called on them (`ps` is the call order, `d` the dispatch order). -/
def FifoWithinKind (ps d : List Process) : Prop :=
  ∀ p q : Process, [p, q].Sublist ps → p.isMethod = q.isMethod → [p, q].Sublist d

/-- The calls of `update()` expected for an update list: each channel once, in
order, the list holding the channels that follow it. -/
def expectedCalls : List Channel → List (Channel × List Channel)
  | [] => []
  | c :: rest => (c, rest) :: expectedCalls rest

/-- A call that can put a process on the ready list. -/
def Action.makesReady : Action → Bool
  | Action.ready _ => true
  | Action.reg _ => true
  | _ => false

/-- A call that can change the update list. -/
def Action.touchesUpdateList : Action → Bool
  | Action.requestUpdate _ => true
  | Action.scheduleStop finish_delta => !finish_delta
  | _ => false

/-- A call that leaves the ready list and the pending exceptions alone. -/
def Action.leavesProcesses : Action → Bool
  | Action.requestUpdate _ => true
  | Action.schedulePause => true
  | Action.scheduleStop finish_delta => finish_delta
  | _ => false

/-- A scheduler whose event manager is installed, at tick 0 with nothing
scheduled, and nothing else done. -/
def Scheduler.installed : Scheduler :=
  setEventQueue { curTick := 0, pending := [] } Scheduler.new

/-- What the timers need to stay exclusive: they are, and no deferred event
waiting for `prepareForInit` is one of the two. -/
def TimerInv (s : Scheduler) : Prop :=
  TimersExclusive s ∧
    ∀ e ∈ s.eventsToSchedule, e.1 ≠ Handle.readyEvent ∧ e.1 ≠ Handle.starvationEvent

/-- Passing from `s` to `s'` keeps the ordering of the ready list and the
exclusion of the two timers. -/
def Keeps (s s' : Scheduler) : Prop :=
  (MethodsFirst s.readyList → MethodsFirst s'.readyList) ∧ (TimerInv s → TimerInv s')

/-- Every state the outcome ends in keeps both. -/
def Outcome.Keeps (s : Scheduler) (o : Outcome) : Prop :=
  ∀ s', o.state? = some s' → sc_gem5.Keeps s s'

/-- The state an outcome ends in, the constructed scheduler when there is
none. -/
def Outcome.get (o : Outcome) : Scheduler :=
  match o with
  | Outcome.ok s => s
  | Outcome.threw _ s => s
  | _ => Scheduler.new

/-- A method process, for the examples. -/
def exampleMethod (id : Nat) : Process :=
  { id := id, procKind := sc_curr_proc_kind.SC_METHOD_PROC_ }

/-- A thread process, for the examples. -/
def exampleThread (id : Nat) : Process :=
  { id := id, procKind := sc_curr_proc_kind.SC_THREAD_PROC_ }

/-- An environment for the examples: processes and modules make no calls, and
the scheduler is starved when both its lists are empty. -/
def Env.idle : Env :=
  { body := fun _ _ => [], update := fun _ _ => [], end_of_simulation := fun _ => [],
    starved := fun s => s.readyList.isEmpty && s.updateList.isEmpty }

/-- The ready list, the exception slots and the record are those of `s`, and
the event manager is still there. -/
def SameProcesses (s s' : Scheduler) : Prop :=
  s'.readyList = s.readyList ∧ s'.excWrapper = s.excWrapper ∧ s'.log = s.log ∧
    s'.eq.isSome = true

/-- Every state the outcome ends in is related to `s`. -/
def Outcome.Rel (R : Scheduler → Scheduler → Prop) (s : Scheduler) (o : Outcome) : Prop :=
  ∀ s', o.state? = some s' → R s s'

/-- Whether the entry records a call of `channel->update()`. -/
def Obs.isUpdate : Obs → Bool
  | Obs.update _ _ _ => true
  | _ => false

/-- The record of `s'` is the record of `s` followed by entries none of which
is a call of `channel->update()`. -/
def LogQuiet (s s' : Scheduler) : Prop :=
  ∃ added, s'.log = s.log ++ added ∧ ∀ o ∈ added, o.isUpdate = false

/-- What a stretch of code did: it called no `channel->update()`; when
`keepReady` is set, a ready list that was empty is still empty; when
`keepUpdates` is set, the update list is unchanged. -/
def Effect (keepReady keepUpdates : Bool) (s s' : Scheduler) : Prop :=
  LogQuiet s s' ∧ (keepReady = true → s.readyList = [] → s'.readyList = []) ∧
    (keepUpdates = true → s'.updateList = s.updateList)

/-- Every `channel->update()` recorded was called with an empty ready list. -/
def UpdatesSeeEmptyReadyList (log : List Obs) : Prop :=
  ∀ r ∈ readyAtUpdates log, r = []

/-- An environment for the examples: the `update()` of channel 1 makes thread
9 ready (as an immediate notification of an event the thread waits for
does). -/
def Env.updateReadies : Env :=
  { Env.idle with
    update := fun c _ => if c.id = 1 then [Action.ready (exampleThread 9)] else [] }

/-- An environment for the examples: the `update()` of channel 1 stops the
simulation without finishing the delta cycle. -/
def Env.updateStops : Env :=
  { Env.idle with update := fun c _ => if c.id = 1 then [Action.scheduleStop false] else [] }

/-- Whether the call is `requestUpdate`. -/
def Action.isRequestUpdate : Action → Bool
  | Action.requestUpdate _ => true
  | _ => false

/-- The record of `s'` is the record of `s` followed by further entries. -/
def LogExtends (s s' : Scheduler) : Prop :=
  ∃ added, s'.log = s.log ++ added

/-- Started with an empty ready list, the code ends with an empty ready list
and every `channel->update()` it called saw an empty ready list. -/
def UpdatesQuietly (s s' : Scheduler) : Prop :=
  s.readyList = [] →
    s'.readyList = [] ∧ ∃ added, s'.log = s.log ++ added ∧ UpdatesSeeEmptyReadyList added

/-- The first `channel->update()` the code called, if any, saw the ready list
of the state the code started in. -/
def FirstUpdateSees (s s' : Scheduler) : Prop :=
  ∃ added, s'.log = s.log ++ added ∧
    ∀ r, (readyAtUpdates added).head? = some r → r = s.readyList

/-- An environment for the examples: thread 1 requests the update of channels
1 and 2 and makes method 2 ready; the `update()` of channel 1 requests the
update of channel 3. -/
def Env.busy : Env :=
  { Env.idle with
    body := fun p _ =>
      if p.id = 1 then
        [Action.requestUpdate { id := 1 }, Action.requestUpdate { id := 2 },
          Action.ready (exampleMethod 2)]
      else [],
    update := fun c _ => if c.id = 1 then [Action.requestUpdate { id := 3 }] else [] }

/-- Each channel of the list had its `update()` called once, in the order of
the list, and no other channel had. -/
def UpdatedOnceInOrder (chans : List Channel) (log : List Obs) : Prop :=
  (updateCalls log).map Prod.fst = chans

/-- A scheduler for the examples: the event manager is installed, a thread is
ready, the update of a channel is requested, and a stop that finishes the
delta cycle has been scheduled. -/
def exampleStopScheduled : Scheduler :=
  (runOps Env.idle
    [Op.ready (exampleThread 1), Op.requestUpdate { id := 1 }, Op.scheduleStop true]
    Scheduler.installed).get

/-- A scheduler for the examples: initialisation is done, a thread is ready
and a pause has been scheduled. -/
def examplePauseScheduled : Scheduler :=
  (runOps Env.idle [Op.prepareForInit, Op.ready (exampleThread 1), Op.schedulePause]
    Scheduler.installed).get

/-- Passing from `s` to `s'` does not take `initReady` back. -/
def Latched (s s' : Scheduler) : Prop :=
  s.initReady = true → s'.initReady = true

/-- Only the host queue differs between `s` and `s'`. -/
def OnlyQueue (s s' : Scheduler) : Prop :=
  s' = { s with eq := s'.eq }

/-- The lists of processes are intrusive: a process is linked in at most one
place of at most one of the ready list, the init list and the finalize-only
list. -/
def Intrusive (s : Scheduler) : Prop :=
  s.readyList.Nodup ∧ s.initList.Nodup ∧ s.toFinalize.Nodup ∧
    (∀ x ∈ s.initList, x ∉ s.readyList) ∧ (∀ x ∈ s.toFinalize, x ∉ s.readyList) ∧
    (∀ x ∈ s.toFinalize, x ∉ s.initList)

/-- A scheduler for the examples: before initialisation, thread 1, method 2
and thread 3 are registered and thread 3 has opted out of its initial run. -/
def exampleRegistered : Scheduler :=
  (runOps Env.idle
    [Op.reg (exampleThread 1), Op.reg (exampleMethod 2), Op.reg (exampleThread 3),
      Op.dontInitialize (exampleThread 3)] Scheduler.installed).get

/-- What immediate delivery reads and writes: the member `sensitivities` of the
event, in the order in which it is iterated; the record of the calls
`s->notify(this)`, a sensitivity being known by its address; and the count
kept by `scheduler.eventHappened()`. -/
structure Delivery where
  sensitivities : List Nat
  notified : List Nat
  eventsHappened : Nat
  deriving DecidableEq, Repr

/-- One turn of the loop of `Event::notify()`: the call `s->notify(this)` is
recorded, and the sensitivity leaves the event with the `sensitivities` it
chooses (`react`: it may add or remove itself or others). -/
def Delivery.call (react : Nat → Delivery → List Nat) (st : Delivery) (s : Nat) : Delivery :=
  { st with notified := st.notified ++ [s], sensitivities := react s st }

/-- `Event::notify()`: `auto local_sensitivities = sensitivities; for (auto s:
local_sensitivities) s->notify(this);`. -/
def Event.notifyNow (react : Nat → Delivery → List Nat) (st : Delivery) : Delivery :=
  let local_sensitivities := st.sensitivities
  local_sensitivities.foldl (Delivery.call react) st

/-- Modelled from the spec: `Scheduler::eventHappened()` (`scheduler.hh` is not
among the sources) "informs the Scheduler that an event fired this instant
(contributes to delta-cycle bookkeeping / statistics)". -/
def Delivery.eventHappened (st : Delivery) : Delivery :=
  { st with eventsHappened := st.eventsHappened + 1 }

/-- `Event::delayedNotify`: `scheduler.eventHappened(); notify();`. -/
def Event.delayedNotify (react : Nat → Delivery → List Nat) (st : Delivery) : Delivery :=
  Event.notifyNow react st.eventHappened

/-- A reaction for the examples: when notified, sensitivity 1 removes
sensitivity 2 from the event and adds sensitivity 4; the others leave the
event as it is. -/
def exampleReact (s : Nat) (st : Delivery) : List Nat :=
  if s = 1 then st.sensitivities.erase 2 ++ [4] else st.sensitivities

/-- The string holds no NUL character, as every string made from a C string
does. -/
def NoNul (s : String) : Prop := Char.ofNat 0 ∉ s.toList

/-- A registry for the examples: a top-level event `a` and an event `b` of an
object `top`. -/
def exampleRegistry : List Event :=
  [{ _sc_event := 1, _basename := "a", _name := "a", parent := none },
   { _sc_event := 2, _basename := "b", _name := "top.b", parent := some 7 }]

/-! ## Construction of an event (`event.cc`) -/

/-- What the constructor reads of an `sc_object` that may become the parent of
the event: its identity and `parent->name()`. -/
structure ScObject where
  id : Nat
  name : String
  deriving DecidableEq, Repr

/-- What `Event::Event` reads of its surroundings: `currentModule()` (`none`
for a null pointer) with the value of `p->obj()->sc_obj()` for it, and
`scheduler.current()`, the process that is running, as an `sc_object`. -/
structure ConstructionContext where
  currentModule : Option (Option ScObject)
  current : Option ScObject
  deriving DecidableEq, Repr

/-- The first statement of `Event::Event`: the parent is the object of the
current module, else the current process, else null. -/
def ConstructionContext.parent (ctx : ConstructionContext) : Option ScObject :=
  match ctx.currentModule with
  | some p => p
  | none =>
    match ctx.current with
    | some c => some c
    | none => none

/-- Modelled from the spec: `Object::addChildEvent`, by which the event is made
to "additionally register as a child event of that parent so hierarchy
traversal can find it" (`object.cc` is not among the sources). -/
def addChildEvent (children : List (Nat × Nat)) (par ev : Nat) : List (Nat × Nat) :=
  children ++ [(par, ev)]

/-- `Event::Event(sc_core::sc_event *, const char *)`: the event constructed
and the registries after it. The registries hold the pointer `_sc_event`; here
they hold the event it stands for. -/
def Event.construct (ctx : ConstructionContext) (_sc_event : Nat) (_basename : String)
    (w : EventWorld) : Event × EventWorld :=
  let parent := ctx.parent
  let _name :=
    match parent with
    | some par => par.name ++ "." ++ _basename
    | none => _basename
  let e : Event :=
    { _sc_event := _sc_event, _basename := _basename, _name := _name,
      parent := parent.map (fun par => par.id) }
  let w1 :=
    match parent with
    | some par => { w with childEvents := addChildEvent w.childEvents par.id _sc_event }
    | none => { w with topLevelEvents := w.topLevelEvents ++ [e] }
  (e, { w1 with allEvents := w1.allEvents ++ [e] })

/-- `Event::Event(sc_core::sc_event *)`: the basename is the empty string. -/
def Event.constructUnnamed (ctx : ConstructionContext) (_sc_event : Nat) (w : EventWorld) :
    Event × EventWorld :=
  Event.construct ctx _sc_event "" w

/-- A world for the examples: no event yet. -/
def EventWorld.empty : EventWorld :=
  { topLevelEvents := [], allEvents := [], childEvents := [], eq := { curTick := 0, pending := [] } }

/-- A scheduler for the examples: a thread was made ready and has run, and
with nothing left to do the starvation timer is armed. -/
def exampleStarved : Scheduler :=
  (runOps Env.idle
    [Op.setEventQueue { curTick := 0, pending := [] }, Op.ready (exampleThread 1),
      Op.fire 2 Handle.readyEvent] Scheduler.new).get

/-! ## The phases of elaboration (`kernel.cc`) -/

/-- A call made by a module callback of the elaboration phases: a call into
the scheduler, or a call of `Kernel::stop()`. -/
inductive Callback where
  | call (a : Action)
  | stop
  deriving DecidableEq, Repr

/-- The calls of the callbacks of one phase, in order. -/
def runCallbacks (env : Env) : List Callback → Scheduler → Outcome
  | [], s => Outcome.ok s
  | Callback.call a :: rest, s => (a.apply s).bind (runCallbacks env rest)
  | Callback.stop :: rest, s => (kernelStop env s).bind (runCallbacks env rest)

/-- What the modules of `allModules` do in their callbacks
`before_end_of_elaboration()`, `end_of_elaboration()` and
`start_of_simulation()`, all modules together and in the order of the calls,
chosen from the state the phase starts in. -/
structure Modules where
  before_end_of_elaboration : Scheduler → List Callback
  end_of_elaboration : Scheduler → List Callback
  start_of_simulation : Scheduler → List Callback

/-- `Kernel::init`. -/
def kernelInit (env : Env) (mods : Modules) (s : Scheduler) : Outcome :=
  let s1 := { s with status := sc_status.SC_BEFORE_END_OF_ELABORATION }
  (runCallbacks env (mods.before_end_of_elaboration s1) s1).bind fun s2 =>
  if s2.stopAfterCallbacks then stopWork env s2 else Outcome.ok s2

/-- `Kernel::regStats`. -/
def kernelRegStats (env : Env) (mods : Modules) (s : Scheduler) : Outcome :=
  let s1 := { s with status := sc_status.SC_END_OF_ELABORATION }
  (runCallbacks env (mods.end_of_elaboration s1) s1).bind fun s2 =>
  if s2.stopAfterCallbacks then stopWork env s2 else Outcome.ok s2

/-- `Kernel::startup`. `t0Event` is the handle of the member of that name and
`eventQueue` the queue of the kernel object, on which `schedule(t0Event,
curTick())` puts it before the queue is installed as the event manager of the
scheduler; `fuel` bounds the turns of the loop of `update()`. -/
def kernelStartup (env : Env) (mods : Modules) (t0Event : Handle) (eventQueue : EventQueue)
    (fuel : Nat) (s : Scheduler) : Outcome :=
  let s1 := { s with status := sc_status.SC_START_OF_SIMULATION }
  (runCallbacks env (mods.start_of_simulation s1) s1).bind fun s2 =>
  let s3 := { s2 with startComplete := true }
  (if s3.stopAfterCallbacks then stopWork env s3 else Outcome.ok s3).bind fun s4 =>
  let s5 := { s4 with status := sc_status.SC_RUNNING }
  let s6 := setEventQueue (eventQueue.schedule t0Event eventQueue.getCurTick) s5
  update env fuel s6

/-- Modules whose callbacks make no call. -/
def Modules.idle : Modules :=
  { before_end_of_elaboration := fun _ => [], end_of_elaboration := fun _ => [],
    start_of_simulation := fun _ => [] }

/-- Modules for the examples: a callback of `end_of_elaboration()` calls
`Kernel::stop()`. -/
def Modules.stopping : Modules :=
  { Modules.idle with end_of_elaboration := fun _ => [Callback.stop] }

/-! ## Further notions used to state the properties -/

/-- The code returned or aborted: it neither left by an exception nor ran out
of fuel. -/
def Outcome.ReturnsOrAborts (o : Outcome) : Prop :=
  (∃ s, o = Outcome.ok s) ∨ (∃ why, o = Outcome.abort why)

/-- A stop that was asked for during elaboration is still asked for. -/
def StopLatched (s s' : Scheduler) : Prop :=
  s.stopAfterCallbacks = true → s'.stopAfterCallbacks = true

/-- The cycle counter and the status and flags of the kernel are what they
were. -/
def Untouched (s s' : Scheduler) : Prop :=
  s'._numCycles = s._numCycles ∧ s'.status = s.status ∧
    s'.stopAfterCallbacks = s.stopAfterCallbacks ∧ s'.endComplete = s.endComplete ∧
    s'.startComplete = s.startComplete

/-- The current process is who it was and no process was given control: the
record of `s'` is the record of `s` followed by entries none of which is the
dispatch of a process. -/
def RunsNothing (s s' : Scheduler) : Prop :=
  s'._current = s._current ∧ ∃ added, s'.log = s.log ++ added ∧ dispatched added = []

/-- The relation holds across what a call from outside code does: it is
transitive; it holds between two states that differ at most in the queue, the
lists and the pending exceptions; and it holds across a recorded call of
`finalize`. -/
def ScriptStable (R : Scheduler → Scheduler → Prop) : Prop :=
  (∀ a b c, R a b → R b c → R a c) ∧
  (∀ s s' : Scheduler, s'.log = s.log → s'._current = s._current →
    s'._numCycles = s._numCycles → s'.status = s.status →
    s'.stopAfterCallbacks = s.stopAfterCallbacks → s'.endComplete = s.endComplete →
    s'.startComplete = s.startComplete → R s s') ∧
  (∀ (p : Process) (s : Scheduler), R s (finalize p s))

/-- An environment for the examples: the `update()` of channel 1 requests the
update of channel 3 and then stops the simulation without finishing the delta
cycle. -/
def Env.updateRequestsThenStops : Env :=
  { Env.idle with
    update := fun c _ =>
      if c.id = 1 then [Action.requestUpdate { id := 3 }, Action.scheduleStop false] else [] }

/-- An environment for the examples: the `update()` of channel 1 requests the
update of channel 1 again, as long as fewer than three updates were made, and
that of channel 2. -/
def Env.updateAgain : Env :=
  { Env.idle with
    update := fun c s =>
      if c.id = 1 then
        (if (updateCalls s.log).length < 3 then [Action.requestUpdate { id := 1 }] else [])
          ++ [Action.requestUpdate { id := 2 }]
      else [] }

/-- The state in which `channel->update()` starts to make its calls: the call
is recorded with the lists as they stand (the first step of `runChannel`). -/
def recordUpdate (c : Channel) (s : Scheduler) : Scheduler :=
  { s with log := s.log ++ [Obs.update c s.readyList s.updateList] }

/-- The state in which the `end_of_simulation()` callbacks start to make their
calls (the first step of `stopWork`). -/
def beginEndOfSimulation (s : Scheduler) : Scheduler :=
  { s with status := sc_status.SC_END_OF_SIMULATION, log := s.log ++ [Obs.end_of_simulation] }

theorem EventQueue.scheduled_iff_handles (q : EventQueue) (h : Handle) :
    q.scheduled h = true ↔ 0 < q.handles h := by
  simp [EventQueue.scheduled, EventQueue.handles, List.countP_pos_iff]

theorem EventQueue.scheduled_false_iff (q : EventQueue) (h : Handle) :
    q.scheduled h = false ↔ q.handles h = 0 := by
  simp [EventQueue.scheduled, EventQueue.handles, List.countP_eq_zero]

theorem EventQueue.handles_schedule_self (q : EventQueue) (h : Handle) (t : Tick) :
    (q.schedule h t).handles h = q.handles h + 1 := by
  simp [EventQueue.schedule, EventQueue.handles, List.countP_append]

theorem EventQueue.handles_deschedule_self (q : EventQueue) (h : Handle) :
    (q.deschedule h).handles h = 0 := by
  simp [EventQueue.deschedule, EventQueue.handles, List.countP_eq_zero]

theorem EventQueue.scheduled_deschedule_self (q : EventQueue) (h : Handle) :
    (q.deschedule h).scheduled h = false := by
  rw [EventQueue.scheduled_false_iff]; exact EventQueue.handles_deschedule_self q h

theorem EventQueue.scheduled_schedule_self (q : EventQueue) (h : Handle) (t : Tick) :
    (q.schedule h t).scheduled h = true := by
  rw [EventQueue.scheduled_iff_handles, EventQueue.handles_schedule_self]; omega

theorem EventQueue.scheduled_schedule_other (q : EventQueue) (h k : Handle) (t : Tick)
    (hk : k ≠ h) : (q.schedule k t).scheduled h = q.scheduled h := by
  simp [EventQueue.schedule, EventQueue.scheduled, hk]

theorem EventQueue.scheduled_deschedule_other (q : EventQueue) (h k : Handle)
    (hk : k ≠ h) : (q.deschedule k).scheduled h = q.scheduled h := by
  simp only [EventQueue.deschedule, EventQueue.scheduled, List.any_filter]
  congr 1
  funext e
  by_cases he : e.1 = h
  · have hne : ¬ h = k := fun hh => hk hh.symm
    simp [he, hne]
  · simp [he]

theorem EventQueue.when_schedule_fresh (q : EventQueue) (h : Handle) (t : Tick)
    (hq : q.scheduled h = false) : (q.schedule h t).when h = t := by
  have hnone : q.pending.find? (fun e => decide (e.1 = h)) = none := by
    simp only [EventQueue.scheduled] at hq
    simp only [List.find?_eq_none]
    intro x hx
    have := List.any_eq_false.mp hq x hx
    simpa using this
  simp [EventQueue.schedule, EventQueue.when, List.find?_append, hnone]

/-! ## Facts about `Event::notify(const sc_time &)` -/

theorem Event.notify_fresh (ps : Nat) (e : Event) (t : Nat) (q : EventQueue)
    (hq : q.scheduled e.delayedNotifyEvent = false) :
    (Event.notify ps e t q).handles e.delayedNotifyEvent = 1 ∧
    (Event.notify ps e t q).when e.delayedNotifyEvent = Event.newTick ps t q := by
  have h0 := (EventQueue.scheduled_false_iff _ _).mp hq
  simp [Event.notify, hq, EventQueue.handles_schedule_self, h0,
    EventQueue.when_schedule_fresh]

theorem Event.notify_pending (ps : Nat) (e : Event) (t : Nat) (q : EventQueue)
    (hq : q.handles e.delayedNotifyEvent = 1) :
    (Event.notify ps e t q).handles e.delayedNotifyEvent = 1 ∧
    (Event.notify ps e t q).when e.delayedNotifyEvent
      = min (q.when e.delayedNotifyEvent) (Event.newTick ps t q) := by
  have hs : q.scheduled e.delayedNotifyEvent = true := by
    rw [EventQueue.scheduled_iff_handles]; omega
  by_cases hge : Event.newTick ps t q ≥ q.when e.delayedNotifyEvent
  · simp only [Event.notify, hs, hge, if_true]
    exact ⟨hq, (min_eq_left hge).symm⟩
  · have hlt : Event.newTick ps t q < q.when e.delayedNotifyEvent := not_le.mp hge
    simp only [Event.notify, hs, hge, if_true, if_false]
    refine ⟨?_, ?_⟩
    · rw [EventQueue.handles_schedule_self, EventQueue.handles_deschedule_self]
    · rw [EventQueue.when_schedule_fresh _ _ _ (EventQueue.scheduled_deschedule_self _ _)]
      exact (min_eq_right (le_of_lt hlt)).symm

theorem Event.notifyAt_pending (ps : Nat) (e : Event) (q : EventQueue) (call : Tick × Nat)
    (hq : q.handles e.delayedNotifyEvent = 1) :
    (Event.notifyAt ps e q call).handles e.delayedNotifyEvent = 1 ∧
    (Event.notifyAt ps e q call).when e.delayedNotifyEvent
      = min (q.when e.delayedNotifyEvent) (Event.requested ps call) :=
  Event.notify_pending ps e call.2 { q with curTick := call.1 } hq

theorem Event.notifyAt_fresh (ps : Nat) (e : Event) (q : EventQueue) (call : Tick × Nat)
    (hq : q.scheduled e.delayedNotifyEvent = false) :
    (Event.notifyAt ps e q call).handles e.delayedNotifyEvent = 1 ∧
    (Event.notifyAt ps e q call).when e.delayedNotifyEvent = Event.requested ps call :=
  Event.notify_fresh ps e call.2 { q with curTick := call.1 } hq

/-- After further calls on an event with one pending notification there is
still one, due at the earliest of the pending tick and the requested ones. -/
theorem Event.notifyAll_pending (ps : Nat) (e : Event) (calls : List (Tick × Nat)) :
    ∀ q : EventQueue, q.handles e.delayedNotifyEvent = 1 →
      (Event.notifyAll ps e calls q).handles e.delayedNotifyEvent = 1 ∧
      (Event.notifyAll ps e calls q).when e.delayedNotifyEvent ≤ q.when e.delayedNotifyEvent ∧
      (∀ call ∈ calls, (Event.notifyAll ps e calls q).when e.delayedNotifyEvent
          ≤ Event.requested ps call) ∧
      ((Event.notifyAll ps e calls q).when e.delayedNotifyEvent = q.when e.delayedNotifyEvent ∨
        (Event.notifyAll ps e calls q).when e.delayedNotifyEvent
          ∈ calls.map (Event.requested ps)) := by
  induction calls with
  | nil => intro q hq; simp [Event.notifyAll, hq]
  | cons c rest ih =>
    intro q hq
    obtain ⟨h1, hw⟩ := Event.notifyAt_pending ps e q c hq
    obtain ⟨g1, g2, g3, g4⟩ := ih (Event.notifyAt ps e q c) h1
    have hfold : Event.notifyAll ps e (c :: rest) q
        = Event.notifyAll ps e rest (Event.notifyAt ps e q c) := rfl
    rw [hfold]
    rw [hw] at g2 g4
    refine ⟨g1, le_trans g2 (min_le_left _ _), ?_, ?_⟩
    · intro call hcall
      rcases List.mem_cons.mp hcall with rfl | hmem
      · exact le_trans g2 (min_le_right _ _)
      · exact g3 call hmem
    · rcases g4 with g4 | g4
      · rcases min_choice (q.when e.delayedNotifyEvent) (Event.requested ps c) with hm | hm
        · left; rw [g4, hm]
        · right; rw [g4, hm]; simp
      · right; simp only [List.map_cons, List.mem_cons]; right; exact g4

/-! ## Timed notification, cancellation and destruction of an event -/

theorem Event.requested_exact (ps : Nat) (call : Tick × Nat)
    (h : call.1 + call.2 * ps < TickMod) :
    Event.requested ps call = call.1 + call.2 * ps := by
  unfold Event.requested
  rw [Nat.add_comm (call.2 * ps) call.1]
  exact Nat.mod_eq_of_lt h

/-- After a non-empty sequence of `notify(delay)` calls on an event that had no
delayed notification pending, with nothing firing and no `cancel` in between,
exactly one delayed notification is pending and it is due at the earliest
requested tick: its tick is one of the requested ticks and is at most each of
them. For two calls, an earlier second request moves the delivery to the
second tick, a later or equal one leaves it at the first. The requested tick
is the 64-bit value the source computes; it is the current tick plus delay
times ticks-per-picosecond whenever that sum fits 64 bits. -/
theorem Event.notifyAll_earliest (ps : Nat) (e : Event) (q : EventQueue)
    (first : Tick × Nat) (later : List (Tick × Nat))
    (hq : q.scheduled e.delayedNotifyEvent = false) :
    (Event.notifyAll ps e (first :: later) q).handles e.delayedNotifyEvent = 1 ∧
    (Event.notifyAll ps e (first :: later) q).when e.delayedNotifyEvent
      ∈ (first :: later).map (Event.requested ps) ∧
    (∀ call ∈ first :: later,
      (Event.notifyAll ps e (first :: later) q).when e.delayedNotifyEvent
        ≤ Event.requested ps call) ∧
    (∀ second : Tick × Nat, later = [second] →
      (Event.requested ps second < Event.requested ps first →
        (Event.notifyAll ps e (first :: later) q).when e.delayedNotifyEvent
          = Event.requested ps second) ∧
      (Event.requested ps first ≤ Event.requested ps second →
        (Event.notifyAll ps e (first :: later) q).when e.delayedNotifyEvent
          = Event.requested ps first)) ∧
    (∀ call ∈ first :: later, call.1 + call.2 * ps < TickMod →
      Event.requested ps call = call.1 + call.2 * ps) := by
  obtain ⟨h1, hw⟩ := Event.notifyAt_fresh ps e q first hq
  obtain ⟨g1, g2, g3, g4⟩ := Event.notifyAll_pending ps e later (Event.notifyAt ps e q first) h1
  have hfold : Event.notifyAll ps e (first :: later) q
      = Event.notifyAll ps e later (Event.notifyAt ps e q first) := rfl
  rw [hfold]
  rw [hw] at g2 g4
  have hmem : (Event.notifyAll ps e later (Event.notifyAt ps e q first)).when
      e.delayedNotifyEvent ∈ (first :: later).map (Event.requested ps) := by
    rcases g4 with g4 | g4
    · rw [g4]; simp
    · simp only [List.map_cons, List.mem_cons]; right; exact g4
  have hle : ∀ call ∈ first :: later,
      (Event.notifyAll ps e later (Event.notifyAt ps e q first)).when e.delayedNotifyEvent
        ≤ Event.requested ps call := by
    intro call hcall
    rcases List.mem_cons.mp hcall with rfl | hm
    · exact g2
    · exact g3 call hm
  refine ⟨g1, hmem, hle, ?_, fun call _ hfit => Event.requested_exact ps call hfit⟩
  intro second hsecond
  subst hsecond
  have hsec := hle second (by simp)
  have hcases : (Event.notifyAll ps e [second] (Event.notifyAt ps e q first)).when
      e.delayedNotifyEvent = Event.requested ps first ∨
      (Event.notifyAll ps e [second] (Event.notifyAt ps e q first)).when
      e.delayedNotifyEvent = Event.requested ps second := by
    simpa using hmem
  constructor
  · intro hlt
    rcases hcases with hc | hc
    · rw [hc] at hsec; exact absurd hlt (not_lt.mpr hsec)
    · exact hc
  · intro hge
    rcases hcases with hc | hc
    · exact hc
    · rw [hc] at g2 ⊢; exact le_antisymm g2 hge

/-- C4: when a delayed notification is pending at `old_tick` and the newly
computed tick is not earlier (`new_tick >= old_tick`, equality included),
`notify(delay)` deschedules nothing and schedules nothing: the host queue,
and with it the pending handle of the event, is exactly as before. -/
theorem Event.notify_not_earlier_is_noop (ps : Nat) (e : Event) (t : Nat) (q : EventQueue)
    (hpending : q.scheduled e.delayedNotifyEvent = true)
    (hge : Event.newTick ps t q ≥ q.when e.delayedNotifyEvent) :
    Event.notify ps e t q = q := by
  simp only [Event.notify, hpending, hge, if_true]

/-- Witness of C4: a notification pending at tick 10 and a request for tick
10 again. -/
theorem Event.notify_not_earlier_is_noop_witness :
    Event.notify 1 ⟨1, "e", "e", none⟩ 10 ⟨0, [(Handle.delayedNotifyEvent 1, 10)]⟩
      = ⟨0, [(Handle.delayedNotifyEvent 1, 10)]⟩ :=
  Event.notify_not_earlier_is_noop 1 ⟨1, "e", "e", none⟩ 10
    ⟨0, [(Handle.delayedNotifyEvent 1, 10)]⟩ (by decide) (by decide)

/-- C5: after `cancel()` the event has no delayed notification pending; when
none was pending `cancel()` changes nothing; and a second `cancel()` yields
the state of a single one. -/
theorem Event.cancel_clears_and_is_idempotent (e : Event) (q : EventQueue) :
    (Event.cancel e q).scheduled e.delayedNotifyEvent = false ∧
    (Event.cancel e q).handles e.delayedNotifyEvent = 0 ∧
    (q.scheduled e.delayedNotifyEvent = false → Event.cancel e q = q) ∧
    Event.cancel e (Event.cancel e q) = Event.cancel e q := by
  have hclear : (Event.cancel e q).scheduled e.delayedNotifyEvent = false := by
    by_cases hs : q.scheduled e.delayedNotifyEvent = true
    · simp only [Event.cancel, hs, if_true]
      exact EventQueue.scheduled_deschedule_self _ _
    · have hf : q.scheduled e.delayedNotifyEvent = false := by simpa using hs
      simp [Event.cancel, hf]
  refine ⟨hclear, (EventQueue.scheduled_false_iff _ _).mp hclear, ?_, ?_⟩
  · intro hf; simp [Event.cancel, hf]
  · show (if (Event.cancel e q).scheduled e.delayedNotifyEvent = true then _ else _) = _
    rw [hclear]; simp

/-- Witness of C5: cancelling an event with nothing pending leaves the queue,
which holds another event, as it was. -/
theorem Event.cancel_clears_and_is_idempotent_witness :
    Event.cancel ⟨1, "e", "e", none⟩ ⟨4, [(Handle.delayedNotifyEvent 2, 9)]⟩
      = ⟨4, [(Handle.delayedNotifyEvent 2, 9)]⟩ :=
  (Event.cancel_clears_and_is_idempotent ⟨1, "e", "e", none⟩
    ⟨4, [(Handle.delayedNotifyEvent 2, 9)]⟩).2.2.1 (by decide)

theorem firstIndex_lt_of_mem {α : Type} (p : α → Bool) (l : List α) (a : α)
    (ha : a ∈ l) (hp : p a = true) : firstIndex p l < l.length := by
  induction l with
  | nil => cases ha
  | cons b rest ih =>
    by_cases hb : p b = true
    · simp [firstIndex, hb]
    · rcases List.mem_cons.mp ha with rfl | hm
      · exact absurd hp hb
      · have := ih hm
        simp only [firstIndex, hb, if_false, List.length_cons, Bool.false_eq_true]
        omega

theorem swapPopBack_isSome {α : Type} (v : List α) (it : Nat) (h : it < v.length) :
    ∃ r, swapPopBack v it = some r := by
  cases hlast : v.getLast? with
  | none =>
    have : v = [] := List.getLast?_eq_none_iff.mp hlast
    subst this
    simp at h
  | some back => exact ⟨(v.set it back).dropLast, by simp [swapPopBack, hlast, h]⟩

/-- The part of `~Event` that touches the queue: whenever the destructor runs
to its end, the queue is the one it started with, minus the handle of the
event if that was scheduled. -/
theorem Event.destroy_eq (e : Event) (w w' : EventWorld) (h : e.destroy w = some w') :
    w'.eq = if w.eq.scheduled e.delayedNotifyEvent
      then w.eq.deschedule e.delayedNotifyEvent else w.eq := by
  unfold Event.destroy at h
  cases hp : e.parent with
  | some par =>
    simp only [hp] at h
    split at h
    · cases h
    · split at h
      · cases h; rename_i hs; simp [hs]
      · cases h; rename_i hs; simp [hs]
  | none =>
    simp only [hp] at h
    split at h
    · cases h
    · rename_i w1 hw1
      have hq : w1.eq = w.eq := by
        split at hw1
        · cases hw1
        · split at hw1
          · cases hw1; rfl
          · cases hw1
      split at h
      · cases h
      · split at h
        · cases h; rename_i hs; simp only [hq] at hs; simp [hs, hq]
        · cases h; rename_i hs; simp only [hq] at hs; simp [hs, hq]

/-- The destructor runs to its end when the registry holds an event of that
name and, for a parentless event, the top-level set holds the event. -/
theorem Event.destroy_isSome (e : Event) (w : EventWorld)
    (hall : ∃ x ∈ w.allEvents, c_str x._name = c_str e._name)
    (htop : e.parent = none → ∃ x ∈ w.topLevelEvents, x._sc_event = e._sc_event) :
    ∃ w', e.destroy w = some w' := by
  have hfind : ∀ w1 : EventWorld, w1.allEvents = w.allEvents →
      ∃ all, swapPopBack w1.allEvents (findEvent w1.allEvents e._name) = some all := by
    intro w1 h1
    rw [h1]
    obtain ⟨x, hx, hname⟩ := hall
    exact swapPopBack_isSome _ _ (firstIndex_lt_of_mem _ _ x hx (by simp [hname]))
  unfold Event.destroy
  cases hp : e.parent with
  | some par =>
    obtain ⟨all, hall'⟩ := hfind
      { w with childEvents := delChildEvent w.childEvents par e._sc_event } rfl
    simp only [hall']
    split <;> exact ⟨_, rfl⟩
  | none =>
    have hlt : findIdentity w.topLevelEvents e._sc_event < w.topLevelEvents.length := by
      obtain ⟨x, hx, hid⟩ := htop hp
      exact firstIndex_lt_of_mem _ _ x hx (by simp [hid])
    obtain ⟨tl, htl⟩ := swapPopBack_isSome _ _ hlt
    obtain ⟨all, hall'⟩ := hfind { w with topLevelEvents := tl } rfl
    simp only [Nat.ne_of_lt hlt, if_false, htl, hall']
    split <;> exact ⟨_, rfl⟩

/-- C7: destroying an event leaves the host queue without any handle of that
event: a delayed notification pending at destruction is descheduled, and when
none is pending the host queue is unchanged. The event is a live one: the
registry holds an event of its name and, when it has no parent, the top-level
set holds it, so that the destructor runs to its end. -/
theorem Event.destroy_leaves_no_timer (e : Event) (w : EventWorld)
    (hall : ∃ x ∈ w.allEvents, c_str x._name = c_str e._name)
    (htop : e.parent = none → ∃ x ∈ w.topLevelEvents, x._sc_event = e._sc_event) :
    ∃ w', e.destroy w = some w' ∧
      w'.eq.handles e.delayedNotifyEvent = 0 ∧
      (w.eq.scheduled e.delayedNotifyEvent = true →
        w'.eq = w.eq.deschedule e.delayedNotifyEvent) ∧
      (w.eq.scheduled e.delayedNotifyEvent = false → w'.eq = w.eq) := by
  obtain ⟨w', hw'⟩ := Event.destroy_isSome e w hall htop
  have hq := Event.destroy_eq e w w' hw'
  refine ⟨w', hw', ?_, ?_, ?_⟩
  · by_cases hs : w.eq.scheduled e.delayedNotifyEvent = true
    · rw [hq, if_pos hs]; exact EventQueue.handles_deschedule_self _ _
    · rw [hq, if_neg hs]
      exact (EventQueue.scheduled_false_iff _ _).mp (by simpa using hs)
  · intro hs; rw [hq, if_pos hs]
  · intro hs; rw [hq]; simp [hs]

/-- Witness of C7: a top-level event with a notification pending at tick 5 is
destroyed; the other event's notification stays on the queue. -/
theorem Event.destroy_leaves_no_timer_witness :
    ∃ w', Event.destroy ⟨1, "a", "a", none⟩
        ⟨[⟨1, "a", "a", none⟩], [⟨1, "a", "a", none⟩, ⟨2, "b", "m.b", some 7⟩], [(7, 2)],
          ⟨0, [(Handle.delayedNotifyEvent 1, 5), (Handle.delayedNotifyEvent 2, 6)]⟩⟩ = some w' ∧
      w'.eq.handles (Handle.delayedNotifyEvent 1) = 0 ∧
      w'.eq = ⟨0, [(Handle.delayedNotifyEvent 2, 6)]⟩ := by
  obtain ⟨w', h1, h2, h3, _⟩ := Event.destroy_leaves_no_timer ⟨1, "a", "a", none⟩
    ⟨[⟨1, "a", "a", none⟩], [⟨1, "a", "a", none⟩, ⟨2, "b", "m.b", some 7⟩], [(7, 2)],
      ⟨0, [(Handle.delayedNotifyEvent 1, 5), (Handle.delayedNotifyEvent 2, 6)]⟩⟩
    (by decide) (by decide)
  exact ⟨w', h1, h2, by rw [h3 (by decide)]; decide⟩

/-- C6, the code at the failing input: two live top-level events with the same
(empty) name are registered, the first one first. Destroying the second one
looks the registry up by name, finds the first one, and removes that: the
registry is left holding the destroyed event and no longer holds the live
one. The top-level set, searched by identity, is updated correctly. -/
theorem Event.destroy_same_name_removes_other :
    Event.destroy ⟨2, "", "", none⟩
      ⟨[⟨1, "", "", none⟩, ⟨2, "", "", none⟩], [⟨1, "", "", none⟩, ⟨2, "", "", none⟩], [],
        ⟨0, []⟩⟩
      = some ⟨[⟨1, "", "", none⟩], [⟨2, "", "", none⟩], [], ⟨0, []⟩⟩ := by
  decide

/-! ## Ordering of the ready list and exclusion of the timers -/

theorem Keeps.keeps_refl (s : Scheduler) : Keeps s s := ⟨id, id⟩

theorem Keeps.keeps_trans {a b c : Scheduler} (h1 : Keeps a b) (h2 : Keeps b c) : Keeps a c :=
  ⟨fun h => h2.1 (h1.1 h), fun h => h2.2 (h1.2 h)⟩

theorem Outcome.Keeps.keeps_ok {s s' : Scheduler} (h : sc_gem5.Keeps s s') :
    (Outcome.ok s').Keeps s := by
  intro t ht
  simp only [Outcome.state?, Option.some.injEq] at ht
  subst ht
  exact h

theorem Outcome.Keeps.keeps_abort (s : Scheduler) (why : Abort) : (Outcome.abort why).Keeps s := by
  intro t ht; simp [Outcome.state?] at ht

theorem Outcome.Keeps.keeps_outOfFuel (s : Scheduler) : (Outcome.outOfFuel).Keeps s := by
  intro t ht; simp [Outcome.state?] at ht

theorem Outcome.Keeps.keeps_bind {s : Scheduler} {o : Outcome} {f : Scheduler → Outcome}
    (ho : o.Keeps s) (hf : ∀ s1, (f s1).Keeps s1) : (o.bind f).Keeps s := by
  cases o with
  | ok s1 =>
    intro t ht
    exact Keeps.keeps_trans (ho s1 rfl) (hf s1 t ht)
  | threw exc s1 => exact ho
  | abort why => exact Outcome.Keeps.keeps_abort s why
  | outOfFuel => exact Outcome.Keeps.keeps_outOfFuel s

theorem Outcome.Keeps.keeps_from {a b : Scheduler} {o : Outcome} (h : sc_gem5.Keeps a b)
    (ho : o.Keeps b) : o.Keeps a :=
  fun t ht => Keeps.keeps_trans h (ho t ht)

theorem MethodsFirst.sublist {l l' : List Process} (h : l'.Sublist l) (hl : MethodsFirst l) :
    MethodsFirst l' :=
  List.Pairwise.sublist h hl

/-- A change that only removes processes from the ready list and leaves the
queue and the deferred events alone keeps both. -/
theorem Keeps.keeps_of_sublist {s s' : Scheduler} (hr : s'.readyList.Sublist s.readyList)
    (he : s'.eq = s.eq) (hd : s'.eventsToSchedule = s.eventsToSchedule) : Keeps s s' := by
  refine ⟨MethodsFirst.sublist hr, ?_⟩
  intro h
  simpa [TimerInv, TimersExclusive, Scheduler.scheduled, he, hd] using h

theorem Keeps.keeps_popListNode (p : Process) (s : Scheduler) : Keeps s (popListNode p s) :=
  Keeps.keeps_of_sublist (List.erase_sublist p s.readyList) rfl rfl

theorem Keeps.keeps_popChannel (c : Channel) (s : Scheduler) : Keeps s (popChannel c s) :=
  Keeps.keeps_of_sublist (List.Sublist.refl _) rfl rfl

theorem Keeps.keeps_finalize (p : Process) (s : Scheduler) : Keeps s (finalize p s) :=
  Keeps.keeps_of_sublist (List.Sublist.refl _) rfl rfl

theorem Keeps.keeps_readyPushFirst (p : Process) (s : Scheduler) (hp : p.isMethod = true) :
    Keeps s (readyPushFirst p s) := by
  refine ⟨?_, ?_⟩
  · intro h
    have h1 : MethodsFirst (s.readyList.erase p) :=
      MethodsFirst.sublist (List.erase_sublist p s.readyList) h
    exact List.Pairwise.cons (fun _ _ _ => hp) h1
  · intro h
    simpa [TimerInv, TimersExclusive, Scheduler.scheduled, readyPushFirst, sc_gem5.popListNode]
      using h

theorem Keeps.keeps_readyPushLast (p : Process) (s : Scheduler) (hp : p.isMethod = false) :
    Keeps s (readyPushLast p s) := by
  refine ⟨?_, ?_⟩
  · intro h
    have h1 : MethodsFirst (s.readyList.erase p) :=
      MethodsFirst.sublist (List.erase_sublist p s.readyList) h
    show MethodsFirst (s.readyList.erase p ++ [p])
    unfold MethodsFirst
    rw [List.pairwise_append]
    refine ⟨h1, List.pairwise_singleton _ _, ?_⟩
    intro a _ b hb hbm
    simp only [List.mem_singleton] at hb
    subst hb
    rw [hp] at hbm
    cases hbm
  · intro h
    simpa [TimerInv, TimersExclusive, Scheduler.scheduled, readyPushLast, sc_gem5.popListNode]
      using h

theorem EventQueue.scheduled_of_deschedule (q : EventQueue) (h k : Handle)
    (hs : (q.deschedule k).scheduled h = true) : q.scheduled h = true := by
  simp only [EventQueue.deschedule, EventQueue.scheduled, List.any_filter,
    List.any_eq_true] at hs ⊢
  obtain ⟨x, hx, hp⟩ := hs
  refine ⟨x, hx, ?_⟩
  simp only [Bool.and_eq_true] at hp
  exact hp.2

/-- A change of the queue alone keeps both as soon as it keeps the timers
exclusive. -/
theorem Keeps.keeps_of_queue {s s' : Scheduler} (hr : s'.readyList = s.readyList)
    (hd : s'.eventsToSchedule = s.eventsToSchedule)
    (hx : TimersExclusive s → TimersExclusive s') : Keeps s s' := by
  refine ⟨fun h => by rw [hr]; exact h, ?_⟩
  rintro ⟨h1, h2⟩
  exact ⟨hx h1, by rw [hd]; exact h2⟩

theorem Keeps.keeps_scheduleReadyEvent (s : Scheduler) : (scheduleReadyEvent s).Keeps s := by
  unfold sc_gem5.scheduleReadyEvent
  cases hq : s.eq with
  | none => simp only [Scheduler.scheduled, hq]; exact Outcome.Keeps.keeps_abort s _
  | some q =>
    simp only [Scheduler.scheduled, hq]
    cases hr : q.scheduled Handle.readyEvent with
    | true =>
      simp only [Bool.not_true, Bool.false_eq_true, if_false]
      exact Outcome.Keeps.keeps_ok (Keeps.keeps_refl s)
    | false =>
      simp only [Bool.not_false, if_true]
      split
      · refine Outcome.Keeps.keeps_ok (Keeps.keeps_of_queue rfl rfl ?_)
        intro _
        simp [TimersExclusive, Scheduler.scheduled, EventQueue.scheduled_deschedule_self]
      · rename_i hst
        refine Outcome.Keeps.keeps_ok (Keeps.keeps_of_queue rfl rfl ?_)
        intro _
        simp only [TimersExclusive, Scheduler.scheduled]
        exact fun h => hst h.2

theorem Keeps.keeps_scheduleStarvationEvent (s : Scheduler) :
    (scheduleStarvationEvent s).Keeps s := by
  unfold sc_gem5.scheduleStarvationEvent
  cases hq : s.eq with
  | none => simp only [Scheduler.scheduled, hq]; exact Outcome.Keeps.keeps_abort s _
  | some q =>
    simp only [Scheduler.scheduled, hq]
    cases hr : q.scheduled Handle.starvationEvent with
    | true =>
      simp only [Bool.not_true, Bool.false_eq_true, if_false]
      exact Outcome.Keeps.keeps_ok (Keeps.keeps_refl s)
    | false =>
      simp only [Bool.not_false, if_true]
      split
      · refine Outcome.Keeps.keeps_ok (Keeps.keeps_of_queue rfl rfl ?_)
        intro _
        simp [TimersExclusive, Scheduler.scheduled, EventQueue.scheduled_deschedule_self]
      · rename_i hst
        refine Outcome.Keeps.keeps_ok (Keeps.keeps_of_queue rfl rfl ?_)
        intro _
        simp only [TimersExclusive, Scheduler.scheduled]
        exact fun h => hst h.1

theorem Keeps.keeps_eqSchedule (h : Handle) (t : Tick) (s : Scheduler)
    (h1 : h ≠ Handle.readyEvent) (h2 : h ≠ Handle.starvationEvent) :
    (eqSchedule h t s).Keeps s := by
  unfold sc_gem5.eqSchedule
  cases hq : s.eq with
  | none => exact Outcome.Keeps.keeps_abort s _
  | some q =>
    refine Outcome.Keeps.keeps_ok (Keeps.keeps_of_queue rfl rfl ?_)
    simp only [TimersExclusive, Scheduler.scheduled, hq,
      EventQueue.scheduled_schedule_other _ _ _ _ h1,
      EventQueue.scheduled_schedule_other _ _ _ _ h2]
    exact id

theorem Keeps.keeps_eqScheduleNow (h : Handle) (s : Scheduler)
    (h1 : h ≠ Handle.readyEvent) (h2 : h ≠ Handle.starvationEvent) :
    (eqScheduleNow h s).Keeps s := by
  unfold sc_gem5.eqScheduleNow
  cases hq : s.eq with
  | none => exact Outcome.Keeps.keeps_abort s _
  | some q =>
    refine Outcome.Keeps.keeps_ok (Keeps.keeps_of_queue rfl rfl ?_)
    simp only [TimersExclusive, Scheduler.scheduled, hq,
      EventQueue.scheduled_schedule_other _ _ _ _ h1,
      EventQueue.scheduled_schedule_other _ _ _ _ h2]
    exact id

theorem Keeps.keeps_descheduleIfScheduled (h : Handle) (s : Scheduler) :
    Keeps s (descheduleIfScheduled h s) := by
  unfold sc_gem5.descheduleIfScheduled
  cases hq : s.eq with
  | none => exact Keeps.keeps_refl s
  | some q =>
    simp only
    split
    · refine Keeps.keeps_of_queue rfl rfl ?_
      simp only [TimersExclusive, Scheduler.scheduled, hq]
      intro hx hboth
      exact hx ⟨EventQueue.scheduled_of_deschedule _ _ _ hboth.1,
        EventQueue.scheduled_of_deschedule _ _ _ hboth.2⟩
    · exact Keeps.keeps_refl s

theorem Keeps.keeps_ready (p : Process) (s : Scheduler) : (ready p s).Keeps s := by
  unfold sc_gem5.ready
  by_cases hp : p.procKind = sc_curr_proc_kind.SC_METHOD_PROC_
  · simp only [hp, if_true]
    exact Outcome.Keeps.keeps_from (Keeps.keeps_readyPushFirst p s (by simp [Process.isMethod, hp]))
      (Keeps.keeps_scheduleReadyEvent _)
  · simp only [hp, if_false]
    exact Outcome.Keeps.keeps_from (Keeps.keeps_readyPushLast p s (by simp [Process.isMethod, hp]))
      (Keeps.keeps_scheduleReadyEvent _)

theorem Keeps.keeps_requestUpdate (c : Channel) (s : Scheduler) : (requestUpdate c s).Keeps s := by
  unfold sc_gem5.requestUpdate
  refine Outcome.Keeps.keeps_from ?_ (Keeps.keeps_scheduleReadyEvent _)
  exact Keeps.keeps_of_sublist (List.Sublist.refl _) rfl rfl

theorem Keeps.keeps_reg (p : Process) (s : Scheduler) : (reg p s).Keeps s := by
  unfold sc_gem5.reg
  split
  · exact Outcome.Keeps.keeps_from (Keeps.keeps_finalize p s) (Keeps.keeps_ready p _)
  · exact Outcome.Keeps.keeps_ok (Keeps.keeps_of_sublist (List.erase_sublist p s.readyList) rfl rfl)

theorem Keeps.keeps_dontInitialize (p : Process) (s : Scheduler) : Keeps s (dontInitialize p s) := by
  unfold sc_gem5.dontInitialize
  split
  · exact Keeps.keeps_popListNode p s
  · exact Keeps.keeps_of_sublist (List.erase_sublist p s.readyList) rfl rfl

theorem Keeps.keeps_schedulePause (s : Scheduler) : (schedulePause s).Keeps s := by
  unfold sc_gem5.schedulePause
  split
  · exact Outcome.Keeps.keeps_ok (Keeps.keeps_refl s)
  · exact Keeps.keeps_eqScheduleNow _ s (by decide) (by decide)

theorem Keeps.keeps_flushReady (n : Nat) : ∀ s : Scheduler, Keeps s (flushReady n s) := by
  induction n with
  | zero => intro s; exact Keeps.keeps_refl s
  | succ n ih =>
    intro s
    unfold sc_gem5.flushReady
    split
    · exact Keeps.keeps_refl s
    · exact Keeps.keeps_trans (Keeps.keeps_popListNode _ s) (ih _)

theorem Keeps.keeps_flushUpdates (n : Nat) : ∀ s : Scheduler, Keeps s (flushUpdates n s) := by
  induction n with
  | zero => intro s; exact Keeps.keeps_refl s
  | succ n ih =>
    intro s
    unfold sc_gem5.flushUpdates
    split
    · exact Keeps.keeps_refl s
    · exact Keeps.keeps_trans (Keeps.keeps_popChannel _ s) (ih _)

theorem Keeps.keeps_scheduleStop (finish_delta : Bool) (s : Scheduler) :
    (scheduleStop finish_delta s).Keeps s := by
  unfold sc_gem5.scheduleStop
  split
  · exact Outcome.Keeps.keeps_ok (Keeps.keeps_refl s)
  · refine Outcome.Keeps.keeps_from ?_ (Keeps.keeps_eqScheduleNow _ _ (by decide) (by decide))
    split
    · exact Keeps.keeps_trans (Keeps.keeps_flushReady _ s) (Keeps.keeps_flushUpdates _ _)
    · exact Keeps.keeps_refl s

theorem Keeps.keeps_apply (a : Action) (s : Scheduler) : (a.apply s).Keeps s := by
  cases a with
  | ready p => exact Keeps.keeps_ready p s
  | requestUpdate c => exact Keeps.keeps_requestUpdate c s
  | reg p => exact Keeps.keeps_reg p s
  | dontInitialize p => exact Outcome.Keeps.keeps_ok (Keeps.keeps_dontInitialize p s)
  | schedulePause => exact Keeps.keeps_schedulePause s
  | scheduleStop fd => exact Keeps.keeps_scheduleStop fd s
  | setException p exc =>
    exact Outcome.Keeps.keeps_ok (Keeps.keeps_of_sublist (List.Sublist.refl _) rfl rfl)

theorem Keeps.keeps_runScript (script : List Action) : ∀ s : Scheduler, (runScript script s).Keeps s := by
  induction script with
  | nil => intro s; exact Outcome.Keeps.keeps_ok (Keeps.keeps_refl s)
  | cons a rest ih => intro s; exact Outcome.Keeps.keeps_bind (Keeps.keeps_apply a s) ih

theorem Keeps.keeps_finalizeLoop (n : Nat) : ∀ s : Scheduler, Keeps s (finalizeLoop n s) := by
  induction n with
  | zero => intro s; exact Keeps.keeps_refl s
  | succ n ih =>
    intro s
    unfold sc_gem5.finalizeLoop
    split
    · exact Keeps.keeps_refl s
    · exact Keeps.keeps_trans (Keeps.keeps_trans (Keeps.keeps_finalize _ s) (Keeps.keeps_popListNode _ _)) (ih _)

theorem Keeps.keeps_initLoop (n : Nat) : ∀ s : Scheduler, (initLoop n s).Keeps s := by
  induction n with
  | zero => intro s; exact Outcome.Keeps.keeps_ok (Keeps.keeps_refl s)
  | succ n ih =>
    intro s
    unfold sc_gem5.initLoop
    split
    · exact Outcome.Keeps.keeps_ok (Keeps.keeps_refl s)
    · exact Outcome.Keeps.keeps_from (Keeps.keeps_trans (Keeps.keeps_finalize _ s) (Keeps.keeps_popListNode _ _))
        (Outcome.Keeps.keeps_bind (Keeps.keeps_ready _ _) ih)

theorem scheduleDeferred_frame (l : List (Handle × Tick)) :
    ∀ s s' : Scheduler, (scheduleDeferred l s).state? = some s' →
      s'.readyList = s.readyList ∧ s'.eventsToSchedule = s.eventsToSchedule ∧
      ((∀ e ∈ l, e.1 ≠ Handle.readyEvent ∧ e.1 ≠ Handle.starvationEvent) →
        TimersExclusive s → TimersExclusive s') := by
  induction l with
  | nil =>
    intro s s' h
    simp only [scheduleDeferred, Outcome.state?, Option.some.injEq] at h
    subst h
    exact ⟨rfl, rfl, fun _ hx => hx⟩
  | cons ets rest ih =>
    intro s s' h
    unfold scheduleDeferred sc_gem5.eqSchedule at h
    cases hq : s.eq with
    | none => simp [hq, Outcome.bind, Outcome.state?] at h
    | some q =>
      simp only [hq, Outcome.bind] at h
      obtain ⟨h1, h2, h3⟩ := ih _ s' h
      refine ⟨h1, h2, ?_⟩
      intro hl hx
      apply h3 (fun e he => hl e (List.mem_cons_of_mem _ he))
      have hets := hl ets (List.mem_cons_self _ _)
      simp only [TimersExclusive, Scheduler.scheduled, hq] at hx ⊢
      rw [EventQueue.scheduled_schedule_other _ _ _ _ hets.1,
        EventQueue.scheduled_schedule_other _ _ _ _ hets.2]
      exact hx

theorem Keeps.keeps_scheduleDeferred (s : Scheduler) :
    (scheduleDeferred s.eventsToSchedule s).Keeps s := by
  intro s' hs'
  obtain ⟨h1, h2, h3⟩ := scheduleDeferred_frame _ s s' hs'
  refine ⟨fun h => by rw [h1]; exact h, ?_⟩
  rintro ⟨hx, hd⟩
  exact ⟨h3 hd hx, by rw [h2]; exact hd⟩

theorem Keeps.keeps_clearDeferred (s : Scheduler) : Keeps s { s with eventsToSchedule := [] } := by
  refine ⟨id, ?_⟩
  rintro ⟨hx, _⟩
  exact ⟨hx, by simp⟩

theorem Keeps.keeps_prepareForInit (s : Scheduler) : (prepareForInit s).Keeps s := by
  unfold sc_gem5.prepareForInit
  simp only
  refine Outcome.Keeps.keeps_from (Keeps.keeps_finalizeLoop s.toFinalize.length s) ?_
  refine Outcome.Keeps.keeps_bind (Keeps.keeps_initLoop _ _) ?_
  intro s2
  refine Outcome.Keeps.keeps_bind (Keeps.keeps_scheduleDeferred s2) ?_
  intro s3
  refine Outcome.Keeps.keeps_from (Keeps.keeps_clearDeferred s3) ?_
  refine Outcome.Keeps.keeps_bind ?_ ?_
  · split
    · exact Keeps.keeps_eqSchedule _ _ _ (by decide) (by decide)
    · exact Outcome.Keeps.keeps_ok (Keeps.keeps_refl _)
  · intro s5
    exact Outcome.Keeps.keeps_ok (Keeps.keeps_of_sublist (List.Sublist.refl _) rfl rfl)

theorem Keeps.keeps_runProcess (env : Env) (p : Process) (s : Scheduler) :
    (runProcess env p s).Keeps s := by
  unfold sc_gem5.runProcess
  refine Outcome.Keeps.keeps_from ?_ (Keeps.keeps_runScript _ _)
  exact Keeps.keeps_of_sublist (List.Sublist.refl _) rfl rfl

theorem Keeps.keeps_rethrow (s : Scheduler) : (rethrow s).Keeps s := by
  unfold sc_gem5.rethrow
  split
  · exact Outcome.Keeps.keeps_ok (Keeps.keeps_refl s)
  · split
    · exact Outcome.Keeps.keeps_ok (Keeps.keeps_refl s)
    · split
      · exact Outcome.Keeps.keeps_abort s _
      · intro t ht
        simp only [Outcome.state?, Option.some.injEq] at ht
        subst ht
        exact Keeps.keeps_of_sublist (List.Sublist.refl _) rfl rfl

/-- What the going on of the pending call of a thread can change: the list of
parked threads, the exception slots and the record of exceptions. It does not
leave by an exception of its own. -/
theorem resumeInYield_shape (p : Process) (s s' : Scheduler)
    (h : (resumeInYield p s).state? = some s') :
    resumeInYield p s = Outcome.ok s' ∧
    s' = { s with parked := s'.parked, excWrapper := s'.excWrapper, raised := s'.raised } := by
  unfold resumeInYield at h ⊢
  by_cases hp : p ∈ s.parked
  · simp only [hp, if_true] at h ⊢
    unfold rethrow at h ⊢
    simp only at h ⊢
    cases hc : s._current with
    | none =>
      simp only [hc, Outcome.state?, Option.some.injEq] at h ⊢
      subst h
      exact ⟨rfl, rfl⟩
    | some c =>
      simp only [hc] at h ⊢
      cases hw : s.excWrapper.lookup c with
      | none =>
        simp only [hw, Outcome.state?, Option.some.injEq] at h ⊢
        subst h
        exact ⟨rfl, rfl⟩
      | some ew =>
        simp only [hw] at h ⊢
        by_cases hn : c.needsStart = true
        · simp only [hn, if_true, Outcome.state?] at h
          cases h
        · simp only [hn, if_false, Bool.false_eq_true, Outcome.state?, Option.some.injEq] at h ⊢
          subst h
          exact ⟨rfl, rfl⟩
  · simp only [hp, if_false, Outcome.state?, Option.some.injEq] at h ⊢
    subst h
    exact ⟨rfl, rfl⟩

theorem park_shape (p : Process) (s : Scheduler) :
    park p s = { s with parked := (park p s).parked, excWrapper := (park p s).excWrapper,
                        raised := (park p s).raised } := by
  unfold park
  split <;> rfl

theorem Keeps.keeps_resumeInYield (p : Process) (s : Scheduler) :
    (resumeInYield p s).Keeps s := by
  intro s' h
  rw [(resumeInYield_shape p s s' h).2]
  exact ⟨fun h => h, fun h => h⟩

theorem Keeps.keeps_yield (env : Env) (s : Scheduler) : (yield env s).Keeps s := by
  unfold sc_gem5.yield
  simp only
  split
  · exact Outcome.Keeps.keeps_ok (Keeps.keeps_of_sublist (List.Sublist.refl _) rfl rfl)
  · rename_i p _
    have hpop : sc_gem5.Keeps s (popListNode p { s with _current := getNext s.readyList }) :=
      Keeps.keeps_trans (b := { s with _current := getNext s.readyList })
        (Keeps.keeps_of_sublist (List.Sublist.refl _) rfl rfl) (Keeps.keeps_popListNode _ _)
    split
    · refine Outcome.Keeps.keeps_from hpop (Outcome.Keeps.keeps_bind ?_ Keeps.keeps_rethrow)
      split
      · exact Keeps.keeps_runProcess env _ _
      · exact Outcome.Keeps.keeps_ok (Keeps.keeps_refl _)
    · refine Outcome.Keeps.keeps_from hpop
        (Outcome.Keeps.keeps_bind (Keeps.keeps_resumeInYield p _) ?_)
      intro s2
      refine Outcome.Keeps.keeps_bind (Keeps.keeps_runProcess env p s2) ?_
      intro s3
      refine Outcome.Keeps.keeps_ok ?_
      rw [park_shape p s3]
      exact ⟨fun h => h, fun h => h⟩

theorem Keeps.keeps_yieldOnPrimary (env : Env) (n : Nat) :
    ∀ s : Scheduler, (yieldOnPrimary env n s).Keeps s := by
  induction n with
  | zero => intro s; exact Outcome.Keeps.keeps_outOfFuel s
  | succ n ih =>
    intro s
    unfold sc_gem5.yieldOnPrimary
    split
    · exact Keeps.keeps_yield env s
    · split
      · exact Keeps.keeps_yield env s
      · exact Outcome.Keeps.keeps_bind (Keeps.keeps_yield env s) (fun s1 => ih s1)

theorem Keeps.keeps_evaluate (env : Env) (n : Nat) : ∀ s : Scheduler, (evaluate env n s).Keeps s := by
  induction n with
  | zero => intro s; exact Outcome.Keeps.keeps_outOfFuel s
  | succ n ih =>
    intro s
    unfold sc_gem5.evaluate
    refine Outcome.Keeps.keeps_bind (Keeps.keeps_yieldOnPrimary env (n + 2) s) ?_
    intro s1
    split
    · exact Outcome.Keeps.keeps_ok (Keeps.keeps_refl s1)
    · exact ih s1

theorem Keeps.keeps_runChannel (env : Env) (c : Channel) (s : Scheduler) :
    (runChannel env c s).Keeps s := by
  unfold sc_gem5.runChannel
  refine Outcome.Keeps.keeps_from ?_ (Keeps.keeps_runScript _ _)
  exact Keeps.keeps_of_sublist (List.Sublist.refl _) rfl rfl

theorem Keeps.keeps_update (env : Env) (n : Nat) : ∀ s : Scheduler, (update env n s).Keeps s := by
  induction n with
  | zero =>
    intro s
    unfold sc_gem5.update
    split
    · exact Outcome.Keeps.keeps_ok (Keeps.keeps_refl s)
    · exact Outcome.Keeps.keeps_outOfFuel s
  | succ n ih =>
    intro s
    unfold sc_gem5.update
    split
    · exact Outcome.Keeps.keeps_ok (Keeps.keeps_refl s)
    · exact Outcome.Keeps.keeps_from (Keeps.keeps_popChannel _ s)
        (Outcome.Keeps.keeps_bind (Keeps.keeps_runChannel env _ _) ih)

theorem Keeps.keeps_runReady (env : Env) (fuel : Nat) (s : Scheduler) :
    (runReady env fuel s).Keeps s := by
  unfold sc_gem5.runReady
  simp only
  refine Outcome.Keeps.keeps_bind (Keeps.keeps_evaluate env fuel s) ?_
  intro s1
  refine Outcome.Keeps.keeps_from (b := if (!s.readyList.isEmpty) = true
      then { s1 with _numCycles := s1._numCycles + 1 } else s1) ?_ ?_
  · split
    · exact Keeps.keeps_of_sublist (List.Sublist.refl _) rfl rfl
    · exact Keeps.keeps_refl s1
  · refine Outcome.Keeps.keeps_bind (Keeps.keeps_update env fuel _) ?_
    intro s3
    split
    · exact Keeps.keeps_scheduleStarvationEvent s3
    · exact Outcome.Keeps.keeps_ok (Keeps.keeps_refl s3)

theorem Keeps.keeps_runScMain (s : Scheduler) : (runScMain s).Keeps s := by
  unfold sc_gem5.runScMain
  split
  · exact Outcome.Keeps.keeps_ok (Keeps.keeps_refl s)
  · exact Outcome.Keeps.keeps_abort s _

theorem Keeps.keeps_pause (s : Scheduler) : (pause s).Keeps s := by
  unfold sc_gem5.pause
  exact Outcome.Keeps.keeps_from (Keeps.keeps_of_sublist (List.Sublist.refl _) rfl rfl) (Keeps.keeps_runScMain _)

theorem Keeps.keeps_stopWork (env : Env) (s : Scheduler) : (stopWork env s).Keeps s := by
  unfold sc_gem5.stopWork
  simp only
  refine Outcome.Keeps.keeps_from ?_ (Outcome.Keeps.keeps_bind (Keeps.keeps_runScript _ _) ?_)
  · exact Keeps.keeps_of_sublist (List.Sublist.refl _) rfl rfl
  · intro s2
    split
    · exact Outcome.Keeps.keeps_abort s2 _
    · exact Outcome.Keeps.keeps_ok (Keeps.keeps_of_sublist (List.Sublist.refl _) rfl rfl)

theorem Keeps.keeps_kernelStop (env : Env) (s : Scheduler) : (kernelStop env s).Keeps s := by
  unfold sc_gem5.kernelStop
  split
  · exact Outcome.Keeps.keeps_ok (Keeps.keeps_of_sublist (List.Sublist.refl _) rfl rfl)
  · exact Keeps.keeps_stopWork env s

theorem Keeps.keeps_stop (env : Env) (s : Scheduler) : (stop env s).Keeps s := by
  unfold sc_gem5.stop
  refine Outcome.Keeps.keeps_from ?_ (Outcome.Keeps.keeps_bind (Keeps.keeps_kernelStop env _) Keeps.keeps_runScMain)
  exact Keeps.keeps_of_sublist (List.Sublist.refl _) rfl rfl

theorem Keeps.keeps_startEnter (env : Env) (max_tick : Tick) (run_to_time : Bool) (s : Scheduler) :
    (startEnter env max_tick run_to_time s).Keeps s := by
  unfold sc_gem5.startEnter
  simp only
  split
  · exact Outcome.Keeps.keeps_ok (Keeps.keeps_of_sublist (List.Sublist.refl _) rfl rfl)
  · split
    · refine Outcome.Keeps.keeps_from ?_ (Keeps.keeps_eqSchedule _ _ _ (by decide) (by decide))
      exact Keeps.keeps_of_sublist (List.Sublist.refl _) rfl rfl
    · exact Outcome.Keeps.keeps_ok (Keeps.keeps_of_sublist (List.Sublist.refl _) rfl rfl)

theorem Keeps.keeps_startReturn (s : Scheduler) : Keeps s (startReturn s) := by
  unfold sc_gem5.startReturn
  exact Keeps.keeps_trans (Keeps.keeps_descheduleIfScheduled _ s)
    (Keeps.keeps_trans (Keeps.keeps_descheduleIfScheduled _ _)
      (Keeps.keeps_trans (Keeps.keeps_descheduleIfScheduled _ _) (Keeps.keeps_descheduleIfScheduled _ _)))

theorem Keeps.keeps_fire (env : Env) (fuel : Nat) (h : Handle) (s : Scheduler) :
    (fire env fuel h s).Keeps s := by
  unfold sc_gem5.fire
  cases hq : s.eq with
  | none => exact Outcome.Keeps.keeps_ok (Keeps.keeps_refl s)
  | some q =>
    simp only
    split
    · have hk : Keeps s { s with eq := some { q.deschedule h with curTick := q.when h } } := by
        refine Keeps.keeps_of_queue rfl rfl ?_
        simp only [TimersExclusive, Scheduler.scheduled, hq]
        intro hx hboth
        exact hx ⟨EventQueue.scheduled_of_deschedule q _ h hboth.1,
          EventQueue.scheduled_of_deschedule q _ h hboth.2⟩
      cases h with
      | readyEvent => exact Outcome.Keeps.keeps_from hk (Keeps.keeps_runReady env fuel _)
      | pauseEvent => exact Outcome.Keeps.keeps_from hk (Keeps.keeps_pause _)
      | stopEvent => exact Outcome.Keeps.keeps_from hk (Keeps.keeps_stop env _)
      | starvationEvent => exact Outcome.Keeps.keeps_from hk (Keeps.keeps_pause _)
      | maxTickEvent => exact Outcome.Keeps.keeps_from hk (Keeps.keeps_pause _)
      | delayedNotifyEvent ev => exact Outcome.Keeps.keeps_ok hk
      | other n => exact Outcome.Keeps.keeps_ok hk
    · exact Outcome.Keeps.keeps_ok (Keeps.keeps_refl s)

theorem Keeps.keeps_run (env : Env) (op : Op) (s : Scheduler) : (op.run env s).Keeps s := by
  cases op with
  | setEventQueue q =>
    unfold Op.run
    simp only
    split
    · rename_i hc
      simp only [Bool.and_eq_true, Bool.not_eq_true', Option.isNone_iff_eq_none] at hc
      refine Outcome.Keeps.keeps_ok (Keeps.keeps_of_queue rfl rfl ?_)
      intro _
      simp [TimersExclusive, Scheduler.scheduled, sc_gem5.setEventQueue, hc.1.2]
    · exact Outcome.Keeps.keeps_ok (Keeps.keeps_refl s)
  | ready p => exact Keeps.keeps_ready p s
  | requestUpdate c => exact Keeps.keeps_requestUpdate c s
  | reg p => exact Keeps.keeps_reg p s
  | dontInitialize p => exact Outcome.Keeps.keeps_ok (Keeps.keeps_dontInitialize p s)
  | yield => exact Keeps.keeps_yield env s
  | update fuel => exact Keeps.keeps_update env fuel s
  | runReady fuel => exact Keeps.keeps_runReady env fuel s
  | pause => exact Keeps.keeps_pause s
  | stop => exact Keeps.keeps_stop env s
  | startEnter max_tick run_to_time => exact Keeps.keeps_startEnter env max_tick run_to_time s
  | startReturn => exact Outcome.Keeps.keeps_ok (Keeps.keeps_startReturn s)
  | schedulePause => exact Keeps.keeps_schedulePause s
  | scheduleStop finish_delta => exact Keeps.keeps_scheduleStop finish_delta s
  | prepareForInit => exact Keeps.keeps_prepareForInit s
  | fire fuel h => exact Keeps.keeps_fire env fuel h s

theorem Keeps.keeps_runOps (env : Env) (ops : List Op) : ∀ s : Scheduler, (runOps env ops s).Keeps s := by
  induction ops with
  | nil => intro s; exact Outcome.Keeps.keeps_ok (Keeps.keeps_refl s)
  | cons op rest ih => intro s; exact Outcome.Keeps.keeps_bind (Keeps.keeps_run env op s) ih

theorem TimerInv.new : TimerInv Scheduler.new := by
  refine ⟨?_, ?_⟩
  · simp [TimersExclusive, Scheduler.scheduled, Scheduler.new]
  · simp [Scheduler.new]

theorem TimerInv.reachable (env : Env) (s : Scheduler) (h : Reachable env s) : TimerInv s := by
  induction h with
  | constructed => exact TimerInv.new
  | step op s s' _ hstep ih => exact (Keeps.keeps_run env op s s' hstep).2 ih

/-- A list with the methods first is its methods followed by the rest. -/
theorem MethodsFirst.split (l : List Process) (h : MethodsFirst l) :
    l = l.filter (fun p => p.isMethod) ++ l.filter (fun p => !p.isMethod) := by
  induction l with
  | nil => rfl
  | cons a rest ih =>
    have hrest : MethodsFirst rest := (List.pairwise_cons.mp h).2
    have ha := (List.pairwise_cons.mp h).1
    cases hm : a.isMethod with
    | true =>
      simp only [List.filter_cons, hm, if_true, Bool.not_true, Bool.false_eq_true, if_false,
        List.cons_append]
      rw [← ih hrest]
    | false =>
      have hnone : rest.filter (fun p => p.isMethod) = [] := by
        rw [List.filter_eq_nil_iff]
        intro b hb hbm
        have := ha b hb hbm
        rw [hm] at this
        cases this
      have hall : rest.filter (fun p => !p.isMethod) = rest := by
        have := ih hrest
        rw [hnone, List.nil_append] at this
        exact this.symm
      simp only [List.filter_cons, hm, Bool.false_eq_true, if_false, Bool.not_false, if_true,
        hnone, List.nil_append, hall]

theorem Reachable.of_runOps (env : Env) (ops : List Op) :
    ∀ s s' : Scheduler, Reachable env s → (runOps env ops s).state? = some s' →
      Reachable env s' := by
  induction ops with
  | nil =>
    intro s s' hs h
    simp only [runOps, Outcome.state?, Option.some.injEq] at h
    subst h
    exact hs
  | cons op rest ih =>
    intro s s' hs h
    unfold runOps at h
    cases hop : op.run env s with
    | ok s1 =>
      rw [hop] at h
      exact ih s1 s' (Reachable.step op s s1 hs (by rw [hop]; rfl)) h
    | threw exc s1 =>
      rw [hop] at h
      simp only [Outcome.bind, Outcome.state?, Option.some.injEq] at h
      subst h
      exact Reachable.step op s s1 hs (by rw [hop]; rfl)
    | abort why => rw [hop] at h; simp [Outcome.bind, Outcome.state?] at h
    | outOfFuel => rw [hop] at h; simp [Outcome.bind, Outcome.state?] at h

/-- C1: starting from an empty ready list, after any sequence of scheduler
operations, `ready(p)` calls and `yield()` calls popping the head among them,
every method-kind process in the ready list precedes every process that is
not a method: the list is its methods followed by its other processes, no
process that is not a method stands at an earlier position than a method, and
so when the head, the process `yield()` dispatches next, is not a method, no
method is left in the list. -/
theorem ready_list_methods_before_threads (env : Env) (ops : List Op) (s s' : Scheduler)
    (hempty : s.readyList = [])
    (hrun : (runOps env ops s).state? = some s') :
    s'.readyList = s'.readyList.filter (fun p => p.isMethod)
        ++ s'.readyList.filter (fun p => !p.isMethod) ∧
    (∀ (i j : Nat) (a b : Process), i < j → s'.readyList[i]? = some a →
        s'.readyList[j]? = some b → b.isMethod = true → a.isMethod = true) ∧
    (∀ p : Process, getNext s'.readyList = some p → p.isMethod = false →
        ∀ r ∈ s'.readyList, r.isMethod = false) := by
  have hfirst : MethodsFirst s'.readyList :=
    (Keeps.keeps_runOps env ops s s' hrun).1 (by rw [hempty]; exact List.Pairwise.nil)
  refine ⟨MethodsFirst.split _ hfirst, ?_, ?_⟩
  · intro i j a b hij ha hb hbm
    obtain ⟨hi, hai⟩ := List.getElem?_eq_some_iff.mp ha
    obtain ⟨hj, hbj⟩ := List.getElem?_eq_some_iff.mp hb
    have := (List.pairwise_iff_getElem.mp hfirst) i j hi hj hij
    rw [hai, hbj] at this
    exact this hbm
  · intro p hp hpm r hr
    cases hl : s'.readyList with
    | nil => rw [hl] at hr; cases hr
    | cons a rest =>
      rw [hl] at hp hr hfirst
      simp only [getNext, List.head?_cons, Option.some.injEq] at hp
      subst hp
      rcases List.mem_cons.mp hr with rfl | hmem
      · exact hpm
      · cases hrm : r.isMethod with
        | false => rfl
        | true =>
          have := (List.pairwise_cons.mp hfirst).1 r hmem hrm
          rw [hpm] at this
          cases this

/-- Witness of C1: `ready` on a thread, a method, a thread and a method, then
one `yield`: the last method ran, and the list is the first method followed by
the two threads in call order. -/
theorem ready_list_methods_before_threads_witness :
    (runOps Env.idle
      [Op.ready (exampleThread 1), Op.ready (exampleMethod 2), Op.ready (exampleThread 3),
        Op.ready (exampleMethod 4), Op.yield] Scheduler.installed).get.readyList
      = [exampleMethod 2, exampleThread 1, exampleThread 3] ∧
    [exampleMethod 2, exampleThread 1, exampleThread 3]
      = [exampleMethod 2, exampleThread 1, exampleThread 3].filter (fun p => p.isMethod)
        ++ [exampleMethod 2, exampleThread 1, exampleThread 3].filter (fun p => !p.isMethod) :=
  ⟨by decide,
    (ready_list_methods_before_threads Env.idle
      [Op.ready (exampleThread 1), Op.ready (exampleMethod 2), Op.ready (exampleThread 3),
        Op.ready (exampleMethod 4), Op.yield] Scheduler.installed
      { Scheduler.installed with
        readyList := [exampleMethod 2, exampleThread 1, exampleThread 3],
        eq := some { curTick := 0, pending := [(Handle.readyEvent, 0)] },
        _current := some (exampleMethod 4),
        log := [Obs.run (exampleMethod 4)] }
      (by decide) (by decide)).1⟩

/-- C8: in every state reachable from the constructed scheduler through its
operations (installing the event manager, `reg`, `dontInitialize`, `ready`,
`requestUpdate`, `yield`, `update`, `runReady`, `pause`, `stop`, the two halves
of `start`, `schedulePause`, `scheduleStop`, `prepareForInit` and the host
queue firing a timer), at most one of the ready-dispatch timer and the
starvation timer is armed. -/
theorem timers_mutually_exclusive (env : Env) (s : Scheduler) (h : Reachable env s) :
    ¬ (s.scheduled Handle.readyEvent = true ∧ s.scheduled Handle.starvationEvent = true) :=
  (TimerInv.reachable env s h).1

/-- Witness of C8: the event manager is installed, a thread is made ready and
the ready timer fires; the run leaves the scheduler starved, so the starvation
timer is armed and the ready timer is not. A request for an update then arms
the ready timer and disarms the starvation timer. -/
theorem timers_mutually_exclusive_witness :
    ((runOps Env.idle
        [Op.setEventQueue { curTick := 0, pending := [] }, Op.ready (exampleThread 1),
          Op.fire 2 Handle.readyEvent] Scheduler.new).get.scheduled Handle.starvationEvent = true) ∧
    ¬ ((runOps Env.idle
        [Op.setEventQueue { curTick := 0, pending := [] }, Op.ready (exampleThread 1),
          Op.fire 2 Handle.readyEvent, Op.requestUpdate { id := 1 }]
          Scheduler.new).get.scheduled Handle.readyEvent = true ∧
      (runOps Env.idle
        [Op.setEventQueue { curTick := 0, pending := [] }, Op.ready (exampleThread 1),
          Op.fire 2 Handle.readyEvent, Op.requestUpdate { id := 1 }]
          Scheduler.new).get.scheduled Handle.starvationEvent = true) :=
  ⟨by decide,
    timers_mutually_exclusive Env.idle _
      (Reachable.of_runOps Env.idle
        [Op.setEventQueue { curTick := 0, pending := [] }, Op.ready (exampleThread 1),
          Op.fire 2 Handle.readyEvent, Op.requestUpdate { id := 1 }]
        Scheduler.new _ Reachable.constructed (by decide))⟩

/-! ## Order of dispatch -/

theorem scheduleReadyEvent_ok (s : Scheduler) (q : EventQueue) (hq : s.eq = some q) :
    ∃ q', scheduleReadyEvent s = Outcome.ok { s with eq := some q' } := by
  unfold scheduleReadyEvent
  simp only [Scheduler.scheduled, hq]
  cases hr : q.scheduled Handle.readyEvent with
  | true =>
    refine ⟨q, ?_⟩
    simp only [Bool.not_true, Bool.false_eq_true, if_false]
    rw [← hq]
  | false =>
    simp only [Bool.not_false, if_true]
    split
    · exact ⟨_, rfl⟩
    · exact ⟨_, rfl⟩

theorem eqScheduleNow_ok (h : Handle) (s : Scheduler) (q : EventQueue) (hq : s.eq = some q) :
    eqScheduleNow h s = Outcome.ok { s with eq := some (q.schedule h q.getCurTick) } := by
  unfold eqScheduleNow
  simp only [hq]

theorem Action.apply_leavesProcesses (a : Action) (s : Scheduler) (ha : a.leavesProcesses = true)
    (hq : s.eq.isSome = true) : ∃ s', a.apply s = Outcome.ok s' ∧ SameProcesses s s' := by
  obtain ⟨q, hq'⟩ := Option.isSome_iff_exists.mp hq
  cases a with
  | ready p => simp [Action.leavesProcesses] at ha
  | reg p => simp [Action.leavesProcesses] at ha
  | dontInitialize p => simp [Action.leavesProcesses] at ha
  | setException p exc => simp [Action.leavesProcesses] at ha
  | requestUpdate c =>
    obtain ⟨q', h'⟩ := scheduleReadyEvent_ok
      { popChannel c s with updateList := (popChannel c s).updateList ++ [c] } q hq'
    exact ⟨_, h', rfl, rfl, rfl, rfl⟩
  | schedulePause =>
    unfold Action.apply sc_gem5.schedulePause
    simp only
    split
    · exact ⟨s, rfl, rfl, rfl, rfl, hq⟩
    · exact ⟨_, eqScheduleNow_ok _ s q hq', rfl, rfl, rfl, rfl⟩
  | scheduleStop fd =>
    simp only [Action.leavesProcesses] at ha
    subst ha
    unfold Action.apply sc_gem5.scheduleStop
    simp only
    split
    · exact ⟨s, rfl, rfl, rfl, rfl, hq⟩
    · exact ⟨_, eqScheduleNow_ok _ s q hq', rfl, rfl, rfl, rfl⟩

theorem runScript_leavesProcesses (script : List Action) :
    ∀ s : Scheduler, (∀ a ∈ script, a.leavesProcesses = true) → s.eq.isSome = true →
      ∃ s', runScript script s = Outcome.ok s' ∧ SameProcesses s s' := by
  induction script with
  | nil => intro s _ hq; exact ⟨s, rfl, rfl, rfl, rfl, hq⟩
  | cons a rest ih =>
    intro s hall hq
    obtain ⟨s1, h1, f1⟩ := Action.apply_leavesProcesses a s (hall a (List.mem_cons_self _ _)) hq
    obtain ⟨s2, h2, f2⟩ := ih s1 (fun b hb => hall b (List.mem_cons_of_mem _ hb)) f1.2.2.2
    refine ⟨s2, ?_, ?_⟩
    · simp only [runScript, h1, Outcome.bind, h2]
    · exact ⟨f2.1.trans f1.1, f2.2.1.trans f1.2.1, f2.2.2.1.trans f1.2.2.1, f2.2.2.2⟩

theorem dispatched_append (l1 l2 : List Obs) :
    dispatched (l1 ++ l2) = dispatched l1 ++ dispatched l2 := by
  simp [dispatched, List.filterMap_append]

theorem rethrow_of_no_exception (s : Scheduler) (h : s.excWrapper = []) :
    rethrow s = Outcome.ok s := by
  unfold rethrow
  cases s._current with
  | none => rfl
  | some c => simp [h]

theorem runProcess_leavesProcesses (env : Env) (p : Process) (s : Scheduler)
    (henv : ∀ (p : Process) (s : Scheduler), ∀ a ∈ env.body p s, a.leavesProcesses = true)
    (hq : s.eq.isSome = true) :
    ∃ s', runProcess env p s = Outcome.ok s' ∧ s'.readyList = s.readyList ∧
      s'.excWrapper = s.excWrapper ∧ s'.log = s.log ++ [Obs.run p] ∧ s'.eq.isSome = true := by
  unfold runProcess
  obtain ⟨s2, h2, f2⟩ := runScript_leavesProcesses
    (env.body p { s with log := s.log ++ [Obs.run p] })
    { s with log := s.log ++ [Obs.run p] } (henv _ _) hq
  exact ⟨s2, h2, f2.1, f2.2.1, f2.2.2.1, f2.2.2.2⟩

/-- `yield` with `p` at the head of the ready list: `p` is the current process
and is unlinked; then the process runs, by call or in its fiber. -/
theorem yield_of_head (env : Env) (s : Scheduler) (p : Process) (rest : List Process)
    (hl : s.readyList = p :: rest) :
    yield env s
      = if p.needsStart = true then
          (runProcess env p (popListNode p { s with _current := some p })).bind rethrow
        else
          (resumeInYield p (popListNode p { s with _current := some p })).bind fun s2 =>
          (runProcess env p s2).bind fun s3 => Outcome.ok (park p s3) := by
  unfold yield
  simp only [getNext, hl, List.head?_cons, Process.fiber]
  cases hn : p.needsStart with
  | true => simp only [if_true]
  | false => simp only [Bool.false_eq_true, if_false]

/-- With an empty ready list the call of `yield()` on the primary fiber returns
at once, with no current process. -/
theorem yieldOnPrimary_of_empty (env : Env) (n : Nat) (s : Scheduler) (hl : s.readyList = []) :
    yieldOnPrimary env (n + 1) s = Outcome.ok { s with _current := none } := by
  have hg : getNext s.readyList = none := by rw [hl]; rfl
  have hy : yield env s = Outcome.ok { s with _current := none } := by
    unfold yield
    simp only [hg]
  unfold yieldOnPrimary
  simp only [hg]
  exact hy

theorem resumeInYield_of_no_exception (p : Process) (s : Scheduler) (h : s.excWrapper = []) :
    ∃ s', resumeInYield p s = Outcome.ok s' ∧
      s' = { s with parked := s'.parked } := by
  unfold resumeInYield
  by_cases hp : p ∈ s.parked
  · simp only [hp, if_true]
    rw [rethrow_of_no_exception _ (by simpa using h)]
    exact ⟨_, rfl, rfl⟩
  · simp only [hp, if_false]
    exact ⟨_, rfl, rfl⟩

/-- One `yield()` on a scheduler whose ready list is `p :: rest`, with no
exception pending and a process that leaves the ready list alone: `p` is
dispatched and the ready list is `rest`. -/
theorem yield_head (env : Env) (s : Scheduler) (p : Process) (rest : List Process)
    (hl : s.readyList = p :: rest) (hexc : s.excWrapper = []) (hq : s.eq.isSome = true)
    (henv : ∀ (p : Process) (s : Scheduler), ∀ a ∈ env.body p s, a.leavesProcesses = true) :
    ∃ s', yield env s = Outcome.ok s' ∧ s'.readyList = rest ∧ s'.excWrapper = [] ∧
      s'.eq.isSome = true ∧ s'.log = s.log ++ [Obs.run p] := by
  have hy := yield_of_head env s p rest hl
  have hrest : (popListNode p { s with _current := some p }).readyList = rest := by
    simp [sc_gem5.popListNode, hl]
  cases hn : p.needsStart with
  | true =>
    simp only [hn, if_true] at hy
    obtain ⟨s2, h2, hr2, he2, hg2, hq2⟩ := runProcess_leavesProcesses env p
      (popListNode p { s with _current := some p }) henv hq
    have hex2 : s2.excWrapper = [] := by rw [he2]; exact hexc
    refine ⟨s2, ?_, by rw [hr2]; exact hrest, hex2, hq2, hg2⟩
    rw [hy, h2]
    exact rethrow_of_no_exception s2 hex2
  | false =>
    simp only [hn, Bool.false_eq_true, if_false] at hy
    obtain ⟨s1, h1, e1⟩ := resumeInYield_of_no_exception p
      (popListNode p { s with _current := some p }) hexc
    obtain ⟨s2, h2, hr2, he2, hg2, hq2⟩ := runProcess_leavesProcesses env p s1 henv
      (by rw [e1]; exact hq)
    refine ⟨park p s2, by rw [hy, h1]; simp only [Outcome.bind, h2], ?_, ?_, ?_, ?_⟩
    · rw [park_shape]
      show s2.readyList = rest
      rw [hr2, e1]; exact hrest
    · rw [park_shape]
      show (park p s2).excWrapper = []
      unfold park
      split
      · rw [he2, e1]; exact hexc
      · show s2.excWrapper = []
        rw [he2, e1]; exact hexc
    · rw [park_shape]; exact hq2
    · rw [park_shape]
      show s2.log = s.log ++ [Obs.run p]
      rw [hg2, e1]
      rfl

/-- Successive `yield()` calls dispatch the ready list from its head. -/
theorem yields_drain (env : Env)
    (henv : ∀ (p : Process) (s : Scheduler), ∀ a ∈ env.body p s, a.leavesProcesses = true)
    (l : List Process) :
    ∀ s : Scheduler, s.readyList = l → s.excWrapper = [] → s.eq.isSome = true →
      ∃ s', yields env l.length s = Outcome.ok s' ∧ s'.readyList = [] ∧
        dispatched s'.log = dispatched s.log ++ l := by
  induction l with
  | nil => intro s hl _ _; exact ⟨s, rfl, hl, by simp⟩
  | cons p rest ih =>
    intro s hl hexc hq
    obtain ⟨s1, h1, hl1, hexc1, hq1, hlog1⟩ := yield_head env s p rest hl hexc hq henv
    obtain ⟨s2, h2, hl2, hd2⟩ := ih s1 hl1 hexc1 hq1
    refine ⟨s2, ?_, hl2, ?_⟩
    · simp only [List.length_cons, yields, h1, Outcome.bind, h2]
    · rw [hd2, hlog1, dispatched_append]
      simp [dispatched]

/-- The ready list after `ready()` on distinct processes that were not in it:
the methods in the reverse of the call order, then what was there, then the
other processes in call order. -/
theorem readyAll_shape (ps : List Process) :
    ∀ s : Scheduler, s.eq.isSome = true → ps.Nodup → (∀ p ∈ ps, p ∉ s.readyList) →
      ∃ s', readyAll ps s = Outcome.ok s' ∧
        s'.readyList = (ps.filter (fun p => p.isMethod)).reverse ++ s.readyList
          ++ ps.filter (fun p => !p.isMethod) ∧
        s'.excWrapper = s.excWrapper ∧ s'.log = s.log ∧ s'.eq.isSome = true := by
  induction ps with
  | nil => intro s hq _ _; exact ⟨s, rfl, by simp, rfl, rfl, hq⟩
  | cons p rest ih =>
    intro s hq hnd hnot
    obtain ⟨q, hq'⟩ := Option.isSome_iff_exists.mp hq
    have hp : p ∉ s.readyList := hnot p (List.mem_cons_self _ _)
    have hnd' := List.nodup_cons.mp hnd
    cases hm : p.isMethod with
    | true =>
      have hk : p.procKind = sc_curr_proc_kind.SC_METHOD_PROC_ := by
        simpa [Process.isMethod] using hm
      obtain ⟨q', h'⟩ := scheduleReadyEvent_ok (readyPushFirst p s) q hq'
      obtain ⟨s2, h2, hl2, he2, hg2, hq2⟩ := ih { readyPushFirst p s with eq := some q' } rfl
        hnd'.2 (by
          intro r hr hmem
          simp only [readyPushFirst, sc_gem5.popListNode, List.erase_of_not_mem hp,
            List.mem_cons] at hmem
          rcases hmem with rfl | hmem
          · exact hnd'.1 hr
          · exact hnot r (List.mem_cons_of_mem _ hr) hmem)
      refine ⟨s2, ?_, ?_, he2, hg2, hq2⟩
      · simp only [readyAll, ready, hk, if_true, h', Outcome.bind, h2]
      · rw [hl2]
        simp [readyPushFirst, sc_gem5.popListNode, List.erase_of_not_mem hp, List.filter_cons, hm]
    | false =>
      have hk : ¬ p.procKind = sc_curr_proc_kind.SC_METHOD_PROC_ := by
        simpa [Process.isMethod] using hm
      obtain ⟨q', h'⟩ := scheduleReadyEvent_ok (readyPushLast p s) q hq'
      obtain ⟨s2, h2, hl2, he2, hg2, hq2⟩ := ih { readyPushLast p s with eq := some q' } rfl
        hnd'.2 (by
          intro r hr hmem
          simp only [readyPushLast, sc_gem5.popListNode, List.erase_of_not_mem hp,
            List.mem_append, List.mem_singleton] at hmem
          rcases hmem with hmem | rfl
          · exact hnot r (List.mem_cons_of_mem _ hr) hmem
          · exact hnd'.1 hr)
      refine ⟨s2, ?_, ?_, he2, hg2, hq2⟩
      · simp only [readyAll, ready, hk, if_false, h', Outcome.bind, h2]
      · rw [hl2]
        simp [readyPushLast, sc_gem5.popListNode, List.erase_of_not_mem hp, List.filter_cons, hm]

theorem length_methods_add_others (ps : List Process) :
    ((ps.filter (fun p => p.isMethod)).reverse ++ ps.filter (fun p => !p.isMethod)).length
      = ps.length := by
  induction ps with
  | nil => rfl
  | cons p rest ih =>
    simp only [List.length_append, List.length_reverse] at ih ⊢
    cases hm : p.isMethod <;> simp [List.filter_cons, hm] <;> omega

/-- C2, counterexample: `ready()` is called on method 1 and then on method 2;
the two `yield()` calls that follow dispatch method 2 first, so two processes
of the same kind are not dispatched in the order of the `ready()` calls. -/
theorem fifo_within_kind_fails_for_methods :
    dispatchOrder Env.idle [exampleMethod 1, exampleMethod 2] Scheduler.installed
      = some [exampleMethod 2, exampleMethod 1] ∧
    ¬ FifoWithinKind [exampleMethod 1, exampleMethod 2] [exampleMethod 2, exampleMethod 1] := by
  refine ⟨by decide, ?_⟩
  intro h
  have := h (exampleMethod 1) (exampleMethod 2) (List.Sublist.refl _) rfl
  revert this
  decide

/-- C2, amended: `ready()` is called on distinct processes, from an empty
ready list and before any of them is dispatched, no exception is pending and
the processes leave the ready list alone while they run. Then successive
`yield()` calls dispatch the methods in the reverse of the order of the
`ready()` calls, followed by the other processes in the order of the calls.
So two processes that are not methods are dispatched in the order in which
`ready()` was called on them, and two methods in the opposite order. -/
theorem dispatch_order_within_kind (env : Env) (ps : List Process) (s : Scheduler)
    (hq : s.eq.isSome = true) (hempty : s.readyList = []) (hexc : s.excWrapper = [])
    (hdistinct : ps.Nodup)
    (henv : ∀ (p : Process) (s : Scheduler), ∀ a ∈ env.body p s, a.leavesProcesses = true) :
    ∃ d, dispatchOrder env ps s = some d ∧
      d = (ps.filter (fun p => p.isMethod)).reverse ++ ps.filter (fun p => !p.isMethod) ∧
      ∀ p q : Process, [p, q].Sublist ps →
        (p.isMethod = false → q.isMethod = false → [p, q].Sublist d) ∧
        (p.isMethod = true → q.isMethod = true → [q, p].Sublist d) := by
  obtain ⟨s1, h1, hl1, he1, _, hq1⟩ := readyAll_shape ps s hq hdistinct
    (by intro p _; rw [hempty]; exact List.not_mem_nil p)
  rw [hempty, List.append_nil] at hl1
  obtain ⟨s2, h2, _, hd2⟩ := yields_drain env henv _ s1 hl1 (he1.trans hexc) hq1
  rw [length_methods_add_others] at h2
  refine ⟨_, ?_, rfl, ?_⟩
  · simp only [dispatchOrder, h1, h2, hd2, List.drop_left]
  · intro p q hsub
    constructor
    · intro hp hq'
      have : [p, q].Sublist (ps.filter (fun p => !p.isMethod)) := by
        have := hsub.filter (fun p => !p.isMethod)
        simpa [List.filter_cons, hp, hq'] using this
      exact this.trans (List.sublist_append_right _ _)
    · intro hp hq'
      have : [p, q].Sublist (ps.filter (fun p => p.isMethod)) := by
        have := hsub.filter (fun p => p.isMethod)
        simpa [List.filter_cons, hp, hq'] using this
      have hrev : [q, p].Sublist (ps.filter (fun p => p.isMethod)).reverse := by
        have := this.reverse
        simpa using this
      exact hrev.trans (List.sublist_append_left _ _)

/-- Witness of C2 amended: threads 1 and 4 and methods 2 and 3, readied in
this order, are dispatched as method 3, method 2, thread 1, thread 4. -/
theorem dispatch_order_within_kind_witness :
    ∃ d, dispatchOrder Env.idle
        [exampleThread 1, exampleMethod 2, exampleMethod 3, exampleThread 4] Scheduler.installed
        = some d ∧
      d = [exampleMethod 3, exampleMethod 2, exampleThread 1, exampleThread 4] := by
  obtain ⟨d, h1, h2, _⟩ := dispatch_order_within_kind Env.idle
    [exampleThread 1, exampleMethod 2, exampleMethod 3, exampleThread 4] Scheduler.installed
    (by decide) (by decide) (by decide) (by decide)
    (by intro p s a ha; simp [Env.idle] at ha)
  exact ⟨d, h1, by rw [h2]; decide⟩

/-! ## What outside code can do to the lists and the record -/

theorem Outcome.Rel.rel_ok {R : Scheduler → Scheduler → Prop} {s s' : Scheduler} (h : R s s') :
    (Outcome.ok s').Rel R s := by
  intro t ht
  simp only [Outcome.state?, Option.some.injEq] at ht
  subst ht
  exact h

theorem Outcome.Rel.rel_abort (R : Scheduler → Scheduler → Prop) (s : Scheduler) (why : Abort) :
    (Outcome.abort why).Rel R s := by
  intro t ht; simp [Outcome.state?] at ht

theorem Outcome.Rel.rel_outOfFuel (R : Scheduler → Scheduler → Prop) (s : Scheduler) :
    (Outcome.outOfFuel).Rel R s := by
  intro t ht; simp [Outcome.state?] at ht

theorem Outcome.Rel.rel_bind {R : Scheduler → Scheduler → Prop}
    (htrans : ∀ a b c, R a b → R b c → R a c) {s : Scheduler} {o : Outcome}
    {f : Scheduler → Outcome} (ho : o.Rel R s) (hf : ∀ s1, R s s1 → (f s1).Rel R s1) :
    (o.bind f).Rel R s := by
  cases o with
  | ok s1 =>
    intro t ht
    exact htrans _ _ _ (ho s1 rfl) (hf s1 (ho s1 rfl) t ht)
  | threw exc s1 => exact ho
  | abort why => exact Outcome.Rel.rel_abort R s why
  | outOfFuel => exact Outcome.Rel.rel_outOfFuel R s

theorem Outcome.Rel.rel_from {R : Scheduler → Scheduler → Prop}
    (htrans : ∀ a b c, R a b → R b c → R a c) {a b : Scheduler} {o : Outcome}
    (h : R a b) (ho : o.Rel R b) : o.Rel R a :=
  fun t ht => htrans _ _ _ h (ho t ht)

theorem Outcome.Rel.rel_mono {R R' : Scheduler → Scheduler → Prop} (h : ∀ a b, R a b → R' a b)
    {s : Scheduler} {o : Outcome} (ho : o.Rel R s) : o.Rel R' s :=
  fun t ht => h _ _ (ho t ht)

theorem LogQuiet.logQuiet_refl (s : Scheduler) : LogQuiet s s := ⟨[], by simp, by simp⟩

theorem LogQuiet.logQuiet_trans (a b c : Scheduler) (h1 : LogQuiet a b) (h2 : LogQuiet b c) :
    LogQuiet a c := by
  obtain ⟨n1, e1, q1⟩ := h1
  obtain ⟨n2, e2, q2⟩ := h2
  refine ⟨n1 ++ n2, by rw [e2, e1, List.append_assoc], ?_⟩
  intro o ho
  rcases List.mem_append.mp ho with h | h
  · exact q1 o h
  · exact q2 o h

theorem LogQuiet.logQuiet_of_eq {s s' : Scheduler} (h : s'.log = s.log) : LogQuiet s s' :=
  ⟨[], by simp [h], by simp⟩

theorem Effect.effect_refl (kr ku : Bool) (s : Scheduler) : Effect kr ku s s :=
  ⟨LogQuiet.logQuiet_refl s, fun _ h => h, fun _ => rfl⟩

theorem Effect.effect_trans (kr ku : Bool) (a b c : Scheduler) (h1 : Effect kr ku a b)
    (h2 : Effect kr ku b c) : Effect kr ku a c :=
  ⟨LogQuiet.logQuiet_trans a b c h1.1 h2.1, fun hk h => h2.2.1 hk (h1.2.1 hk h),
    fun hk => (h2.2.2 hk).trans (h1.2.2 hk)⟩

theorem Effect.effect_weaken {kr ku kr' ku' : Bool} (hr : kr' = true → kr = true)
    (hu : ku' = true → ku = true) (a b : Scheduler) (h : Effect kr ku a b) :
    Effect kr' ku' a b :=
  ⟨h.1, fun hk => h.2.1 (hr hk), fun hk => h.2.2 (hu hk)⟩

/-- A change that leaves the record, the ready list and the update list as
they are. -/
theorem Effect.effect_of_eq (kr ku : Bool) {s s' : Scheduler} (hlog : s'.log = s.log)
    (hr : s'.readyList = s.readyList) (hu : s'.updateList = s.updateList) :
    Effect kr ku s s' :=
  ⟨LogQuiet.logQuiet_of_eq hlog, fun _ h => by rw [hr]; exact h, fun _ => hu⟩

theorem Effect.effect_scheduleReadyEvent (kr ku : Bool) (s : Scheduler) :
    (scheduleReadyEvent s).Rel (Effect kr ku) s := by
  unfold sc_gem5.scheduleReadyEvent
  split
  · split
    · exact Outcome.Rel.rel_abort _ s _
    · simp only
      split
      · exact Outcome.Rel.rel_ok (Effect.effect_of_eq kr ku rfl rfl rfl)
      · exact Outcome.Rel.rel_ok (Effect.effect_of_eq kr ku rfl rfl rfl)
  · exact Outcome.Rel.rel_ok (Effect.effect_refl kr ku s)

theorem Effect.effect_eqScheduleNow (kr ku : Bool) (h : Handle) (s : Scheduler) :
    (eqScheduleNow h s).Rel (Effect kr ku) s := by
  unfold sc_gem5.eqScheduleNow
  split
  · exact Outcome.Rel.rel_abort _ s _
  · exact Outcome.Rel.rel_ok (Effect.effect_of_eq kr ku rfl rfl rfl)

theorem Effect.effect_ready (ku : Bool) (p : Process) (s : Scheduler) :
    (ready p s).Rel (Effect false ku) s := by
  unfold sc_gem5.ready
  split
  · refine Outcome.Rel.rel_from (Effect.effect_trans false ku) ?_ (Effect.effect_scheduleReadyEvent false ku _)
    exact ⟨LogQuiet.logQuiet_of_eq rfl, (fun h => by cases h), fun _ => rfl⟩
  · refine Outcome.Rel.rel_from (Effect.effect_trans false ku) ?_ (Effect.effect_scheduleReadyEvent false ku _)
    exact ⟨LogQuiet.logQuiet_of_eq rfl, (fun h => by cases h), fun _ => rfl⟩

theorem Effect.effect_requestUpdate (kr : Bool) (c : Channel) (s : Scheduler) :
    (requestUpdate c s).Rel (Effect kr false) s := by
  unfold sc_gem5.requestUpdate
  refine Outcome.Rel.rel_from (Effect.effect_trans kr false) ?_ (Effect.effect_scheduleReadyEvent kr false _)
  exact ⟨LogQuiet.logQuiet_of_eq rfl, fun _ h => h, fun h => by cases h⟩

theorem Effect.effect_reg (ku : Bool) (p : Process) (s : Scheduler) :
    (reg p s).Rel (Effect false ku) s := by
  unfold sc_gem5.reg
  split
  · refine Outcome.Rel.rel_from (Effect.effect_trans false ku) ?_ (Effect.effect_ready ku p _)
    exact ⟨⟨[Obs.finalize p], rfl, by simp [Obs.isUpdate]⟩, (fun h => by cases h), fun _ => rfl⟩
  · exact Outcome.Rel.rel_ok ⟨LogQuiet.logQuiet_of_eq rfl, (fun h => by cases h), fun _ => rfl⟩

theorem Effect.effect_dontInitialize (kr ku : Bool) (p : Process) (s : Scheduler) :
    Effect kr ku s (dontInitialize p s) := by
  unfold sc_gem5.dontInitialize
  split
  · exact ⟨LogQuiet.logQuiet_of_eq rfl, fun _ h => by simp [sc_gem5.popListNode, h], fun _ => rfl⟩
  · exact ⟨LogQuiet.logQuiet_of_eq rfl, fun _ h => by simp [sc_gem5.popListNode, h], fun _ => rfl⟩

theorem Effect.effect_schedulePause (kr ku : Bool) (s : Scheduler) :
    (schedulePause s).Rel (Effect kr ku) s := by
  unfold sc_gem5.schedulePause
  split
  · exact Outcome.Rel.rel_ok (Effect.effect_refl kr ku s)
  · exact Effect.effect_eqScheduleNow kr ku _ s

theorem flushReady_frame (n : Nat) : ∀ s : Scheduler,
    (flushReady n s).log = s.log ∧ (flushReady n s).updateList = s.updateList ∧
      (s.readyList = [] → (flushReady n s).readyList = []) := by
  induction n with
  | zero => intro s; exact ⟨rfl, rfl, id⟩
  | succ n ih =>
    intro s
    unfold flushReady
    split
    · exact ⟨rfl, rfl, id⟩
    · obtain ⟨h1, h2, h3⟩ := ih (popListNode _ s)
      refine ⟨h1, h2, ?_⟩
      intro h
      exact h3 (by simp [sc_gem5.popListNode, h])

theorem flushUpdates_frame (n : Nat) : ∀ s : Scheduler,
    (flushUpdates n s).log = s.log ∧ (flushUpdates n s).readyList = s.readyList := by
  induction n with
  | zero => intro s; exact ⟨rfl, rfl⟩
  | succ n ih =>
    intro s
    unfold flushUpdates
    split
    · exact ⟨rfl, rfl⟩
    · exact ih (popChannel _ s)

theorem Effect.effect_scheduleStop (kr : Bool) (finish_delta : Bool) (s : Scheduler) :
    (scheduleStop finish_delta s).Rel (Effect kr finish_delta) s := by
  unfold sc_gem5.scheduleStop
  split
  · exact Outcome.Rel.rel_ok (Effect.effect_refl kr finish_delta s)
  · refine Outcome.Rel.rel_from (Effect.effect_trans kr finish_delta) ?_
      (Effect.effect_eqScheduleNow kr finish_delta _ _)
    cases finish_delta with
    | true => exact Effect.effect_refl kr true s
    | false =>
      obtain ⟨h1, _, h3⟩ := flushReady_frame s.readyList.length s
      obtain ⟨g1, g2⟩ := flushUpdates_frame
        (flushReady s.readyList.length s).updateList.length (flushReady s.readyList.length s)
      refine ⟨LogQuiet.logQuiet_of_eq ?_, ?_, fun h => by cases h⟩
      · simp only [Bool.not_false, if_true]; rw [g1, h1]
      · intro _ h; simp only [Bool.not_false, if_true]; rw [g2]; exact h3 h

theorem Effect.effect_apply (a : Action) (s : Scheduler) :
    (a.apply s).Rel (Effect (!a.makesReady) (!a.touchesUpdateList)) s := by
  cases a with
  | ready p => exact Effect.effect_ready _ p s
  | requestUpdate c => exact Effect.effect_requestUpdate _ c s
  | reg p => exact Effect.effect_reg _ p s
  | dontInitialize p => exact Outcome.Rel.rel_ok (Effect.effect_dontInitialize _ _ p s)
  | schedulePause => exact Effect.effect_schedulePause _ _ s
  | scheduleStop fd =>
    have := Effect.effect_scheduleStop true fd s
    simpa [Action.makesReady, Action.touchesUpdateList] using this
  | setException p exc => exact Outcome.Rel.rel_ok (Effect.effect_of_eq _ _ rfl rfl rfl)

theorem Effect.effect_runScript (kr ku : Bool) (script : List Action)
    (hr : kr = true → ∀ a ∈ script, a.makesReady = false)
    (hu : ku = true → ∀ a ∈ script, a.touchesUpdateList = false) :
    ∀ s : Scheduler, (runScript script s).Rel (Effect kr ku) s := by
  induction script with
  | nil => intro s; exact Outcome.Rel.rel_ok (Effect.effect_refl kr ku s)
  | cons a rest ih =>
    intro s
    refine Outcome.Rel.rel_bind (Effect.effect_trans kr ku) ?_ ?_
    · refine Outcome.Rel.rel_mono (Effect.effect_weaken ?_ ?_) (Effect.effect_apply a s)
      · intro hk; simp [hr hk a (List.mem_cons_self _ _)]
      · intro hk; simp [hu hk a (List.mem_cons_self _ _)]
    · intro s1 _
      exact ih (fun hk b hb => hr hk b (List.mem_cons_of_mem _ hb))
        (fun hk b hb => hu hk b (List.mem_cons_of_mem _ hb)) s1

theorem Effect.effect_runProcess (env : Env) (p : Process) (s : Scheduler) :
    (runProcess env p s).Rel (Effect false false) s := by
  unfold sc_gem5.runProcess
  refine Outcome.Rel.rel_from (Effect.effect_trans false false) ?_
    (Effect.effect_runScript false false _ (fun h => by cases h) (fun h => by cases h) _)
  exact ⟨⟨[Obs.run p], rfl, by simp [Obs.isUpdate]⟩, (fun h => by cases h), (fun h => by cases h)⟩

theorem Effect.effect_rethrow (s : Scheduler) : (rethrow s).Rel (Effect false false) s := by
  unfold sc_gem5.rethrow
  split
  · exact Outcome.Rel.rel_ok (Effect.effect_refl _ _ s)
  · split
    · exact Outcome.Rel.rel_ok (Effect.effect_refl _ _ s)
    · split
      · exact Outcome.Rel.rel_abort _ s _
      · intro t ht
        simp only [Outcome.state?, Option.some.injEq] at ht
        subst ht
        exact Effect.effect_of_eq _ _ rfl rfl rfl

/-- A relation that holds across the steps of `yield` holds across `yield`. -/
theorem Outcome.Rel.rel_yield {R : Scheduler → Scheduler → Prop}
    (htrans : ∀ a b c, R a b → R b c → R a c) (env : Env)
    (hcur : ∀ s : Scheduler, R s { s with _current := getNext s.readyList })
    (hpop : ∀ (p : Process) (s : Scheduler), R s (popListNode p s))
    (hshape : ∀ s s' : Scheduler,
      s' = { s with parked := s'.parked, excWrapper := s'.excWrapper, raised := s'.raised } →
      R s s')
    (hrun : ∀ (p : Process) (s : Scheduler), (runProcess env p s).Rel R s)
    (hre : ∀ s : Scheduler, (rethrow s).Rel R s) (s : Scheduler) :
    (yield env s).Rel R s := by
  unfold sc_gem5.yield
  simp only
  split
  · exact Outcome.Rel.rel_ok (hcur s)
  · rename_i p _
    have h1 : R s (popListNode p { s with _current := getNext s.readyList }) :=
      htrans _ _ _ (hcur s) (hpop p _)
    split
    · refine Outcome.Rel.rel_from htrans h1 (Outcome.Rel.rel_bind htrans ?_ (fun s1 _ => hre s1))
      split
      · exact hrun p _
      · exact Outcome.Rel.rel_ok (hshape _ _ rfl)
    · refine Outcome.Rel.rel_from htrans h1 (Outcome.Rel.rel_bind htrans ?_ ?_)
      · intro s' h
        exact hshape _ s' (resumeInYield_shape p _ s' h).2
      · intro s2 _
        refine Outcome.Rel.rel_bind htrans (hrun p s2) ?_
        intro s3 _
        exact Outcome.Rel.rel_ok (hshape _ _ (park_shape p s3))

/-- A relation that holds across `yield` holds across the call of `yield()`
made on the primary fiber. -/
theorem Outcome.Rel.rel_yieldOnPrimary {R : Scheduler → Scheduler → Prop}
    (htrans : ∀ a b c, R a b → R b c → R a c) (env : Env)
    (hy : ∀ s : Scheduler, (yield env s).Rel R s) (n : Nat) :
    ∀ s : Scheduler, (yieldOnPrimary env n s).Rel R s := by
  induction n with
  | zero => intro s; exact Outcome.Rel.rel_outOfFuel _ s
  | succ n ih =>
    intro s
    unfold sc_gem5.yieldOnPrimary
    split
    · exact hy s
    · split
      · exact hy s
      · exact Outcome.Rel.rel_bind htrans (hy s) (fun s1 _ => ih s1)

theorem Effect.effect_yield (env : Env) (s : Scheduler) :
    (yield env s).Rel (Effect false false) s :=
  Outcome.Rel.rel_yield (Effect.effect_trans false false) env
    (fun _ => Effect.effect_of_eq _ _ rfl rfl rfl)
    (fun _ _ => ⟨LogQuiet.logQuiet_of_eq rfl, (fun h => by cases h), (fun h => by cases h)⟩)
    (fun s s' h => by rw [h]; exact Effect.effect_of_eq _ _ rfl rfl rfl)
    (fun p s => Effect.effect_runProcess env p s) Effect.effect_rethrow s

theorem Effect.effect_evaluate (env : Env) (n : Nat) :
    ∀ s : Scheduler, (evaluate env n s).Rel (Effect false false) s := by
  induction n with
  | zero => intro s; exact Outcome.Rel.rel_outOfFuel _ s
  | succ n ih =>
    intro s
    unfold sc_gem5.evaluate
    refine Outcome.Rel.rel_bind (Effect.effect_trans false false)
      (Outcome.Rel.rel_yieldOnPrimary (Effect.effect_trans false false) env
        (Effect.effect_yield env) (n + 2) s) ?_
    intro s1 _
    split
    · exact Outcome.Rel.rel_ok (Effect.effect_refl _ _ s1)
    · exact ih s1

/-- The evaluation phase returns only with an empty ready list. -/
theorem evaluate_ok_readyList (env : Env) (n : Nat) :
    ∀ s s1 : Scheduler, evaluate env n s = Outcome.ok s1 → s1.readyList = [] := by
  induction n with
  | zero => intro s s1 h; cases h
  | succ n ih =>
    intro s s1 h
    unfold evaluate at h
    cases hy : yieldOnPrimary env (n + 2) s with
    | ok s0 =>
      rw [hy] at h
      simp only [Outcome.bind] at h
      split at h
      · rename_i hempty
        cases h
        exact List.isEmpty_iff.mp hempty
      · exact ih s0 s1 h
    | threw exc s0 => rw [hy] at h; cases h
    | abort why => rw [hy] at h; cases h
    | outOfFuel => rw [hy] at h; cases h

theorem readyAtUpdates_append (l1 l2 : List Obs) :
    readyAtUpdates (l1 ++ l2) = readyAtUpdates l1 ++ readyAtUpdates l2 := by
  simp [readyAtUpdates, List.filterMap_append]

theorem updateCalls_append (l1 l2 : List Obs) :
    updateCalls (l1 ++ l2) = updateCalls l1 ++ updateCalls l2 := by
  simp [updateCalls, List.filterMap_append]

theorem readyAtUpdates_of_quiet (l : List Obs) (h : ∀ o ∈ l, o.isUpdate = false) :
    readyAtUpdates l = [] := by
  induction l with
  | nil => rfl
  | cons o rest ih =>
    have ho := h o (List.mem_cons_self _ _)
    have hrest := ih (fun x hx => h x (List.mem_cons_of_mem _ hx))
    cases o <;> simp_all [readyAtUpdates, Obs.isUpdate]

theorem updateCalls_of_quiet (l : List Obs) (h : ∀ o ∈ l, o.isUpdate = false) :
    updateCalls l = [] := by
  induction l with
  | nil => rfl
  | cons o rest ih =>
    have ho := h o (List.mem_cons_self _ _)
    have hrest := ih (fun x hx => h x (List.mem_cons_of_mem _ hx))
    cases o <;> simp_all [updateCalls, Obs.isUpdate]

/-- What one call of `channel->update()` does to the record and the lists. -/
theorem runChannel_spec (env : Env) (kr ku : Bool) (c : Channel) (s : Scheduler)
    (hr : kr = true → ∀ a ∈ env.update c
      { s with log := s.log ++ [Obs.update c s.readyList s.updateList] }, a.makesReady = false)
    (hu : ku = true → ∀ a ∈ env.update c
      { s with log := s.log ++ [Obs.update c s.readyList s.updateList] },
      a.touchesUpdateList = false) :
    (runChannel env c s).Rel (fun s s' => ∃ q,
      s'.log = s.log ++ Obs.update c s.readyList s.updateList :: q ∧
      (∀ o ∈ q, o.isUpdate = false) ∧ (kr = true → s.readyList = [] → s'.readyList = []) ∧
      (ku = true → s'.updateList = s.updateList)) s := by
  intro s' hs'
  unfold runChannel at hs'
  obtain ⟨⟨q, hq, hquiet⟩, h2, h3⟩ := Effect.effect_runScript kr ku _ hr hu _ s' hs'
  refine ⟨q, ?_, hquiet, h2, h3⟩
  rw [hq]
  simp

theorem LogExtends.logExtends_trans (a b c : Scheduler) (h1 : LogExtends a b) (h2 : LogExtends b c) :
    LogExtends a c := by
  obtain ⟨n1, e1⟩ := h1
  obtain ⟨n2, e2⟩ := h2
  exact ⟨n1 ++ n2, by rw [e2, e1, List.append_assoc]⟩

theorem update_logExtends (env : Env) (n : Nat) :
    ∀ s : Scheduler, (update env n s).Rel LogExtends s := by
  induction n with
  | zero =>
    intro s
    unfold update
    split
    · exact Outcome.Rel.rel_ok ⟨[], by simp⟩
    · exact Outcome.Rel.rel_outOfFuel _ s
  | succ n ih =>
    intro s
    unfold update
    split
    · exact Outcome.Rel.rel_ok ⟨[], by simp⟩
    · rename_i channel _
      refine Outcome.Rel.rel_from LogExtends.logExtends_trans (b := popChannel channel s) ⟨[], by simp [popChannel]⟩ ?_
      refine Outcome.Rel.rel_bind LogExtends.logExtends_trans ?_ (fun s1 _ => ih s1)
      intro s' hs'
      obtain ⟨q, hq, _⟩ := runChannel_spec env false false channel _
        (fun h => by cases h) (fun h => by cases h) s' hs'
      exact ⟨_, hq⟩

/-- The first `channel->update()` of an update phase sees the ready list the
phase started with. -/
theorem update_first (env : Env) (n : Nat) (s : Scheduler) :
    (update env n s).Rel FirstUpdateSees s := by
  cases n with
  | zero =>
    unfold update
    split
    · exact Outcome.Rel.rel_ok ⟨[], by simp, by simp [readyAtUpdates]⟩
    · exact Outcome.Rel.rel_outOfFuel _ s
  | succ n =>
    unfold update
    split
    · exact Outcome.Rel.rel_ok ⟨[], by simp, by simp [readyAtUpdates]⟩
    · rename_i channel _
      intro s' hs'
      have hspec := runChannel_spec env false false channel (popChannel channel s)
        (fun h => by cases h) (fun h => by cases h)
      cases hrun : runChannel env channel (popChannel channel s) with
      | ok s1 =>
        rw [hrun] at hs' hspec
        obtain ⟨q, hq, _⟩ := hspec s1 rfl
        obtain ⟨rest, hrest⟩ := update_logExtends env n s1 s' hs'
        refine ⟨Obs.update channel s.readyList (s.updateList.erase channel) :: q ++ rest, ?_, ?_⟩
        · rw [hrest, hq]; simp [popChannel]
        · intro r hr
          simpa [readyAtUpdates] using hr.symm
      | threw exc s1 =>
        rw [hrun] at hs' hspec
        simp only [Outcome.bind, Outcome.state?, Option.some.injEq] at hs'
        subst hs'
        obtain ⟨q, hq, _⟩ := hspec s1 rfl
        refine ⟨Obs.update channel s.readyList (s.updateList.erase channel) :: q, ?_, ?_⟩
        · rw [hq]; simp [popChannel]
        · intro r hr
          simpa [readyAtUpdates] using hr.symm
      | abort why => rw [hrun] at hs'; simp [Outcome.bind, Outcome.state?] at hs'
      | outOfFuel => rw [hrun] at hs'; simp [Outcome.bind, Outcome.state?] at hs'

theorem UpdatesQuietly.updatesQuietly_trans (a b c : Scheduler) (h1 : UpdatesQuietly a b)
    (h2 : UpdatesQuietly b c) : UpdatesQuietly a c := by
  intro ha
  obtain ⟨hb, n1, e1, q1⟩ := h1 ha
  obtain ⟨hc, n2, e2, q2⟩ := h2 hb
  refine ⟨hc, n1 ++ n2, by rw [e2, e1, List.append_assoc], ?_⟩
  intro r hr
  rw [readyAtUpdates_append] at hr
  rcases List.mem_append.mp hr with h | h
  · exact q1 r h
  · exact q2 r h

/-- When no `update()` of a channel makes a process ready, an update phase
started with an empty ready list calls every `update()` with an empty ready
list. -/
theorem update_quietly (env : Env)
    (hchan : ∀ (c : Channel) (s : Scheduler), ∀ a ∈ env.update c s, a.makesReady = false)
    (n : Nat) : ∀ s : Scheduler, (update env n s).Rel UpdatesQuietly s := by
  induction n with
  | zero =>
    intro s
    unfold update
    split
    · exact Outcome.Rel.rel_ok (fun h => ⟨h, [], by simp, by simp [UpdatesSeeEmptyReadyList, readyAtUpdates]⟩)
    · exact Outcome.Rel.rel_outOfFuel _ s
  | succ n ih =>
    intro s
    unfold update
    split
    · exact Outcome.Rel.rel_ok (fun h => ⟨h, [], by simp, by simp [UpdatesSeeEmptyReadyList, readyAtUpdates]⟩)
    · rename_i channel _
      refine Outcome.Rel.rel_bind UpdatesQuietly.updatesQuietly_trans ?_ (fun s1 _ => ih s1)
      intro s' hs' hempty
      obtain ⟨q, hq, hquiet, hr, _⟩ := runChannel_spec env true false channel _
        (fun _ => hchan _ _) (fun h => by cases h) s' hs'
      refine ⟨hr rfl (by simp [popChannel, hempty]), _, hq, ?_⟩
      intro r hmem
      have : readyAtUpdates (Obs.update channel (popChannel channel s).readyList
          (popChannel channel s).updateList :: q) = [s.readyList] := by
        have hq0 := readyAtUpdates_of_quiet q hquiet
        simp only [readyAtUpdates] at hq0 ⊢
        simp [List.filterMap_cons, hq0, popChannel]
      rw [this, hempty] at hmem
      simpa using hmem

theorem scheduleStarvationEvent_log (s s' : Scheduler)
    (h : (scheduleStarvationEvent s).state? = some s') :
    s'.log = s.log ∧ s'.readyList = s.readyList := by
  unfold scheduleStarvationEvent at h
  split at h
  · split at h
    · simp [Outcome.state?] at h
    · simp only at h
      split at h <;>
        · simp only [Outcome.state?, Option.some.injEq] at h
          subst h
          exact ⟨rfl, rfl⟩
  · simp only [Outcome.state?, Option.some.injEq] at h
    subst h
    exact ⟨rfl, rfl⟩

/-- The end of `runReady`, after the update phase, adds nothing to the record
and leaves the ready list alone. -/
theorem runReady_tail_log (env : Env) (s s' : Scheduler)
    (h : (if env.starved s && !s.runToTime then scheduleStarvationEvent s
      else Outcome.ok s).state? = some s') :
    s'.log = s.log ∧ s'.readyList = s.readyList := by
  split at h
  · exact scheduleStarvationEvent_log s s' h
  · simp only [Outcome.state?, Option.some.injEq] at h
    subst h
    exact ⟨rfl, rfl⟩

/-- C9, counterexample: the update list holds channels 1 and 2 and the ready
list is empty; the `update()` of channel 1 makes a thread ready, and `runReady`
then calls the `update()` of channel 2 while that thread is in the ready
list. -/
theorem update_called_with_ready_process :
    (runReady Env.updateReadies 2
        (requestAll [{ id := 1 }, { id := 2 }] Scheduler.installed).get).state?.isSome = true ∧
    readyAtUpdates (runReady Env.updateReadies 2
        (requestAll [{ id := 1 }, { id := 2 }] Scheduler.installed).get).get.log
      = [[], [exampleThread 9]] ∧
    ¬ UpdatesSeeEmptyReadyList (runReady Env.updateReadies 2
        (requestAll [{ id := 1 }, { id := 2 }] Scheduler.installed).get).get.log := by
  refine ⟨by decide, by decide, ?_⟩
  intro h
  have := h [exampleThread 9] (by decide)
  cases this

/-- C9, amended: in every execution of `runReady` the update phase begins
with the ready list empty: the evaluation phase returns only with an empty
ready list, and the first `update()` called sees an empty ready list. When no
`update()` of a channel makes a process ready (calls `ready` or `reg`), every
`update()` called by the update phase sees an empty ready list. -/
theorem updates_run_after_evaluation (env : Env) (fuel : Nat) (s s' : Scheduler)
    (hrun : (runReady env fuel s).state? = some s') :
    (∀ s1, evaluate env fuel s = Outcome.ok s1 → s1.readyList = []) ∧
    (∃ added, s'.log = s.log ++ added ∧
      ∀ r, (readyAtUpdates added).head? = some r → r = []) ∧
    ((∀ (c : Channel) (s : Scheduler), ∀ a ∈ env.update c s, a.makesReady = false) →
      ∃ added, s'.log = s.log ++ added ∧ UpdatesSeeEmptyReadyList added) := by
  refine ⟨evaluate_ok_readyList env fuel s, ?_⟩
  unfold runReady at hrun
  simp only at hrun
  have hev := Effect.effect_evaluate env fuel s
  cases he : evaluate env fuel s with
  | ok s1 =>
    rw [he] at hrun hev
    obtain ⟨⟨q1, hq1, hquiet1⟩, _, _⟩ := hev s1 rfl
    have hempty1 := evaluate_ok_readyList env fuel s s1 he
    have hq1r := readyAtUpdates_of_quiet q1 hquiet1
    simp only [Outcome.bind] at hrun
    generalize hs2 : (if (!s.readyList.isEmpty) = true
      then { s1 with _numCycles := s1._numCycles + 1 } else s1) = s2 at hrun
    have hlog2 : s2.log = s1.log := by subst hs2; split <;> rfl
    have hready2 : s2.readyList = [] := by
      subst hs2
      split
      · exact hempty1
      · exact hempty1
    have hfirst := update_first env fuel s2
    cases hu : update env fuel s2 with
    | ok s3 =>
      rw [hu] at hrun hfirst
      simp only [Outcome.bind] at hrun
      obtain ⟨hl3, _⟩ := runReady_tail_log env s3 s' hrun
      obtain ⟨q2, hq2, hfirst2⟩ := hfirst s3 rfl
      refine ⟨⟨q1 ++ q2, by rw [hl3, hq2, hlog2, hq1, List.append_assoc], ?_⟩, ?_⟩
      · intro r hr
        rw [readyAtUpdates_append, hq1r, List.nil_append] at hr
        rw [hfirst2 r hr, hready2]
      · intro hchan
        have hquietly := update_quietly env hchan fuel s2
        rw [hu] at hquietly
        obtain ⟨_, q3, hq3, hsee⟩ := hquietly s3 rfl hready2
        refine ⟨q1 ++ q3, by rw [hl3, hq3, hlog2, hq1, List.append_assoc], ?_⟩
        intro r hr
        rw [readyAtUpdates_append, hq1r, List.nil_append] at hr
        exact hsee r hr
    | threw exc s3 =>
      rw [hu] at hrun hfirst
      simp only [Outcome.bind, Outcome.state?, Option.some.injEq] at hrun
      subst hrun
      obtain ⟨q2, hq2, hfirst2⟩ := hfirst s3 rfl
      refine ⟨⟨q1 ++ q2, by rw [hq2, hlog2, hq1, List.append_assoc], ?_⟩, ?_⟩
      · intro r hr
        rw [readyAtUpdates_append, hq1r, List.nil_append] at hr
        rw [hfirst2 r hr, hready2]
      · intro hchan
        have hquietly := update_quietly env hchan fuel s2
        rw [hu] at hquietly
        obtain ⟨_, q3, hq3, hsee⟩ := hquietly s3 rfl hready2
        refine ⟨q1 ++ q3, by rw [hq3, hlog2, hq1, List.append_assoc], ?_⟩
        intro r hr
        rw [readyAtUpdates_append, hq1r, List.nil_append] at hr
        exact hsee r hr
    | abort why => rw [hu] at hrun; simp [Outcome.bind, Outcome.state?] at hrun
    | outOfFuel => rw [hu] at hrun; simp [Outcome.bind, Outcome.state?] at hrun
  | threw exc s1 =>
    rw [he] at hrun hev
    simp only [Outcome.bind, Outcome.state?, Option.some.injEq] at hrun
    subst hrun
    obtain ⟨⟨q1, hq1, hquiet1⟩, _, _⟩ := hev s1 rfl
    have hq1r := readyAtUpdates_of_quiet q1 hquiet1
    refine ⟨⟨q1, hq1, ?_⟩, fun _ => ⟨q1, hq1, ?_⟩⟩
    · intro r hr; rw [hq1r] at hr; cases hr
    · intro r hr; rw [hq1r] at hr; cases hr
  | abort why => rw [he] at hrun; simp [Outcome.bind, Outcome.state?] at hrun
  | outOfFuel => rw [he] at hrun; simp [Outcome.bind, Outcome.state?] at hrun

/-- Witness of C9 amended: thread 1 runs, requests two updates and readies a
method, which runs too; the update phase then calls three `update()`, the third
requested by the first, each with an empty ready list. -/
theorem updates_run_after_evaluation_witness :
    readyAtUpdates (runReady Env.busy 3
      (ready (exampleThread 1) Scheduler.installed).get).get.log = [[], [], []] ∧
    ∃ added, (runReady Env.busy 3 (ready (exampleThread 1) Scheduler.installed).get).get.log
        = (ready (exampleThread 1) Scheduler.installed).get.log ++ added ∧
      UpdatesSeeEmptyReadyList added :=
  ⟨by decide,
    (updates_run_after_evaluation Env.busy 3
      (ready (exampleThread 1) Scheduler.installed).get
      (runReady Env.busy 3 (ready (exampleThread 1) Scheduler.installed).get).get
      (by decide)).2.2
      (by
        intro c s a ha
        simp only [Env.busy] at ha
        split at ha
        · simp only [List.mem_singleton] at ha
          subst ha
          rfl
        · cases ha)⟩


/-! ## The update phase -/

theorem ready_ok (p : Process) (s : Scheduler) (hq : s.eq.isSome = true) :
    ∃ s', ready p s = Outcome.ok s' ∧ s'.eq.isSome = true := by
  obtain ⟨q, hq'⟩ := Option.isSome_iff_exists.mp hq
  unfold ready
  split
  · obtain ⟨q', h'⟩ := scheduleReadyEvent_ok (readyPushFirst p s) q hq'
    exact ⟨_, h', rfl⟩
  · obtain ⟨q', h'⟩ := scheduleReadyEvent_ok (readyPushLast p s) q hq'
    exact ⟨_, h', rfl⟩

/-- With the event manager installed, a call from outside code returns. -/
theorem Action.apply_ok (a : Action) (s : Scheduler) (hq : s.eq.isSome = true) :
    ∃ s', a.apply s = Outcome.ok s' ∧ s'.eq.isSome = true := by
  obtain ⟨q, hq'⟩ := Option.isSome_iff_exists.mp hq
  cases a with
  | ready p => exact ready_ok p s hq
  | requestUpdate c =>
    obtain ⟨q', h'⟩ := scheduleReadyEvent_ok
      { popChannel c s with updateList := (popChannel c s).updateList ++ [c] } q hq'
    exact ⟨_, h', rfl⟩
  | reg p =>
    unfold Action.apply sc_gem5.reg
    simp only
    split
    · exact ready_ok p (finalize p s) hq
    · exact ⟨_, rfl, hq⟩
  | dontInitialize p =>
    refine ⟨_, rfl, ?_⟩
    unfold sc_gem5.dontInitialize
    split <;> exact hq
  | schedulePause =>
    unfold Action.apply sc_gem5.schedulePause
    simp only
    split
    · exact ⟨s, rfl, hq⟩
    · exact ⟨_, eqScheduleNow_ok _ s q hq', rfl⟩
  | scheduleStop fd =>
    unfold Action.apply sc_gem5.scheduleStop
    simp only
    split
    · exact ⟨s, rfl, hq⟩
    · have hflush : ∀ n (t : Scheduler), (flushReady n t).eq = t.eq := by
        intro n
        induction n with
        | zero => intro t; rfl
        | succ n ih =>
          intro t
          unfold flushReady
          split
          · rfl
          · rw [ih]; rfl
      have hflushU : ∀ n (t : Scheduler), (flushUpdates n t).eq = t.eq := by
        intro n
        induction n with
        | zero => intro t; rfl
        | succ n ih =>
          intro t
          unfold flushUpdates
          split
          · rfl
          · rw [ih]; rfl
      split
      · exact ⟨_, eqScheduleNow_ok _ _ q (by rw [hflushU, hflush]; exact hq'), rfl⟩
      · exact ⟨_, eqScheduleNow_ok _ s q hq', rfl⟩
  | setException p exc => exact ⟨_, rfl, hq⟩

theorem runScript_ok (script : List Action) :
    ∀ s : Scheduler, s.eq.isSome = true →
      ∃ s', runScript script s = Outcome.ok s' ∧ s'.eq.isSome = true := by
  induction script with
  | nil => intro s hq; exact ⟨s, rfl, hq⟩
  | cons a rest ih =>
    intro s hq
    obtain ⟨s1, h1, hq1⟩ := Action.apply_ok a s hq
    obtain ⟨s2, h2, hq2⟩ := ih s1 hq1
    exact ⟨s2, by simp only [runScript, h1, Outcome.bind, h2], hq2⟩

theorem requestUpdate_ok (c : Channel) (s : Scheduler) (hq : s.eq.isSome = true)
    (hc : c ∉ s.updateList) :
    ∃ s', requestUpdate c s = Outcome.ok s' ∧ s'.updateList = s.updateList ++ [c] ∧
      s'.eq.isSome = true := by
  obtain ⟨q, hq'⟩ := Option.isSome_iff_exists.mp hq
  obtain ⟨q', h'⟩ := scheduleReadyEvent_ok
    { popChannel c s with updateList := (popChannel c s).updateList ++ [c] } q hq'
  refine ⟨_, h', ?_, rfl⟩
  simp [popChannel, List.erase_of_not_mem hc]

/-- The update list after `requestUpdate` on distinct channels that were not
in it: what was there, then the channels in the order of the requests. -/
theorem requestAll_spec (chans : List Channel) :
    ∀ s : Scheduler, s.eq.isSome = true → chans.Nodup → (∀ c ∈ chans, c ∉ s.updateList) →
      ∃ s', requestAll chans s = Outcome.ok s' ∧ s'.updateList = s.updateList ++ chans ∧
        s'.eq.isSome = true := by
  induction chans with
  | nil => intro s hq _ _; exact ⟨s, rfl, by simp, hq⟩
  | cons c rest ih =>
    intro s hq hnd hnot
    have hc : c ∉ s.updateList := hnot c (List.mem_cons_self _ _)
    have hnd' := List.nodup_cons.mp hnd
    obtain ⟨s1, h1, hl1, hq1⟩ := requestUpdate_ok c s hq hc
    obtain ⟨s2, h2, hl2, hq2⟩ := ih s1 hq1 hnd'.2 (by
      intro r hr hmem
      rw [hl1] at hmem
      simp only [List.mem_append, List.mem_singleton] at hmem
      rcases hmem with hmem | rfl
      · exact hnot r (List.mem_cons_of_mem _ hr) hmem
      · exact hnd'.1 hr)
    refine ⟨s2, ?_, ?_, hq2⟩
    · simp only [requestAll, h1, Outcome.bind, h2]
    · rw [hl2, hl1]; simp

theorem expectedCalls_fst (chans : List Channel) :
    (expectedCalls chans).map Prod.fst = chans := by
  induction chans with
  | nil => rfl
  | cons c rest ih => simp [expectedCalls, ih]

theorem expectedCalls_removed (chans : List Channel) (hnd : chans.Nodup) :
    ∀ call ∈ expectedCalls chans, call.1 ∉ call.2 := by
  induction chans with
  | nil => intro call h; cases h
  | cons c rest ih =>
    intro call h
    have hnd' := List.nodup_cons.mp hnd
    simp only [expectedCalls, List.mem_cons] at h
    rcases h with rfl | h
    · exact hnd'.1
    · exact ih hnd'.2 call h

/-- When no `update()` of a channel changes the update list, `update()` with
fuel for each listed channel returns, having called each `update()` once in
list order with the channel already unlinked, and leaves the list empty. -/
theorem update_drains (env : Env)
    (hchan : ∀ (c : Channel) (s : Scheduler), ∀ a ∈ env.update c s,
      a.touchesUpdateList = false)
    (chans : List Channel) :
    ∀ (fuel : Nat) (s : Scheduler), s.updateList = chans → s.eq.isSome = true →
      chans.length ≤ fuel →
      ∃ s' added, update env fuel s = Outcome.ok s' ∧ s'.updateList = [] ∧
        s'.log = s.log ++ added ∧ updateCalls added = expectedCalls chans := by
  induction chans with
  | nil =>
    intro fuel s hl _ _
    refine ⟨s, [], ?_, hl, by simp, rfl⟩
    cases fuel <;> simp [update, getNext, hl]
  | cons c rest ih =>
    intro fuel s hl hq hfuel
    cases fuel with
    | zero => simp at hfuel
    | succ n =>
      have hfuel' : rest.length ≤ n := by simpa using hfuel
      have hstep : update env (n + 1) s
          = (runChannel env c (popChannel c s)).bind (update env n) := by
        rw [update]
        simp only [getNext, hl, List.head?_cons]
      obtain ⟨s1, h1, hq1⟩ := runScript_ok
        (env.update c { popChannel c s with log := (popChannel c s).log
          ++ [Obs.update c (popChannel c s).readyList (popChannel c s).updateList] })
        { popChannel c s with log := (popChannel c s).log
          ++ [Obs.update c (popChannel c s).readyList (popChannel c s).updateList] } hq
      have hrun : runChannel env c (popChannel c s) = Outcome.ok s1 := h1
      obtain ⟨q, hlog1, hquiet, _, hkeep⟩ := runChannel_spec env false true c (popChannel c s)
        (fun h => by cases h) (fun _ => hchan _ _) s1 (by rw [hrun]; rfl)
      have hl1 : s1.updateList = rest := by
        rw [hkeep rfl]
        simp [popChannel, hl]
      obtain ⟨s2, added, h2, hl2, hlog2, hcalls⟩ := ih n s1 hl1 hq1 hfuel'
      refine ⟨s2, Obs.update c s.readyList rest :: q ++ added, ?_, hl2, ?_, ?_⟩
      · rw [hstep, hrun]; exact h2
      · rw [hlog2, hlog1]
        simp [popChannel, hl]
      · rw [updateCalls_append, hcalls]
        have hq0 := updateCalls_of_quiet q hquiet
        simp only [updateCalls] at hq0 ⊢
        simp [List.filterMap_cons, hq0, expectedCalls]

/-- C10, counterexample: the update list holds channels 1 and 2, requested in
this order, and no `update()` requests an update; the `update()` of channel 1
stops the simulation without finishing the delta cycle, which flushes the
update list, so `update()` returns without having called the `update()` of
channel 2. -/
theorem update_skips_flushed_channel :
    (∀ (c : Channel) (s : Scheduler), ∀ a ∈ Env.updateStops.update c s,
      a.isRequestUpdate = false) ∧
    (update Env.updateStops 2
      (requestAll [{ id := 1 }, { id := 2 }] Scheduler.installed).get).state?.isSome = true ∧
    updateCalls (update Env.updateStops 2
      (requestAll [{ id := 1 }, { id := 2 }] Scheduler.installed).get).get.log
        = [({ id := 1 }, [{ id := 2 }])] ∧
    ¬ UpdatedOnceInOrder [{ id := 1 }, { id := 2 }] (update Env.updateStops 2
      (requestAll [{ id := 1 }, { id := 2 }] Scheduler.installed).get).get.log := by
  refine ⟨?_, by decide, by decide, by unfold UpdatedOnceInOrder; decide⟩
  intro c s a ha
  simp only [Env.updateStops] at ha
  split at ha
  · simp only [List.mem_singleton] at ha
    subst ha
    rfl
  · cases ha

/-- C10, amended: the update list is built by `requestUpdate` calls on distinct
channels, and no `update()` of a channel changes the update list, neither by
requesting an update nor by stopping the simulation without finishing the
delta cycle (`scheduleStop(false)`, which flushes the list). Then `update()`
returns, having called the `update()` of each listed channel exactly once, in
the order of the requests, each after the channel was removed from the list,
and the update list is empty. -/
theorem update_is_one_shot_fifo (env : Env) (chans : List Channel) (s : Scheduler) (fuel : Nat)
    (hq : s.eq.isSome = true) (hempty : s.updateList = []) (hdistinct : chans.Nodup)
    (hfuel : chans.length ≤ fuel)
    (hchan : ∀ (c : Channel) (s : Scheduler), ∀ a ∈ env.update c s,
      a.touchesUpdateList = false) :
    ∃ s1 s2 added, requestAll chans s = Outcome.ok s1 ∧ s1.updateList = chans ∧
      update env fuel s1 = Outcome.ok s2 ∧ s2.updateList = [] ∧
      s2.log = s1.log ++ added ∧ UpdatedOnceInOrder chans added ∧
      updateCalls added = expectedCalls chans ∧
      ∀ call ∈ updateCalls added, call.1 ∉ call.2 := by
  obtain ⟨s1, h1, hl1, hq1⟩ := requestAll_spec chans s hq hdistinct
    (by intro c _; rw [hempty]; exact List.not_mem_nil c)
  rw [hempty, List.nil_append] at hl1
  obtain ⟨s2, added, h2, hl2, hlog2, hcalls⟩ := update_drains env hchan chans fuel s1 hl1 hq1 hfuel
  refine ⟨s1, s2, added, h1, hl1, h2, hl2, hlog2, ?_, hcalls, ?_⟩
  · unfold UpdatedOnceInOrder
    rw [hcalls]
    exact expectedCalls_fst chans
  · rw [hcalls]
    exact expectedCalls_removed chans hdistinct

/-- Witness of C10 amended: channels 1, 2 and 3 are requested in this order;
the `update()` of channel 1 makes a thread ready. The three are updated in
order, each with the channels after it still listed. -/
theorem update_is_one_shot_fifo_witness :
    ∃ s1 s2 added,
      requestAll [{ id := 1 }, { id := 2 }, { id := 3 }] Scheduler.installed = Outcome.ok s1 ∧
      update Env.updateReadies 3 s1 = Outcome.ok s2 ∧ s2.updateList = [] ∧
      s2.log = s1.log ++ added ∧
      updateCalls added = [({ id := 1 }, [{ id := 2 }, { id := 3 }]),
        ({ id := 2 }, [{ id := 3 }]), ({ id := 3 }, [])] := by
  obtain ⟨s1, s2, added, h1, _, h2, h3, h4, _, h5, _⟩ :=
    update_is_one_shot_fifo Env.updateReadies [{ id := 1 }, { id := 2 }, { id := 3 }]
      Scheduler.installed 3 (by decide) (by decide) (by decide) (by decide)
      (by
        intro c s a ha
        simp only [Env.updateReadies] at ha
        split at ha
        · simp only [List.mem_singleton] at ha
          subst ha
          rfl
        · cases ha)
  exact ⟨s1, s2, added, h1, h2, h3, h4, h5⟩

/-! ## Stopping, pausing and starting -/

theorem flushReady_eq (n : Nat) : ∀ s : Scheduler, (flushReady n s).eq = s.eq := by
  induction n with
  | zero => intro s; rfl
  | succ n ih =>
    intro s
    unfold flushReady
    split
    · rfl
    · rw [ih]; rfl

theorem flushUpdates_eq (n : Nat) : ∀ s : Scheduler, (flushUpdates n s).eq = s.eq := by
  induction n with
  | zero => intro s; rfl
  | succ n ih =>
    intro s
    unfold flushUpdates
    split
    · rfl
    · rw [ih]; rfl

theorem flushReady_empties (n : Nat) :
    ∀ s : Scheduler, s.readyList.length ≤ n → (flushReady n s).readyList = [] := by
  induction n with
  | zero =>
    intro s h
    exact List.length_eq_zero.mp (Nat.le_zero.mp h)
  | succ n ih =>
    intro s h
    unfold flushReady
    cases hl : s.readyList with
    | nil => simp [getNext, hl]
    | cons p rest =>
      simp only [getNext, hl, List.head?_cons]
      apply ih
      rw [hl] at h
      simp only [popListNode, hl, List.erase_cons_head]
      simpa using h

theorem flushUpdates_empties (n : Nat) :
    ∀ s : Scheduler, s.updateList.length ≤ n → (flushUpdates n s).updateList = [] := by
  induction n with
  | zero =>
    intro s h
    exact List.length_eq_zero.mp (Nat.le_zero.mp h)
  | succ n ih =>
    intro s h
    unfold flushUpdates
    cases hl : s.updateList with
    | nil => simp [getNext, hl]
    | cons c rest =>
      simp only [getNext, hl, List.head?_cons]
      apply ih
      rw [hl] at h
      simp only [popChannel, hl, List.erase_cons_head]
      simpa using h

theorem scheduled_after_eqScheduleNow (h : Handle) (s s' : Scheduler)
    (hs : eqScheduleNow h s = Outcome.ok s') : s'.scheduled h = true := by
  unfold eqScheduleNow at hs
  cases hq : s.eq with
  | none => rw [hq] at hs; cases hs
  | some q =>
    rw [hq] at hs
    cases hs
    simp [Scheduler.scheduled, EventQueue.scheduled_schedule_self]

theorem scheduleStarvationEvent_ok (s : Scheduler) (q : EventQueue) (hq : s.eq = some q) :
    ∃ q', scheduleStarvationEvent s = Outcome.ok { s with eq := some q' } := by
  unfold scheduleStarvationEvent
  simp only [Scheduler.scheduled, hq]
  cases hr : q.scheduled Handle.starvationEvent with
  | true =>
    refine ⟨q, ?_⟩
    simp only [Bool.not_true, Bool.false_eq_true, if_false]
    rw [← hq]
  | false =>
    simp only [Bool.not_false, if_true]
    split
    · exact ⟨_, rfl⟩
    · exact ⟨_, rfl⟩

/-- `runReady` on a scheduler with an event manager and both lists empty: no
process runs, no `update()` is called and the cycle counter stays. -/
theorem runReady_of_empty (env : Env) (fuel : Nat) (s : Scheduler) (hq : s.eq.isSome = true)
    (hr : s.readyList = []) (hu : s.updateList = []) :
    ∃ s', runReady env (fuel + 1) s = Outcome.ok s' ∧ s'.log = s.log ∧
      s'._numCycles = s._numCycles ∧ s'.readyList = [] ∧ s'.updateList = [] := by
  obtain ⟨q, hq'⟩ := Option.isSome_iff_exists.mp hq
  have he : evaluate env (fuel + 1) s = Outcome.ok { s with _current := none } := by
    unfold evaluate
    rw [yieldOnPrimary_of_empty env (fuel + 1) s hr]
    simp [Outcome.bind, hr]
  have hup : update env (fuel + 1) { s with _current := none }
      = Outcome.ok { s with _current := none } := by
    simp [update, getNext, hu]
  have hrun : runReady env (fuel + 1) s
      = if env.starved { s with _current := none } && !s.runToTime
        then scheduleStarvationEvent { s with _current := none }
        else Outcome.ok { s with _current := none } := by
    have hempty : (!s.readyList.isEmpty) = false := by rw [hr]; rfl
    unfold runReady
    simp only [he, Outcome.bind, hempty, Bool.false_eq_true, if_false, hup]
  rw [hrun]
  by_cases hc : (env.starved { s with _current := none } && !s.runToTime) = true
  · rw [if_pos hc]
    obtain ⟨q', h'⟩ := scheduleStarvationEvent_ok { s with _current := none } q hq'
    exact ⟨_, h', rfl, rfl, hr, hu⟩
  · rw [if_neg hc]
    exact ⟨_, rfl, rfl, rfl, hr, hu⟩

/-- C11, counterexample: a stop that finishes the delta cycle is already
scheduled while a thread is ready and an update is requested. The call
`scheduleStop(false)` returns without touching the lists, and the next
`runReady` runs the thread, calls the `update()` and counts a cycle. -/
theorem scheduleStop_now_keeps_lists_when_armed :
    exampleStopScheduled.eq.isSome = true ∧
    scheduleStop false exampleStopScheduled = Outcome.ok exampleStopScheduled ∧
    exampleStopScheduled.readyList = [exampleThread 1] ∧
    exampleStopScheduled.updateList = [{ id := 1 }] ∧
    dispatched (runReady Env.idle 1 exampleStopScheduled).get.log = [exampleThread 1] ∧
    updateCalls (runReady Env.idle 1 exampleStopScheduled).get.log = [({ id := 1 }, [])] ∧
    (runReady Env.idle 1 exampleStopScheduled).get._numCycles
      = exampleStopScheduled._numCycles + 1 := by
  decide

/-- C11, amended: for every scheduler state with a host queue in which the
stop timer is not already armed, whatever is in the ready list and in the
update list, `scheduleStop(false)` returns with both lists empty and the stop
timer armed, and a `runReady` that follows runs no process, calls no
`update()` of a channel and leaves the cycle counter as it is. -/
theorem scheduleStop_now_flushes (s : Scheduler) (hq : s.eq.isSome = true)
    (hstop : s.scheduled Handle.stopEvent = false) :
    ∃ s1, scheduleStop false s = Outcome.ok s1 ∧ s1.readyList = [] ∧ s1.updateList = [] ∧
      s1.scheduled Handle.stopEvent = true ∧
      ∀ (env : Env) (fuel : Nat), ∃ s2, runReady env (fuel + 1) s1 = Outcome.ok s2 ∧
        s2.log = s1.log ∧ s2._numCycles = s1._numCycles ∧
        s2.readyList = [] ∧ s2.updateList = [] := by
  obtain ⟨q, hq'⟩ := Option.isSome_iff_exists.mp hq
  have hflushq : (flushUpdates (flushReady s.readyList.length s).updateList.length
      (flushReady s.readyList.length s)).eq = some q := by
    rw [flushUpdates_eq, flushReady_eq]; exact hq'
  have hr : (flushUpdates (flushReady s.readyList.length s).updateList.length
      (flushReady s.readyList.length s)).readyList = [] := by
    rw [(flushUpdates_frame _ _).2]
    exact flushReady_empties _ s (Nat.le_refl _)
  have hu : (flushUpdates (flushReady s.readyList.length s).updateList.length
      (flushReady s.readyList.length s)).updateList = [] :=
    flushUpdates_empties _ _ (Nat.le_refl _)
  have hcall : scheduleStop false s = eqScheduleNow Handle.stopEvent
      (flushUpdates (flushReady s.readyList.length s).updateList.length
        (flushReady s.readyList.length s)) := by
    simp [scheduleStop, hstop]
  generalize flushUpdates (flushReady s.readyList.length s).updateList.length
    (flushReady s.readyList.length s) = t at hflushq hr hu hcall
  have hok := eqScheduleNow_ok Handle.stopEvent t q hflushq
  refine ⟨{ t with eq := some (q.schedule Handle.stopEvent q.getCurTick) },
    by rw [hcall]; exact hok, hr, hu, scheduled_after_eqScheduleNow _ t _ hok, ?_⟩
  intro env fuel
  exact runReady_of_empty env fuel _ rfl hr hu

/-- Witness of C11 amended: two threads are ready and an update is requested;
`scheduleStop(false)` empties both lists. -/
theorem scheduleStop_now_flushes_witness :
    ∃ s1, scheduleStop false (runOps Env.idle
        [Op.ready (exampleThread 1), Op.ready (exampleThread 2), Op.requestUpdate { id := 1 }]
        Scheduler.installed).get = Outcome.ok s1 ∧
      s1.readyList = [] ∧ s1.updateList = [] := by
  obtain ⟨s1, h1, h2, h3, _⟩ := scheduleStop_now_flushes (runOps Env.idle
    [Op.ready (exampleThread 1), Op.ready (exampleThread 2), Op.requestUpdate { id := 1 }]
    Scheduler.installed).get (by decide) (by decide)
  exact ⟨s1, h1, h2, h3⟩

theorem schedulePause_twice (s : Scheduler) :
    (schedulePause s).bind schedulePause = schedulePause s := by
  cases hp : s.scheduled Handle.pauseEvent with
  | true => simp [schedulePause, hp, Outcome.bind]
  | false =>
    cases hq : s.eq with
    | none => simp [schedulePause, hp, eqScheduleNow, hq, Outcome.bind]
    | some q =>
      have h1 : schedulePause s
          = Outcome.ok { s with eq := some (q.schedule Handle.pauseEvent q.getCurTick) } := by
        simp [schedulePause, hp, eqScheduleNow, hq]
      rw [h1]
      simp [Outcome.bind, schedulePause, Scheduler.scheduled,
        EventQueue.scheduled_schedule_self]

theorem scheduleStop_twice (first second : Bool) (s : Scheduler) :
    (scheduleStop first s).bind (scheduleStop second) = scheduleStop first s := by
  cases hp : s.scheduled Handle.stopEvent with
  | true => simp [scheduleStop, hp, Outcome.bind]
  | false =>
    have hcall : ∃ t, t.eq = s.eq ∧ scheduleStop first s = eqScheduleNow Handle.stopEvent t := by
      cases first with
      | true => exact ⟨s, rfl, by simp [scheduleStop, hp]⟩
      | false =>
        exact ⟨flushUpdates (flushReady s.readyList.length s).updateList.length
          (flushReady s.readyList.length s), by rw [flushUpdates_eq, flushReady_eq],
          by simp [scheduleStop, hp]⟩
    obtain ⟨t, ht, hcall⟩ := hcall
    rw [hcall]
    cases hq : t.eq with
    | none => simp [eqScheduleNow, hq, Outcome.bind]
    | some q =>
      rw [eqScheduleNow_ok _ t q hq]
      simp [Outcome.bind, scheduleStop, Scheduler.scheduled,
        EventQueue.scheduled_schedule_self]

/-- C12: with the pause timer already armed `schedulePause()` returns the
state it was given, scheduler and host queue alike; with the stop timer
already armed so does `scheduleStop(finishDelta)`, for either value of
`finishDelta`; and calling either of them twice in a row gives what calling it
once gives. -/
theorem schedulePause_scheduleStop_idempotent (s : Scheduler) :
    (s.scheduled Handle.pauseEvent = true → schedulePause s = Outcome.ok s) ∧
    (s.scheduled Handle.stopEvent = true →
      ∀ finish_delta, scheduleStop finish_delta s = Outcome.ok s) ∧
    (schedulePause s).bind schedulePause = schedulePause s ∧
    (∀ first second,
      (scheduleStop first s).bind (scheduleStop second) = scheduleStop first s) := by
  refine ⟨?_, ?_, schedulePause_twice s, fun first second => scheduleStop_twice first second s⟩
  · intro h; simp [schedulePause, h]
  · intro h fd; simp [scheduleStop, h]

/-- Witness of C12: with a stop already scheduled, a second `scheduleStop`
that would flush changes nothing although a thread is ready and an update is
requested. -/
theorem schedulePause_scheduleStop_idempotent_witness :
    scheduleStop false exampleStopScheduled = Outcome.ok exampleStopScheduled ∧
    schedulePause examplePauseScheduled = Outcome.ok examplePauseScheduled :=
  ⟨(schedulePause_scheduleStop_idempotent exampleStopScheduled).2.1 (by decide) false,
    (schedulePause_scheduleStop_idempotent examplePauseScheduled).1 (by decide)⟩

theorem scheduled_descheduleIfScheduled_self (h : Handle) (s : Scheduler) :
    (descheduleIfScheduled h s).scheduled h = false := by
  unfold descheduleIfScheduled
  cases hq : s.eq with
  | none => simp [Scheduler.scheduled, hq]
  | some q =>
    simp only
    cases hs : q.scheduled h with
    | true => simp [Scheduler.scheduled, EventQueue.scheduled_deschedule_self]
    | false => simp [Scheduler.scheduled, hq, hs]

theorem scheduled_descheduleIfScheduled_other (h k : Handle) (s : Scheduler) (hk : k ≠ h) :
    (descheduleIfScheduled k s).scheduled h = s.scheduled h := by
  unfold descheduleIfScheduled
  cases hq : s.eq with
  | none => simp [Scheduler.scheduled, hq]
  | some q =>
    simp only
    cases hs : q.scheduled k with
    | true => simp [Scheduler.scheduled, hq, EventQueue.scheduled_deschedule_other _ _ _ hk]
    | false => simp [Scheduler.scheduled, hq]

/-- What the end of `start` does to the timers: the pause, stop, max-tick and
starvation timers are not armed, every other handle is as before. -/
theorem startReturn_timers (s : Scheduler) :
    (startReturn s).scheduled Handle.pauseEvent = false ∧
    (startReturn s).scheduled Handle.stopEvent = false ∧
    (startReturn s).scheduled Handle.maxTickEvent = false ∧
    (startReturn s).scheduled Handle.starvationEvent = false ∧
    (startReturn s).scheduled Handle.readyEvent = s.scheduled Handle.readyEvent := by
  unfold startReturn
  refine ⟨?_, ?_, ?_, ?_, ?_⟩
  · rw [scheduled_descheduleIfScheduled_other _ _ _ (by decide),
      scheduled_descheduleIfScheduled_other _ _ _ (by decide),
      scheduled_descheduleIfScheduled_other _ _ _ (by decide)]
    exact scheduled_descheduleIfScheduled_self _ _
  · rw [scheduled_descheduleIfScheduled_other _ _ _ (by decide),
      scheduled_descheduleIfScheduled_other _ _ _ (by decide)]
    exact scheduled_descheduleIfScheduled_self _ _
  · rw [scheduled_descheduleIfScheduled_other _ _ _ (by decide)]
    exact scheduled_descheduleIfScheduled_self _ _
  · exact scheduled_descheduleIfScheduled_self _ _
  · rw [scheduled_descheduleIfScheduled_other _ _ _ (by decide),
      scheduled_descheduleIfScheduled_other _ _ _ (by decide),
      scheduled_descheduleIfScheduled_other _ _ _ (by decide),
      scheduled_descheduleIfScheduled_other _ _ _ (by decide)]

/-- C13, counterexample: initialisation is done, a thread is ready, so the
ready-dispatch timer is armed, and a pause is scheduled. `start` enters the
simulation, the pause timer fires first and `start` returns: the
ready-dispatch timer is still armed. -/
theorem start_returns_with_ready_timer_armed :
    startReturnsAtOnce Env.idle 100 false examplePauseScheduled = false ∧
    (start Env.idle (fire Env.idle 1 Handle.pauseEvent) 100 false
      examplePauseScheduled).state?.isSome = true ∧
    (start Env.idle (fire Env.idle 1 Handle.pauseEvent) 100 false
      examplePauseScheduled).get.scheduled Handle.readyEvent = true := by
  decide

/-- C13, amended: whenever `start(maxTick, runToTime)` enters the simulation
and later returns, the pause, stop, starvation and max-tick timers are not
armed; the ready-dispatch timer is not touched: it is armed exactly when the
simulation left it armed. -/
theorem start_deschedules_all_but_ready (env : Env) (simulation : Scheduler → Outcome)
    (max_tick : Tick) (run_to_time : Bool) (s s' : Scheduler)
    (henter : startReturnsAtOnce env max_tick run_to_time s = false)
    (hreturn : start env simulation max_tick run_to_time s = Outcome.ok s') :
    s'.scheduled Handle.pauseEvent = false ∧
    s'.scheduled Handle.stopEvent = false ∧
    s'.scheduled Handle.starvationEvent = false ∧
    s'.scheduled Handle.maxTickEvent = false ∧
    ∃ s1, (startEnter env max_tick run_to_time s).bind simulation = Outcome.ok s1 ∧
      s' = startReturn s1 ∧
      s'.scheduled Handle.readyEvent = s1.scheduled Handle.readyEvent := by
  unfold start at hreturn
  simp only [henter, Bool.false_eq_true, if_false] at hreturn
  cases hsim : (startEnter env max_tick run_to_time s).bind simulation with
  | ok s1 =>
    rw [hsim] at hreturn
    simp only [Outcome.bind, Outcome.ok.injEq] at hreturn
    subst hreturn
    obtain ⟨h1, h2, h3, h4, h5⟩ := startReturn_timers s1
    exact ⟨h1, h2, h4, h3, s1, rfl, rfl, h5⟩
  | threw exc s1 => rw [hsim] at hreturn; cases hreturn
  | abort why => rw [hsim] at hreturn; cases hreturn
  | outOfFuel => rw [hsim] at hreturn; cases hreturn

/-- Witness of C13 amended: the run of the counterexample; the pause and
max-tick timers are gone when `start` returns. -/
theorem start_deschedules_all_but_ready_witness :
    (start Env.idle (fire Env.idle 1 Handle.pauseEvent) 100 false
      examplePauseScheduled).get.scheduled Handle.pauseEvent = false ∧
    (start Env.idle (fire Env.idle 1 Handle.pauseEvent) 100 false
      examplePauseScheduled).get.scheduled Handle.maxTickEvent = false :=
  ⟨(start_deschedules_all_but_ready Env.idle (fire Env.idle 1 Handle.pauseEvent) 100 false
      examplePauseScheduled
      (start Env.idle (fire Env.idle 1 Handle.pauseEvent) 100 false examplePauseScheduled).get
      (by decide) (by decide)).1,
    (start_deschedules_all_but_ready Env.idle (fire Env.idle 1 Handle.pauseEvent) 100 false
      examplePauseScheduled
      (start Env.idle (fire Env.idle 1 Handle.pauseEvent) 100 false examplePauseScheduled).get
      (by decide) (by decide)).2.2.2.1⟩

/-! ## Initialisation -/

theorem Latched.latched_trans (a b c : Scheduler) (h1 : Latched a b) (h2 : Latched b c) :
    Latched a c :=
  fun h => h2 (h1 h)

theorem Latched.latched_scheduleReadyEvent (s : Scheduler) :
    (scheduleReadyEvent s).Rel Latched s := by
  unfold sc_gem5.scheduleReadyEvent
  split
  · split
    · exact Outcome.Rel.rel_abort _ s _
    · simp only
      split <;> exact Outcome.Rel.rel_ok (fun h => h)
  · exact Outcome.Rel.rel_ok (fun h => h)

theorem Latched.latched_scheduleStarvationEvent (s : Scheduler) :
    (scheduleStarvationEvent s).Rel Latched s := by
  unfold sc_gem5.scheduleStarvationEvent
  split
  · split
    · exact Outcome.Rel.rel_abort _ s _
    · simp only
      split <;> exact Outcome.Rel.rel_ok (fun h => h)
  · exact Outcome.Rel.rel_ok (fun h => h)

theorem Latched.latched_eqSchedule (h : Handle) (t : Tick) (s : Scheduler) :
    (eqSchedule h t s).Rel Latched s := by
  unfold sc_gem5.eqSchedule
  split
  · exact Outcome.Rel.rel_abort _ s _
  · exact Outcome.Rel.rel_ok (fun h => h)

theorem Latched.latched_eqScheduleNow (h : Handle) (s : Scheduler) :
    (eqScheduleNow h s).Rel Latched s := by
  unfold sc_gem5.eqScheduleNow
  split
  · exact Outcome.Rel.rel_abort _ s _
  · exact Outcome.Rel.rel_ok (fun h => h)

theorem Latched.latched_descheduleIfScheduled (h : Handle) (s : Scheduler) :
    Latched s (descheduleIfScheduled h s) := by
  unfold sc_gem5.descheduleIfScheduled
  split
  · exact fun h => h
  · split <;> exact fun h => h

theorem Latched.latched_ready (p : Process) (s : Scheduler) : (ready p s).Rel Latched s := by
  unfold sc_gem5.ready
  split
  · exact Outcome.Rel.rel_from Latched.latched_trans (b := readyPushFirst p s) (fun h => h)
      (Latched.latched_scheduleReadyEvent _)
  · exact Outcome.Rel.rel_from Latched.latched_trans (b := readyPushLast p s) (fun h => h)
      (Latched.latched_scheduleReadyEvent _)

theorem Latched.latched_requestUpdate (c : Channel) (s : Scheduler) :
    (requestUpdate c s).Rel Latched s := by
  unfold sc_gem5.requestUpdate
  refine Outcome.Rel.rel_from Latched.latched_trans ?_ (Latched.latched_scheduleReadyEvent _)
  exact fun h => h

theorem Latched.latched_reg (p : Process) (s : Scheduler) : (reg p s).Rel Latched s := by
  unfold sc_gem5.reg
  split
  · exact Outcome.Rel.rel_from Latched.latched_trans (b := finalize p s) (fun h => h)
      (Latched.latched_ready p _)
  · exact Outcome.Rel.rel_ok (fun h => h)

theorem Latched.latched_dontInitialize (p : Process) (s : Scheduler) :
    Latched s (dontInitialize p s) := by
  unfold sc_gem5.dontInitialize
  split <;> exact fun h => h

theorem Latched.latched_schedulePause (s : Scheduler) : (schedulePause s).Rel Latched s := by
  unfold sc_gem5.schedulePause
  split
  · exact Outcome.Rel.rel_ok (fun h => h)
  · exact Latched.latched_eqScheduleNow _ s

theorem flushReady_initReady (n : Nat) :
    ∀ s : Scheduler, (flushReady n s).initReady = s.initReady := by
  induction n with
  | zero => intro s; rfl
  | succ n ih =>
    intro s
    unfold flushReady
    split
    · rfl
    · rw [ih]; rfl

theorem flushUpdates_initReady (n : Nat) :
    ∀ s : Scheduler, (flushUpdates n s).initReady = s.initReady := by
  induction n with
  | zero => intro s; rfl
  | succ n ih =>
    intro s
    unfold flushUpdates
    split
    · rfl
    · rw [ih]; rfl

theorem Latched.latched_scheduleStop (finish_delta : Bool) (s : Scheduler) :
    (scheduleStop finish_delta s).Rel Latched s := by
  unfold sc_gem5.scheduleStop
  split
  · exact Outcome.Rel.rel_ok (fun h => h)
  · refine Outcome.Rel.rel_from Latched.latched_trans ?_ (Latched.latched_eqScheduleNow _ _)
    split
    · intro h; simp only; rw [flushUpdates_initReady, flushReady_initReady]; exact h
    · exact fun h => h

theorem Latched.latched_apply (a : Action) (s : Scheduler) : (a.apply s).Rel Latched s := by
  cases a with
  | ready p => exact Latched.latched_ready p s
  | requestUpdate c => exact Latched.latched_requestUpdate c s
  | reg p => exact Latched.latched_reg p s
  | dontInitialize p => exact Outcome.Rel.rel_ok (Latched.latched_dontInitialize p s)
  | schedulePause => exact Latched.latched_schedulePause s
  | scheduleStop fd => exact Latched.latched_scheduleStop fd s
  | setException p exc => exact Outcome.Rel.rel_ok (fun h => h)

theorem Latched.latched_runScript (script : List Action) :
    ∀ s : Scheduler, (runScript script s).Rel Latched s := by
  induction script with
  | nil => intro s; exact Outcome.Rel.rel_ok (fun h => h)
  | cons a rest ih =>
    intro s
    exact Outcome.Rel.rel_bind Latched.latched_trans (Latched.latched_apply a s) (fun s1 _ => ih s1)

theorem Latched.latched_runProcess (env : Env) (p : Process) (s : Scheduler) :
    (runProcess env p s).Rel Latched s := by
  unfold sc_gem5.runProcess
  exact Outcome.Rel.rel_from Latched.latched_trans (b := { s with log := s.log ++ [Obs.run p] })
    (fun h => h) (Latched.latched_runScript _ _)

theorem Latched.latched_rethrow (s : Scheduler) : (rethrow s).Rel Latched s := by
  unfold sc_gem5.rethrow
  split
  · exact Outcome.Rel.rel_ok (fun h => h)
  · split
    · exact Outcome.Rel.rel_ok (fun h => h)
    · split
      · exact Outcome.Rel.rel_abort _ s _
      · intro t ht
        simp only [Outcome.state?, Option.some.injEq] at ht
        subst ht
        exact fun h => h

theorem Latched.latched_yield (env : Env) (s : Scheduler) : (yield env s).Rel Latched s :=
  Outcome.Rel.rel_yield Latched.latched_trans env (fun _ h => h) (fun _ _ h => h)
    (fun s s' h => by rw [h]; exact fun h => h)
    (fun p s => Latched.latched_runProcess env p s) Latched.latched_rethrow s

theorem Latched.latched_evaluate (env : Env) (n : Nat) :
    ∀ s : Scheduler, (evaluate env n s).Rel Latched s := by
  induction n with
  | zero => intro s; exact Outcome.Rel.rel_outOfFuel _ s
  | succ n ih =>
    intro s
    unfold sc_gem5.evaluate
    refine Outcome.Rel.rel_bind Latched.latched_trans
      (Outcome.Rel.rel_yieldOnPrimary Latched.latched_trans env
        (Latched.latched_yield env) (n + 2) s) ?_
    intro s1 _
    split
    · exact Outcome.Rel.rel_ok (fun h => h)
    · exact ih s1

theorem Latched.latched_runChannel (env : Env) (c : Channel) (s : Scheduler) :
    (runChannel env c s).Rel Latched s := by
  unfold sc_gem5.runChannel
  exact Outcome.Rel.rel_from Latched.latched_trans
    (b := { s with log := s.log ++ [Obs.update c s.readyList s.updateList] })
    (fun h => h) (Latched.latched_runScript _ _)

theorem Latched.latched_update (env : Env) (n : Nat) :
    ∀ s : Scheduler, (update env n s).Rel Latched s := by
  induction n with
  | zero =>
    intro s
    unfold sc_gem5.update
    split
    · exact Outcome.Rel.rel_ok (fun h => h)
    · exact Outcome.Rel.rel_outOfFuel _ s
  | succ n ih =>
    intro s
    unfold sc_gem5.update
    split
    · exact Outcome.Rel.rel_ok (fun h => h)
    · rename_i channel _
      exact Outcome.Rel.rel_from Latched.latched_trans (b := popChannel channel s) (fun h => h)
        (Outcome.Rel.rel_bind Latched.latched_trans (Latched.latched_runChannel env _ _)
          (fun s1 _ => ih s1))

theorem Latched.latched_runReady (env : Env) (fuel : Nat) (s : Scheduler) :
    (runReady env fuel s).Rel Latched s := by
  unfold sc_gem5.runReady
  simp only
  refine Outcome.Rel.rel_bind Latched.latched_trans (Latched.latched_evaluate env fuel s) ?_
  intro s1 _
  refine Outcome.Rel.rel_from Latched.latched_trans (b := if (!s.readyList.isEmpty) = true
      then { s1 with _numCycles := s1._numCycles + 1 } else s1) ?_ ?_
  · split <;> exact fun h => h
  · refine Outcome.Rel.rel_bind Latched.latched_trans (Latched.latched_update env fuel _) ?_
    intro s3 _
    split
    · exact Latched.latched_scheduleStarvationEvent s3
    · exact Outcome.Rel.rel_ok (fun h => h)

theorem Latched.latched_runScMain (s : Scheduler) : (runScMain s).Rel Latched s := by
  unfold sc_gem5.runScMain
  split
  · exact Outcome.Rel.rel_ok (fun h => h)
  · exact Outcome.Rel.rel_abort _ s _

theorem Latched.latched_pause (s : Scheduler) : (pause s).Rel Latched s := by
  unfold sc_gem5.pause
  exact Outcome.Rel.rel_from Latched.latched_trans
    (b := { s with _paused := true, status := sc_status.SC_PAUSED }) (fun h => h)
    (Latched.latched_runScMain _)

theorem Latched.latched_stopWork (env : Env) (s : Scheduler) :
    (stopWork env s).Rel Latched s := by
  unfold sc_gem5.stopWork
  simp only
  refine Outcome.Rel.rel_from Latched.latched_trans
    (b := { s with status := sc_status.SC_END_OF_SIMULATION,
                   log := s.log ++ [Obs.end_of_simulation] }) (fun h => h)
    (Outcome.Rel.rel_bind Latched.latched_trans (Latched.latched_runScript _ _) ?_)
  intro s2 _
  split
  · exact Outcome.Rel.rel_abort _ s2 _
  · exact Outcome.Rel.rel_ok (fun h => h)

theorem Latched.latched_kernelStop (env : Env) (s : Scheduler) :
    (kernelStop env s).Rel Latched s := by
  unfold sc_gem5.kernelStop
  split
  · exact Outcome.Rel.rel_ok (fun h => h)
  · exact Latched.latched_stopWork env s

theorem Latched.latched_stop (env : Env) (s : Scheduler) : (stop env s).Rel Latched s := by
  unfold sc_gem5.stop
  exact Outcome.Rel.rel_from Latched.latched_trans (b := { s with _stopped := true }) (fun h => h)
    (Outcome.Rel.rel_bind Latched.latched_trans (Latched.latched_kernelStop env _)
      (fun s1 _ => Latched.latched_runScMain s1))

theorem Latched.latched_startEnter (env : Env) (max_tick : Tick) (run_to_time : Bool)
    (s : Scheduler) : (startEnter env max_tick run_to_time s).Rel Latched s := by
  unfold sc_gem5.startEnter
  simp only
  split
  · exact Outcome.Rel.rel_ok (fun h => h)
  · split
    · refine Outcome.Rel.rel_from Latched.latched_trans ?_ (Latched.latched_eqSchedule _ _ _)
      exact fun h => h
    · exact Outcome.Rel.rel_ok (fun h => h)

theorem Latched.latched_startReturn (s : Scheduler) : Latched s (startReturn s) := by
  unfold sc_gem5.startReturn
  exact Latched.latched_trans _ _ _ (Latched.latched_descheduleIfScheduled _ s)
    (Latched.latched_trans _ _ _ (Latched.latched_descheduleIfScheduled _ _)
      (Latched.latched_trans _ _ _ (Latched.latched_descheduleIfScheduled _ _)
        (Latched.latched_descheduleIfScheduled _ _)))

theorem Latched.latched_fire (env : Env) (fuel : Nat) (h : Handle) (s : Scheduler) :
    (fire env fuel h s).Rel Latched s := by
  unfold sc_gem5.fire
  cases hq : s.eq with
  | none => exact Outcome.Rel.rel_ok (fun h => h)
  | some q =>
    simp only
    split
    · have hk : Latched s { s with eq := some { q.deschedule h with curTick := q.when h } } :=
        fun h => h
      cases h with
      | readyEvent =>
        exact Outcome.Rel.rel_from Latched.latched_trans hk (Latched.latched_runReady env fuel _)
      | pauseEvent => exact Outcome.Rel.rel_from Latched.latched_trans hk (Latched.latched_pause _)
      | stopEvent => exact Outcome.Rel.rel_from Latched.latched_trans hk (Latched.latched_stop env _)
      | starvationEvent =>
        exact Outcome.Rel.rel_from Latched.latched_trans hk (Latched.latched_pause _)
      | maxTickEvent =>
        exact Outcome.Rel.rel_from Latched.latched_trans hk (Latched.latched_pause _)
      | delayedNotifyEvent ev => exact Outcome.Rel.rel_ok hk
      | other n => exact Outcome.Rel.rel_ok hk
    · exact Outcome.Rel.rel_ok (fun h => h)

theorem Outcome.bind_eq_ok (o : Outcome) (f : Scheduler → Outcome) (s' : Scheduler) :
    o.bind f = Outcome.ok s' ↔ ∃ s1, o = Outcome.ok s1 ∧ f s1 = Outcome.ok s' := by
  cases o with
  | ok s1 => simp [Outcome.bind]
  | threw exc s1 => simp [Outcome.bind]
  | abort why => simp [Outcome.bind]
  | outOfFuel => simp [Outcome.bind]

theorem OnlyQueue.onlyQueue_trans (a b c : Scheduler) (h1 : OnlyQueue a b) (h2 : OnlyQueue b c) :
    OnlyQueue a c := by
  unfold OnlyQueue at *
  rw [h2, h1]

theorem scheduleReadyEvent_onlyQueue (s s' : Scheduler)
    (h : scheduleReadyEvent s = Outcome.ok s') : OnlyQueue s s' := by
  cases hq : s.eq with
  | none => simp [scheduleReadyEvent, Scheduler.scheduled, hq] at h
  | some q =>
    obtain ⟨q', h'⟩ := scheduleReadyEvent_ok s q hq
    rw [h'] at h
    cases h
    rfl

theorem eqSchedule_onlyQueue (h : Handle) (t : Tick) (s s' : Scheduler)
    (hs : eqSchedule h t s = Outcome.ok s') : OnlyQueue s s' := by
  unfold eqSchedule at hs
  split at hs
  · cases hs
  · cases hs; rfl

theorem scheduleDeferred_onlyQueue (l : List (Handle × Tick)) :
    ∀ s s' : Scheduler, scheduleDeferred l s = Outcome.ok s' → OnlyQueue s s' := by
  induction l with
  | nil => intro s s' h; cases h; rfl
  | cons ets rest ih =>
    intro s s' h
    unfold scheduleDeferred at h
    obtain ⟨s1, h1, h2⟩ := (Outcome.bind_eq_ok _ _ _).mp h
    exact OnlyQueue.onlyQueue_trans _ _ _ (eqSchedule_onlyQueue _ _ _ _ h1) (ih s1 s' h2)

theorem eqSchedule_ok (h : Handle) (t : Tick) (s : Scheduler) (hq : s.eq.isSome = true) :
    ∃ s', eqSchedule h t s = Outcome.ok s' ∧ s'.eq.isSome = true := by
  obtain ⟨q, hq'⟩ := Option.isSome_iff_exists.mp hq
  exact ⟨{ s with eq := some (q.schedule h t) }, by simp [eqSchedule, hq'], rfl⟩

theorem scheduleDeferred_ok (l : List (Handle × Tick)) :
    ∀ s : Scheduler, s.eq.isSome = true →
      ∃ s', scheduleDeferred l s = Outcome.ok s' ∧ s'.eq.isSome = true := by
  induction l with
  | nil => intro s hq; exact ⟨s, rfl, hq⟩
  | cons ets rest ih =>
    intro s hq
    obtain ⟨s1, h1, hq1⟩ := eqSchedule_ok ets.1 ets.2 s hq
    obtain ⟨s2, h2, hq2⟩ := ih s1 hq1
    exact ⟨s2, by simp only [scheduleDeferred, h1, Outcome.bind, h2], hq2⟩

/-- What `ready(p)` does to the lists other than the ready list. -/
theorem ready_other_lists (p : Process) (s s' : Scheduler) (h : ready p s = Outcome.ok s') :
    s'.initList = s.initList.erase p ∧ s'.toFinalize = s.toFinalize.erase p ∧
      s'.log = s.log := by
  unfold ready at h
  split at h
  · have := scheduleReadyEvent_onlyQueue _ _ h
    rw [this]
    exact ⟨rfl, rfl, rfl⟩
  · have := scheduleReadyEvent_onlyQueue _ _ h
    rw [this]
    exact ⟨rfl, rfl, rfl⟩

theorem finalizeLoop_toFinalize (n : Nat) :
    ∀ s : Scheduler, s.toFinalize.length ≤ n → (finalizeLoop n s).toFinalize = [] := by
  induction n with
  | zero =>
    intro s h
    exact List.length_eq_zero.mp (Nat.le_zero.mp h)
  | succ n ih =>
    intro s h
    unfold finalizeLoop
    cases hl : s.toFinalize with
    | nil => simp [getNext, hl]
    | cons p rest =>
      simp only [getNext, hl, List.head?_cons]
      apply ih
      rw [hl] at h
      simp only [popListNode, finalize, hl, List.erase_cons_head]
      simpa using h

theorem finalizeLoop_eq (n : Nat) : ∀ s : Scheduler, (finalizeLoop n s).eq = s.eq := by
  induction n with
  | zero => intro s; rfl
  | succ n ih =>
    intro s
    unfold finalizeLoop
    split
    · rfl
    · rw [ih]; rfl

theorem initLoop_lists (n : Nat) :
    ∀ s s' : Scheduler, s.initList.length ≤ n → s.toFinalize = [] →
      initLoop n s = Outcome.ok s' → s'.initList = [] ∧ s'.toFinalize = [] := by
  induction n with
  | zero =>
    intro s s' h ht hs
    cases hs
    exact ⟨List.length_eq_zero.mp (Nat.le_zero.mp h), ht⟩
  | succ n ih =>
    intro s s' h ht hs
    unfold initLoop at hs
    cases hl : s.initList with
    | nil =>
      simp only [getNext, hl, List.head?_nil] at hs
      cases hs
      exact ⟨hl, ht⟩
    | cons p rest =>
      simp only [getNext, hl, List.head?_cons] at hs
      obtain ⟨s1, h1, h2⟩ := (Outcome.bind_eq_ok _ _ _).mp hs
      obtain ⟨hi, hf, _⟩ := ready_other_lists _ _ _ h1
      apply ih s1 s' ?_ ?_ h2
      · rw [hi]
        simp only [popListNode, finalize, hl, List.erase_cons_head]
        have := List.length_erase_le p rest
        rw [hl] at h
        simp only [List.length_cons] at h
        omega
      · rw [hf]
        simp [popListNode, finalize, ht]

theorem initLoop_ok (n : Nat) :
    ∀ s : Scheduler, s.eq.isSome = true →
      ∃ s', initLoop n s = Outcome.ok s' ∧ s'.eq.isSome = true := by
  induction n with
  | zero => intro s hq; exact ⟨s, rfl, hq⟩
  | succ n ih =>
    intro s hq
    unfold initLoop
    split
    · exact ⟨s, rfl, hq⟩
    · rename_i p _
      obtain ⟨s1, h1, hq1⟩ := ready_ok p (popListNode p (finalize p s)) hq
      obtain ⟨s2, h2, hq2⟩ := ih s1 hq1
      exact ⟨s2, by simp only [h1, Outcome.bind, h2], hq2⟩

/-- Whenever `prepareForInit` returns, `initReady` is set and the init list,
the finalize-only list and the deferred events are empty. -/
theorem prepareForInit_result (s s' : Scheduler) (h : prepareForInit s = Outcome.ok s') :
    s'.initReady = true ∧ s'.initList = [] ∧ s'.toFinalize = [] ∧
      s'.eventsToSchedule = [] := by
  unfold prepareForInit at h
  simp only at h
  obtain ⟨s2, h2, h⟩ := (Outcome.bind_eq_ok _ _ _).mp h
  obtain ⟨s3, h3, h⟩ := (Outcome.bind_eq_ok _ _ _).mp h
  obtain ⟨s5, h5, h⟩ := (Outcome.bind_eq_ok _ _ _).mp h
  cases h
  obtain ⟨hi2, hf2⟩ := initLoop_lists _ _ _ (Nat.le_refl _)
    (finalizeLoop_toFinalize _ s (Nat.le_refl _)) h2
  have hq3 := scheduleDeferred_onlyQueue _ _ _ h3
  have hi3 : s3.initList = [] := by rw [hq3]; exact hi2
  have hf3 : s3.toFinalize = [] := by rw [hq3]; exact hf2
  have h45 : s5.initList = [] ∧ s5.toFinalize = [] ∧ s5.eventsToSchedule = [] := by
    split at h5
    · have := eqSchedule_onlyQueue _ _ _ _ h5
      rw [this]
      exact ⟨hi3, hf3, rfl⟩
    · cases h5
      exact ⟨hi3, hf3, rfl⟩
  exact ⟨rfl, h45.1, h45.2.1, h45.2.2⟩

/-- With the event manager installed `prepareForInit` returns. -/
theorem prepareForInit_ok (s : Scheduler) (hq : s.eq.isSome = true) :
    ∃ s', prepareForInit s = Outcome.ok s' ∧ s'.eq.isSome = true := by
  obtain ⟨s2, h2, hq2⟩ := initLoop_ok (finalizeLoop s.toFinalize.length s).initList.length
    (finalizeLoop s.toFinalize.length s) (by rw [finalizeLoop_eq]; exact hq)
  obtain ⟨s3, h3, hq3⟩ := scheduleDeferred_ok s2.eventsToSchedule s2 hq2
  have hlast : ∃ s5, (if ({ s3 with eventsToSchedule := [] } : Scheduler)._started = true
      then eqSchedule Handle.maxTickEvent ({ s3 with eventsToSchedule := [] } : Scheduler).maxTick
        { s3 with eventsToSchedule := [] }
      else Outcome.ok { s3 with eventsToSchedule := [] }) = Outcome.ok s5 ∧
      s5.eq.isSome = true := by
    split
    · exact eqSchedule_ok _ _ _ hq3
    · exact ⟨_, rfl, hq3⟩
  obtain ⟨s5, h5, hq5⟩ := hlast
  refine ⟨{ s5 with initReady := true }, ?_, hq5⟩
  unfold prepareForInit
  refine (Outcome.bind_eq_ok _ _ _).mpr ⟨s2, h2, ?_⟩
  refine (Outcome.bind_eq_ok _ _ _).mpr ⟨s3, h3, ?_⟩
  exact (Outcome.bind_eq_ok _ _ _).mpr ⟨s5, h5, rfl⟩

theorem finalizeLoop_initReady (n : Nat) :
    ∀ s : Scheduler, (finalizeLoop n s).initReady = s.initReady := by
  induction n with
  | zero => intro s; rfl
  | succ n ih =>
    intro s
    unfold finalizeLoop
    split
    · rfl
    · rw [ih]; rfl

theorem Latched.latched_initLoop (n : Nat) :
    ∀ s : Scheduler, (initLoop n s).Rel Latched s := by
  induction n with
  | zero => intro s; exact Outcome.Rel.rel_ok (fun h => h)
  | succ n ih =>
    intro s
    unfold sc_gem5.initLoop
    split
    · exact Outcome.Rel.rel_ok (fun h => h)
    · rename_i p _
      exact Outcome.Rel.rel_from Latched.latched_trans (b := popListNode p (finalize p s))
        (fun h => h)
        (Outcome.Rel.rel_bind Latched.latched_trans (Latched.latched_ready _ _)
          (fun s1 _ => ih s1))

theorem Latched.latched_scheduleDeferred (l : List (Handle × Tick)) :
    ∀ s : Scheduler, (scheduleDeferred l s).Rel Latched s := by
  induction l with
  | nil => intro s; exact Outcome.Rel.rel_ok (fun h => h)
  | cons ets rest ih =>
    intro s
    exact Outcome.Rel.rel_bind Latched.latched_trans (Latched.latched_eqSchedule _ _ s)
      (fun s1 _ => ih s1)

theorem Latched.latched_prepareForInit (s : Scheduler) : (prepareForInit s).Rel Latched s := by
  unfold sc_gem5.prepareForInit
  simp only
  refine Outcome.Rel.rel_from Latched.latched_trans (b := finalizeLoop s.toFinalize.length s)
    (fun h => by rw [finalizeLoop_initReady]; exact h) ?_
  refine Outcome.Rel.rel_bind Latched.latched_trans (Latched.latched_initLoop _ _) ?_
  intro s2 _
  refine Outcome.Rel.rel_bind Latched.latched_trans (Latched.latched_scheduleDeferred _ s2) ?_
  intro s3 _
  refine Outcome.Rel.rel_from Latched.latched_trans (b := { s3 with eventsToSchedule := [] })
    (fun h => h) ?_
  refine Outcome.Rel.rel_bind Latched.latched_trans ?_ ?_
  · split
    · exact Latched.latched_eqSchedule _ _ _
    · exact Outcome.Rel.rel_ok (fun h => h)
  · intro s5 _
    exact Outcome.Rel.rel_ok (fun _ => rfl)

theorem Latched.latched_run (env : Env) (op : Op) (s : Scheduler) :
    (op.run env s).Rel Latched s := by
  cases op with
  | setEventQueue q =>
    unfold Op.run
    simp only
    split <;> exact Outcome.Rel.rel_ok (fun h => h)
  | ready p => exact Latched.latched_ready p s
  | requestUpdate c => exact Latched.latched_requestUpdate c s
  | reg p => exact Latched.latched_reg p s
  | dontInitialize p => exact Outcome.Rel.rel_ok (Latched.latched_dontInitialize p s)
  | yield => exact Latched.latched_yield env s
  | update fuel => exact Latched.latched_update env fuel s
  | runReady fuel => exact Latched.latched_runReady env fuel s
  | pause => exact Latched.latched_pause s
  | stop => exact Latched.latched_stop env s
  | startEnter max_tick run_to_time => exact Latched.latched_startEnter env max_tick run_to_time s
  | startReturn => exact Outcome.Rel.rel_ok (Latched.latched_startReturn s)
  | schedulePause => exact Latched.latched_schedulePause s
  | scheduleStop finish_delta => exact Latched.latched_scheduleStop finish_delta s
  | prepareForInit => exact Latched.latched_prepareForInit s
  | fire fuel h => exact Latched.latched_fire env fuel h s

/-- C16: `initReady` is false in the constructed scheduler; whenever
`prepareForInit` returns, as it does with the event manager installed,
`initReady` is true and the init list, the finalize-only list and the list of
deferred events are empty; and no operation of the scheduler (`reg`,
`dontInitialize`, `ready`, `requestUpdate`, `runReady`, `update`, `yield`, the
two halves of `start`, `pause`, `stop`, `schedulePause`, `scheduleStop`,
`prepareForInit`, a timer firing) ends in a state where `initReady` is false
when it started in one where it was true. -/
theorem initReady_is_one_way_latch (env : Env) :
    Scheduler.new.initReady = false ∧
    (∀ s s' : Scheduler, prepareForInit s = Outcome.ok s' →
      s'.initReady = true ∧ s'.initList = [] ∧ s'.toFinalize = [] ∧
        s'.eventsToSchedule = []) ∧
    (∀ s : Scheduler, s.eq.isSome = true → ∃ s', prepareForInit s = Outcome.ok s') ∧
    (∀ (op : Op) (s s' : Scheduler), (op.run env s).state? = some s' →
      s.initReady = true → s'.initReady = true) := by
  refine ⟨rfl, prepareForInit_result, ?_, ?_⟩
  · intro s hq
    obtain ⟨s', h, _⟩ := prepareForInit_ok s hq
    exact ⟨s', h⟩
  · intro op s s' h
    exact Latched.latched_run env op s s' h

/-- Witness of C16: three processes are registered, one has opted out;
`prepareForInit` returns with the latch set and the lists empty, and a later
`scheduleStop(false)` leaves the latch set. -/
theorem initReady_is_one_way_latch_witness :
    (∃ s', prepareForInit exampleRegistered = Outcome.ok s' ∧ s'.initReady = true ∧
      s'.initList = [] ∧ s'.toFinalize = []) ∧
    (runOps Env.idle [Op.prepareForInit, Op.scheduleStop false]
      exampleRegistered).get.initReady = true := by
  obtain ⟨_, hres, hok, hkeep⟩ := initReady_is_one_way_latch Env.idle
  obtain ⟨s', h⟩ := hok exampleRegistered (by decide)
  refine ⟨⟨s', h, (hres _ _ h).1, (hres _ _ h).2.1, (hres _ _ h).2.2.1⟩, ?_⟩
  exact hkeep (Op.scheduleStop false) (prepareForInit exampleRegistered).get _
    (by decide) (by decide)

theorem finalizeLoop_exact (l : List Process) :
    ∀ s : Scheduler, s.toFinalize = l → (∀ x ∈ l, x ∉ s.readyList ∧ x ∉ s.initList) →
      (finalizeLoop l.length s).toFinalize = [] ∧
      (finalizeLoop l.length s).readyList = s.readyList ∧
      (finalizeLoop l.length s).initList = s.initList ∧
      (finalizeLoop l.length s).log = s.log ++ l.map Obs.finalize ∧
      (finalizeLoop l.length s).eq = s.eq := by
  induction l with
  | nil => intro s hl _; exact ⟨hl, rfl, rfl, by simp [finalizeLoop], rfl⟩
  | cons p rest ih =>
    intro s hl hnot
    have hp := hnot p (List.mem_cons_self _ _)
    have hstep : finalizeLoop (p :: rest).length s
        = finalizeLoop rest.length (popListNode p (finalize p s)) := by
      simp only [List.length_cons, finalizeLoop, getNext, hl, List.head?_cons]
    obtain ⟨h1, h2, h3, h4, h5⟩ := ih (popListNode p (finalize p s))
      (by simp [popListNode, finalize, hl])
      (by
        intro x hx
        have := hnot x (List.mem_cons_of_mem _ hx)
        simp only [popListNode, finalize, List.erase_of_not_mem hp.1,
          List.erase_of_not_mem hp.2]
        exact this)
    rw [hstep]
    refine ⟨h1, ?_, ?_, ?_, ?_⟩
    · rw [h2]; simp [popListNode, finalize, List.erase_of_not_mem hp.1]
    · rw [h3]; simp [popListNode, finalize, List.erase_of_not_mem hp.2]
    · rw [h4]; simp [popListNode, finalize]
    · rw [h5]; rfl

/-- What `ready(p)` does when `p` is not in the ready list. -/
theorem ready_exact (p : Process) (s : Scheduler) (hp : p ∉ s.readyList)
    (hq : s.eq.isSome = true) :
    ∃ s', ready p s = Outcome.ok s' ∧
      s'.readyList = (if p.isMethod = true then p :: s.readyList else s.readyList ++ [p]) ∧
      s'.initList = s.initList.erase p ∧ s'.toFinalize = s.toFinalize.erase p ∧
      s'.log = s.log ∧ s'.eq.isSome = true ∧ s'.initReady = s.initReady := by
  obtain ⟨q, hq'⟩ := Option.isSome_iff_exists.mp hq
  cases hm : p.isMethod with
  | true =>
    have hk : p.procKind = sc_curr_proc_kind.SC_METHOD_PROC_ := by
      simpa [Process.isMethod] using hm
    obtain ⟨q', h'⟩ := scheduleReadyEvent_ok (readyPushFirst p s) q hq'
    refine ⟨{ readyPushFirst p s with eq := some q' }, ?_, ?_, rfl, rfl, rfl, rfl, rfl⟩
    · simp only [ready, hk, if_true]; exact h'
    · simp [readyPushFirst, popListNode, List.erase_of_not_mem hp]
  | false =>
    have hk : ¬ p.procKind = sc_curr_proc_kind.SC_METHOD_PROC_ := by
      simpa [Process.isMethod] using hm
    obtain ⟨q', h'⟩ := scheduleReadyEvent_ok (readyPushLast p s) q hq'
    refine ⟨{ readyPushLast p s with eq := some q' }, ?_, ?_, rfl, rfl, rfl, rfl, rfl⟩
    · simp only [ready, hk, if_false]; exact h'
    · simp [readyPushLast, popListNode, List.erase_of_not_mem hp]

theorem initLoop_exact (l : List Process) :
    ∀ s : Scheduler, s.initList = l → l.Nodup → (∀ x ∈ l, x ∉ s.readyList) →
      s.eq.isSome = true →
      ∃ s', initLoop l.length s = Outcome.ok s' ∧
        s'.readyList = (l.filter (fun p => p.isMethod)).reverse ++ s.readyList
          ++ l.filter (fun p => !p.isMethod) ∧
        s'.log = s.log ++ l.map Obs.finalize ∧ s'.eq.isSome = true := by
  induction l with
  | nil => intro s _ _ _ hq; exact ⟨s, rfl, by simp, by simp, hq⟩
  | cons p rest ih =>
    intro s hl hnd hnot hq
    have hp : p ∉ s.readyList := hnot p (List.mem_cons_self _ _)
    have hnd' := List.nodup_cons.mp hnd
    have hstep : initLoop (p :: rest).length s
        = (ready p (popListNode p (finalize p s))).bind (initLoop rest.length) := by
      simp only [List.length_cons, initLoop, getNext, hl, List.head?_cons]
    obtain ⟨s1, h1, hr1, hi1, _, hg1, hq1, _⟩ := ready_exact p (popListNode p (finalize p s))
      (by simp [popListNode, finalize, List.erase_of_not_mem hp, hp]) hq
    have hr1' : s1.readyList
        = if p.isMethod = true then p :: s.readyList else s.readyList ++ [p] := by
      rw [hr1]; simp [popListNode, finalize, List.erase_of_not_mem hp]
    have hi1' : s1.initList = rest := by
      rw [hi1]
      simp [popListNode, finalize, hl, List.erase_of_not_mem hnd'.1]
    obtain ⟨s2, h2, hr2, hg2, hq2⟩ := ih s1 hi1' hnd'.2
      (by
        intro x hx hmem
        rw [hr1'] at hmem
        have hxs := hnot x (List.mem_cons_of_mem _ hx)
        have hxp : x ≠ p := fun h => hnd'.1 (h ▸ hx)
        split at hmem
        · rcases List.mem_cons.mp hmem with h | h
          · exact hxp h
          · exact hxs h
        · rcases List.mem_append.mp hmem with h | h
          · exact hxs h
          · exact hxp (List.mem_singleton.mp h))
      hq1
    refine ⟨s2, by rw [hstep, h1]; exact h2, ?_, ?_, hq2⟩
    · rw [hr2, hr1']
      cases hm : p.isMethod <;> simp [List.filter_cons, hm]
    · rw [hg2, hg1]
      simp [popListNode, finalize]

/-- `prepareForInit` on intrusive lists with the event manager installed: the
processes of the finalize-only list and then those of the init list are
finalized, in order, and those of the init list are made ready, the methods
at the front and the others at the back. -/
theorem prepareForInit_exact (s : Scheduler) (hwf : Intrusive s) (hq : s.eq.isSome = true) :
    ∃ s', prepareForInit s = Outcome.ok s' ∧
      s'.readyList = (s.initList.filter (fun p => p.isMethod)).reverse ++ s.readyList
        ++ s.initList.filter (fun p => !p.isMethod) ∧
      s'.log = s.log ++ (s.toFinalize ++ s.initList).map Obs.finalize ∧
      s'.initReady = true ∧ s'.initList = [] ∧ s'.toFinalize = [] ∧
      s'.eq.isSome = true := by
  obtain ⟨_, hni, _, hir, hfr, hfi⟩ := hwf
  obtain ⟨f1, f2, f3, f4, f5⟩ := finalizeLoop_exact s.toFinalize s rfl
    (fun x hx => ⟨hfr x hx, hfi x hx⟩)
  obtain ⟨s2, h2, hr2, hg2, _⟩ := initLoop_exact s.initList
    (finalizeLoop s.toFinalize.length s) f3 hni (by rw [f2]; exact hir) (by rw [f5]; exact hq)
  obtain ⟨s', h, hq'⟩ := prepareForInit_ok s hq
  obtain ⟨hres1, hres2, hres3, _⟩ := prepareForInit_result s s' h
  refine ⟨s', h, ?_, ?_, hres1, hres2, hres3, hq'⟩ <;>
  · unfold prepareForInit at h
    simp only at h
    obtain ⟨t2, g2, h⟩ := (Outcome.bind_eq_ok _ _ _).mp h
    obtain ⟨t3, g3, h⟩ := (Outcome.bind_eq_ok _ _ _).mp h
    obtain ⟨t5, g5, h⟩ := (Outcome.bind_eq_ok _ _ _).mp h
    cases h
    rw [f3, h2] at g2
    have e2 : s2 = t2 := Outcome.ok.inj g2
    rw [← e2] at g3
    have hq3 := scheduleDeferred_onlyQueue _ _ _ g3
    have h5 : t5.readyList = t3.readyList ∧ t5.log = t3.log := by
      split at g5
      · have := eqSchedule_onlyQueue _ _ _ _ g5
        rw [this]
        exact ⟨rfl, rfl⟩
      · cases g5
        exact ⟨rfl, rfl⟩
    have h3 : t3.readyList = s2.readyList ∧ t3.log = s2.log := by
      rw [hq3]; exact ⟨rfl, rfl⟩
    simp only [h5.1, h5.2, h3.1, h3.2, hr2, hg2, f2, f4, List.map_append, List.append_assoc]

theorem count_finalize_map (p : Process) (l : List Process) :
    (l.map Obs.finalize).count (Obs.finalize p) = l.count p := by
  induction l with
  | nil => rfl
  | cons x rest ih =>
    by_cases hx : x = p
    · subst hx; simp [ih]
    · have : Obs.finalize x ≠ Obs.finalize p := fun h => hx (Obs.finalize.inj h)
      simp [List.count_cons, ih, hx, this]

/-- C14: registering a process before or after initialisation comes to the
same. For a scheduler with the event manager installed, not yet initialised,
with well-formed intrusive lists, and a process `p` that is in none of them:
`reg(p)` followed by `prepareForInit` returns, and so does `prepareForInit`
followed by `reg(p)` (which then is `finalize` followed by `ready`). Both end
with the same ready list and the same record of calls; among the calls made
since the start `p->finalize()` occurs exactly once, `p` is in the ready list
exactly once, `p` is in neither the init list nor the finalize-only list, and
initialisation is complete. -/
theorem reg_before_or_after_init (p : Process) (s : Scheduler)
    (hq : s.eq.isSome = true) (hi : s.initReady = false) (hwf : Intrusive s)
    (hr : p ∉ s.readyList) (hil : p ∉ s.initList) (hf : p ∉ s.toFinalize) :
    ∃ before after initialised added,
      (reg p s).bind prepareForInit = Outcome.ok before ∧
      prepareForInit s = Outcome.ok initialised ∧
      reg p initialised = ready p (finalize p initialised) ∧
      reg p initialised = Outcome.ok after ∧
      before.log = s.log ++ added ∧ after.log = s.log ++ added ∧
      added.count (Obs.finalize p) = 1 ∧
      before.readyList = after.readyList ∧ before.readyList.count p = 1 ∧
      p ∉ before.initList ∧ p ∉ before.toFinalize ∧
      p ∉ after.initList ∧ p ∉ after.toFinalize ∧
      before.initReady = true ∧ after.initReady = true := by
  have hwf' := hwf
  obtain ⟨hnr, hni, hnf, hir, hfr, hfi⟩ := hwf'
  -- the early path
  have hreg : reg p s
      = Outcome.ok { popListNode p s with initList := (popListNode p s).initList ++ [p] } := by
    simp [reg, hi]
  have hwf0 : Intrusive
      { popListNode p s with initList := (popListNode p s).initList ++ [p] } := by
    simp only [Intrusive, popListNode, List.erase_of_not_mem hr, List.erase_of_not_mem hil,
      List.erase_of_not_mem hf]
    refine ⟨hnr, ?_, hnf, ?_, hfr, ?_⟩
    · exact List.Nodup.append hni (List.nodup_singleton p)
        (by
          intro x hx hx'
          rw [List.mem_singleton.mp hx'] at hx
          exact hil hx)
    · intro x hx
      rcases List.mem_append.mp hx with h | h
      · exact hir x h
      · rw [List.mem_singleton.mp h]; exact hr
    · intro x hx hx'
      rcases List.mem_append.mp hx' with h | h
      · exact hfi x hx h
      · rw [List.mem_singleton.mp h] at hx; exact hf hx
  obtain ⟨b, hb, hbr, hbl, hbi, hbil, hbf, _⟩ := prepareForInit_exact _ hwf0 hq
  simp only [popListNode, List.erase_of_not_mem hr, List.erase_of_not_mem hil,
    List.erase_of_not_mem hf] at hbr hbl
  -- the late path
  obtain ⟨s1, h1, h1r, h1l, h1i, h1il, h1f, h1q⟩ := prepareForInit_exact s hwf hq
  have hreg1 : reg p s1 = ready p (finalize p s1) := by simp [reg, h1i]
  have hp1 : p ∉ s1.readyList := by
    rw [h1r]
    simp only [List.mem_append, List.mem_reverse, List.mem_filter, not_or, not_and]
    exact ⟨⟨fun h => absurd h hil, hr⟩, fun h => absurd h hil⟩
  obtain ⟨a, ha, har, hai, haf, hal, _, hainit⟩ := ready_exact p (finalize p s1) hp1 h1q
  simp only [finalize] at har hai haf hal hainit
  refine ⟨b, a, s1, (s.toFinalize ++ s.initList).map Obs.finalize ++ [Obs.finalize p],
    by rw [hreg]; exact hb, h1, hreg1, by rw [hreg1]; exact ha, ?_, ?_, ?_, ?_, ?_, ?_, ?_,
    ?_, ?_, hbi, by rw [hainit]; exact h1i⟩
  · rw [hbl]; simp
  · rw [hal, h1l]; simp
  · rw [List.count_append, count_finalize_map, List.count_append,
      List.count_eq_zero_of_not_mem hf, List.count_eq_zero_of_not_mem hil]
    simp
  · rw [hbr, har, h1r]
    cases hm : p.isMethod <;> simp [List.filter_append, hm]
  · rw [hbr]
    have h0 : ∀ (f : Process → Bool), (s.initList.filter f).count p = 0 := fun f =>
      List.count_eq_zero_of_not_mem (fun h => hil (List.mem_of_mem_filter h))
    cases hm : p.isMethod <;>
      simp [List.filter_append, hm, List.count_append, h0, List.count_eq_zero_of_not_mem hr]
  · rw [hbil]; exact List.not_mem_nil p
  · rw [hbf]; exact List.not_mem_nil p
  · rw [hai, h1il]; simp
  · rw [haf, h1f]; simp

theorem exampleRegistered_intrusive : Intrusive exampleRegistered := by
  unfold Intrusive
  decide

/-- Witness of C14: a fourth process is registered with the scheduler that holds
two processes in its init list and one in its finalize-only list. -/
theorem reg_before_or_after_init_witness :
    ∃ before after,
      (reg (exampleThread 4) exampleRegistered).bind prepareForInit = Outcome.ok before ∧
      (prepareForInit exampleRegistered).bind (reg (exampleThread 4)) = Outcome.ok after ∧
      before.readyList = after.readyList ∧ before.log = after.log ∧
      before.readyList.count (exampleThread 4) = 1 := by
  obtain ⟨before, after, s1, added, hb, h1, _, ha, hbl, hal, _, hr, hc, _⟩ :=
    reg_before_or_after_init (exampleThread 4) exampleRegistered (by decide) (by decide)
      exampleRegistered_intrusive (by decide) (by decide) (by decide)
  exact ⟨before, after, hb, by rw [h1]; exact ha, hr, by rw [hbl, hal], hc⟩

theorem erase_eq_filter_of_nodup (p : Process) (l : List Process) (h : l.Nodup) :
    l.erase p = l.filter (fun x => decide (x ≠ p)) := by
  induction l with
  | nil => rfl
  | cons x rest ih =>
    have hn := List.nodup_cons.mp h
    by_cases hx : x = p
    · subst hx
      have : rest.filter (fun y => decide (y ≠ x)) = rest :=
        List.filter_eq_self.mpr (fun y hy => by
          have : y ≠ x := fun e => hn.1 (e ▸ hy)
          simpa using this)
      rw [List.erase_cons_head, List.filter_cons_of_neg (by simp), this]
    · have hx' : (x == p) = false := by simpa using hx
      simp [List.erase_cons, hx', hx, ih hn.2]

/-- C15: `dontInitialize` opts a process out of its initial run. Before
initialisation, for a process `p` of the init list (the lists well formed, the
event manager installed): `prepareForInit` after `dontInitialize(p)` returns,
calls `p->finalize()` exactly once, and builds the ready list from the init
list without `p`, so that `p` is not in it. After initialisation, for a
process `p` of the ready list: `dontInitialize(p)` leaves exactly the other
processes of the ready list, in their order, and changes nothing else. -/
theorem dontInitialize_opts_out (p : Process) (s : Scheduler) (hwf : Intrusive s) :
    (s.initReady = false → s.eq.isSome = true → p ∈ s.initList →
      ∃ s', prepareForInit (dontInitialize p s) = Outcome.ok s' ∧
        (s'.log.drop s.log.length).count (Obs.finalize p) = 1 ∧
        s'.readyList = ((s.initList.erase p).filter (fun x => x.isMethod)).reverse
          ++ s.readyList ++ (s.initList.erase p).filter (fun x => !x.isMethod) ∧
        p ∉ s'.readyList ∧ p ∉ s'.initList ∧ p ∉ s'.toFinalize) ∧
    (s.initReady = true → p ∈ s.readyList →
      (dontInitialize p s).readyList = s.readyList.filter (fun x => decide (x ≠ p)) ∧
      p ∉ (dontInitialize p s).readyList ∧
      dontInitialize p s = { s with readyList := (dontInitialize p s).readyList }) := by
  have hwf' := hwf
  obtain ⟨hnr, hni, hnf, hir, hfr, hfi⟩ := hwf'
  constructor
  · intro hi hq hp
    have hr : p ∉ s.readyList := hir p hp
    have hf : p ∉ s.toFinalize := fun h => hfi p h hp
    have hpe : p ∉ s.initList.erase p := fun h => (List.Nodup.mem_erase_iff hni).mp h |>.1 rfl
    have hd : dontInitialize p s
        = { popListNode p s with toFinalize := (popListNode p s).toFinalize ++ [p] } := by
      simp [dontInitialize, hi]
    have hwf0 : Intrusive
        { popListNode p s with toFinalize := (popListNode p s).toFinalize ++ [p] } := by
      simp only [Intrusive, popListNode, List.erase_of_not_mem hr, List.erase_of_not_mem hf]
      refine ⟨hnr, hni.erase p, ?_, ?_, ?_, ?_⟩
      · exact List.Nodup.append hnf (List.nodup_singleton p)
          (by
            intro x hx hx'
            rw [List.mem_singleton.mp hx'] at hx
            exact hf hx)
      · intro x hx
        exact hir x (List.mem_of_mem_erase hx)
      · intro x hx
        rcases List.mem_append.mp hx with h | h
        · exact hfr x h
        · rw [List.mem_singleton.mp h]; exact hr
      · intro x hx hx'
        rcases List.mem_append.mp hx with h | h
        · exact hfi x h (List.mem_of_mem_erase hx')
        · rw [List.mem_singleton.mp h] at hx'; exact hpe hx'
    obtain ⟨s', h, hrl, hl, _, hil, hfl, _⟩ := prepareForInit_exact _ hwf0 hq
    simp only [popListNode, List.erase_of_not_mem hr, List.erase_of_not_mem hf] at hrl hl
    refine ⟨s', by rw [hd]; exact h, ?_, hrl, ?_, ?_, ?_⟩
    · rw [hl, List.drop_left, count_finalize_map, List.count_append, List.count_append,
        List.count_eq_zero_of_not_mem hf, List.count_eq_zero_of_not_mem hpe]
      simp
    · rw [hrl]
      simp only [List.mem_append, List.mem_reverse, List.mem_filter, not_or, not_and]
      exact ⟨⟨fun h => absurd h hpe, hr⟩, fun h => absurd h hpe⟩
    · rw [hil]; exact List.not_mem_nil p
    · rw [hfl]; exact List.not_mem_nil p
  · intro hi hp
    have hil : p ∉ s.initList := fun h => hir p h hp
    have hf : p ∉ s.toFinalize := fun h => hfr p h hp
    have hd : dontInitialize p s = { s with readyList := s.readyList.erase p } := by
      simp [dontInitialize, hi, popListNode, List.erase_of_not_mem hil,
        List.erase_of_not_mem hf]
    rw [hd]
    refine ⟨erase_eq_filter_of_nodup p _ hnr, ?_, rfl⟩
    exact fun h => ((List.Nodup.mem_erase_iff hnr).mp h).1 rfl

theorem exampleInitialised_intrusive :
    Intrusive (prepareForInit exampleRegistered).get := by
  unfold Intrusive
  decide

/-- Witness of C15: before initialisation the first process of the init list
opts out; after initialisation the method at the head of the ready list
does. -/
theorem dontInitialize_opts_out_witness :
    (∃ s', prepareForInit (dontInitialize (exampleThread 1) exampleRegistered)
        = Outcome.ok s' ∧ s'.readyList = [exampleMethod 2]) ∧
    (dontInitialize (exampleMethod 2) (prepareForInit exampleRegistered).get).readyList
      = [exampleThread 1] := by
  constructor
  · obtain ⟨s', h, _, hr, _⟩ :=
      (dontInitialize_opts_out (exampleThread 1) exampleRegistered
        exampleRegistered_intrusive).1 (by decide) (by decide) (by decide)
    exact ⟨s', h, by rw [hr]; decide⟩
  · have h := ((dontInitialize_opts_out (exampleMethod 2) (prepareForInit exampleRegistered).get
      exampleInitialised_intrusive).2 (by decide) (by decide)).1
    rw [h]
    decide

/-! ## Exceptions of processes -/

theorem foldl_call_notified (react : Nat → Delivery → List Nat) (l : List Nat) :
    ∀ st : Delivery, (l.foldl (Delivery.call react) st).notified = st.notified ++ l ∧
      (l.foldl (Delivery.call react) st).eventsHappened = st.eventsHappened := by
  induction l with
  | nil => intro st; simp
  | cons s rest ih =>
    intro st
    obtain ⟨h1, h2⟩ := ih (Delivery.call react st s)
    simp only [List.foldl_cons]
    rw [h1, h2]
    simp [Delivery.call]

/-- Immediate notification delivers to the snapshot, the part of C18 that
`event.cc` decides; how registration orders the member `sensitivities` is
fixed by `Event::addSensitivity` in `event.hh`. Whatever the notified
sensitivities do to the event's `sensitivities` meanwhile (`react`), the calls
`s->notify(this)` made by `notify()` are exactly the entries that
`sensitivities` held when `notify()` was called, in the order of that list,
each as many times as it is in it: once for an entry registered once, never
for a sensitivity that was not registered at the call. `delayedNotify()` makes
the same calls after counting the event. -/
theorem notify_delivers_to_snapshot (react : Nat → Delivery → List Nat) (st : Delivery) :
    (Event.notifyNow react st).notified = st.notified ++ st.sensitivities ∧
    (∀ x, ((Event.notifyNow react st).notified.drop st.notified.length).count x
      = st.sensitivities.count x) ∧
    (∀ x, x ∉ st.sensitivities →
      x ∉ (Event.notifyNow react st).notified.drop st.notified.length) ∧
    (Event.delayedNotify react st).notified = st.notified ++ st.sensitivities ∧
    (Event.delayedNotify react st).eventsHappened = st.eventsHappened + 1 := by
  have h := (foldl_call_notified react st.sensitivities st).1
  have hd := foldl_call_notified react st.sensitivities st.eventHappened
  have hn : (Event.notifyNow react st).notified = st.notified ++ st.sensitivities := h
  refine ⟨hn, ?_, ?_, hd.1, hd.2⟩
  · intro x
    rw [hn, List.drop_left]
  · intro x hx
    rw [hn, List.drop_left]
    exact hx

/-- The first sensitivity notified removes the second one and registers a
fourth: the second one is notified all the same, the fourth one is not, and the
event is left with the changed registrations. -/
theorem notify_with_reactions :
    Event.notifyNow exampleReact { sensitivities := [1, 2, 3], notified := [], eventsHappened := 0 }
      = { sensitivities := [1, 3, 4], notified := [1, 2, 3], eventsHappened := 0 } := by
  decide

/-! ## Lookup by name -/

theorem firstIndex_le {α : Type} (p : α → Bool) (l : List α) :
    firstIndex p l ≤ l.length := by
  induction l with
  | nil => exact Nat.le_refl _
  | cons a rest ih =>
    unfold firstIndex
    split
    · exact Nat.zero_le _
    · exact Nat.succ_le_succ ih

theorem firstIndex_eq_length_iff {α : Type} (p : α → Bool) (l : List α) :
    firstIndex p l = l.length ↔ ∀ a ∈ l, p a = false := by
  induction l with
  | nil => simp [firstIndex]
  | cons a rest ih =>
    unfold firstIndex
    cases hp : p a with
    | true =>
      simp only [if_true, List.length_cons, List.mem_cons]
      constructor
      · intro h; cases h
      · intro h
        have := h a (Or.inl rfl)
        rw [hp] at this
        cases this
    | false =>
      simp only [Bool.false_eq_true, if_false, List.length_cons, Nat.add_right_cancel_iff, ih,
        List.mem_cons]
      constructor
      · intro h x hx
        rcases hx with rfl | hx
        · exact hp
        · exact h x hx
      · intro h x hx
        exact h x (Or.inr hx)

theorem firstIndex_spec {α : Type} (p : α → Bool) (l : List α)
    (h : firstIndex p l < l.length) : p (l.get ⟨firstIndex p l, h⟩) = true := by
  induction l with
  | nil => cases h
  | cons a rest ih =>
    cases hp : p a with
    | true =>
      have h0 : firstIndex p (a :: rest) = 0 := by simp [firstIndex, hp]
      have : (a :: rest).get ⟨firstIndex p (a :: rest), h⟩ = a := by
        simp only [h0]; rfl
      rw [this]; exact hp
    | false =>
      have h1 : firstIndex p (a :: rest) = firstIndex p rest + 1 := by simp [firstIndex, hp]
      have hlt : firstIndex p rest < rest.length := by
        rw [h1] at h
        exact Nat.lt_of_succ_lt_succ h
      have : (a :: rest).get ⟨firstIndex p (a :: rest), h⟩
          = rest.get ⟨firstIndex p rest, hlt⟩ := by
        simp only [h1]; rfl
      rw [this]
      exact ih hlt

theorem firstIndex_min {α : Type} (p : α → Bool) (l : List α) :
    ∀ (j : Nat) (hj : j < l.length), j < firstIndex p l → p (l.get ⟨j, hj⟩) = false := by
  induction l with
  | nil => intro j hj; cases hj
  | cons a rest ih =>
    intro j hj hlt
    cases hp : p a with
    | true => simp [firstIndex, hp] at hlt
    | false =>
      have h1 : firstIndex p (a :: rest) = firstIndex p rest + 1 := by simp [firstIndex, hp]
      cases j with
      | zero => exact hp
      | succ k =>
        rw [h1] at hlt
        exact ih k (Nat.lt_of_succ_lt_succ hj) (Nat.lt_of_succ_lt_succ hlt)

theorem firstIndex_congr {α : Type} (p q : α → Bool) (l : List α)
    (h : ∀ a ∈ l, p a = q a) : firstIndex p l = firstIndex q l := by
  induction l with
  | nil => rfl
  | cons a rest ih =>
    unfold firstIndex
    rw [h a (List.mem_cons_self _ _), ih (fun x hx => h x (List.mem_cons_of_mem _ hx))]

theorem c_str_of_noNul (s : String) (h : NoNul s) : c_str s = s.toList := by
  unfold c_str
  refine List.takeWhile_eq_self_iff.mpr ?_
  intro c hc
  have : c ≠ Char.ofNat 0 := fun e => h (e ▸ hc)
  simpa using this

theorem c_str_eq_iff_of_noNul (s t : String) (hs : NoNul s) (ht : NoNul t) :
    c_str s = c_str t ↔ s = t := by
  rw [c_str_of_noNul s hs, c_str_of_noNul t ht]
  constructor
  · intro h
    exact String.ext h
  · intro h; rw [h]

/-- The lookup `findEvent` is a first-hit lookup by name as C string. It
returns a position of the registry or its length (the end sentinel); the
length exactly when no registered event has a name equal to `name` up to the
first NUL of each; otherwise the position of the first event of the registry
whose name is equal to `name` in that sense. When neither `name` nor the
registered names hold a NUL character, that is equality of the names: the
sentinel exactly when no registered name equals `name`, and otherwise the
first position whose name equals `name`. -/
theorem findEvent_first_c_str_match (allEvents : List Event) (name : String) :
    findEvent allEvents name ≤ allEvents.length ∧
    (findEvent allEvents name = allEvents.length ↔
      ∀ e ∈ allEvents, c_str e._name ≠ c_str name) ∧
    (∀ h : findEvent allEvents name < allEvents.length,
      c_str (allEvents.get ⟨findEvent allEvents name, h⟩)._name = c_str name) ∧
    (∀ (j : Nat) (hj : j < allEvents.length), j < findEvent allEvents name →
      c_str (allEvents.get ⟨j, hj⟩)._name ≠ c_str name) ∧
    (NoNul name → (∀ e ∈ allEvents, NoNul e._name) →
      (findEvent allEvents name = allEvents.length ↔ ∀ e ∈ allEvents, e._name ≠ name) ∧
      (∀ h : findEvent allEvents name < allEvents.length,
        (allEvents.get ⟨findEvent allEvents name, h⟩)._name = name) ∧
      (∀ (j : Nat) (hj : j < allEvents.length), j < findEvent allEvents name →
        (allEvents.get ⟨j, hj⟩)._name ≠ name)) := by
  have hend : findEvent allEvents name = allEvents.length ↔
      ∀ e ∈ allEvents, c_str e._name ≠ c_str name := by
    unfold findEvent
    rw [firstIndex_eq_length_iff]
    constructor
    · intro h e he; simpa using h e he
    · intro h e he; simpa using h e he
  have hhit : ∀ h : findEvent allEvents name < allEvents.length,
      c_str (allEvents.get ⟨findEvent allEvents name, h⟩)._name = c_str name := by
    intro h
    have := firstIndex_spec (fun e : Event => decide (c_str e._name = c_str name)) allEvents h
    simpa using this
  have hmin : ∀ (j : Nat) (hj : j < allEvents.length), j < findEvent allEvents name →
      c_str (allEvents.get ⟨j, hj⟩)._name ≠ c_str name := by
    intro j hj hlt
    have := firstIndex_min (fun e : Event => decide (c_str e._name = c_str name)) allEvents
      j hj hlt
    simpa using this
  refine ⟨firstIndex_le _ _, hend, hhit, hmin, ?_⟩
  intro hn hall
  refine ⟨?_, ?_, ?_⟩
  · rw [hend]
    constructor
    · intro h e he heq
      exact h e he (by rw [heq])
    · intro h e he heq
      exact h e he ((c_str_eq_iff_of_noNul _ _ (hall e he) hn).mp heq)
  · intro h
    exact (c_str_eq_iff_of_noNul _ _ (hall _ (List.get_mem _ _ _)) hn).mp (hhit h)
  · intro j hj hlt heq
    exact hmin j hj hlt (by rw [heq])

theorem exampleRegistry_noNul : ∀ e ∈ exampleRegistry, NoNul e._name := by
  unfold exampleRegistry NoNul
  decide

/-! ## Construction of an event -/

theorem length_ne_zero_iff_ne_empty (s : String) : (s.length != 0) = true ↔ s ≠ "" := by
  constructor
  · intro h e
    rw [e] at h
    exact absurd h (by decide)
  · intro h
    have : s.length ≠ 0 := by
      intro h0
      apply h
      apply String.ext
      exact List.length_eq_zero.mp h0
    simpa using this

/-- C20: construction fixes the name and the registration of an event. With a
parent (the object of the current module, else the process that is running)
the name is the parent's name, a dot and the basename; the event is added to
the child events of the parent and the top-level registry is unchanged.
Without a parent the name is the basename and the event is appended to the
top-level registry, the child events being unchanged. In both cases the event
is appended to `allEvents`, once, and `inHierarchy()` holds exactly when the
name is not empty. -/
theorem construct_fixes_name_and_registration (ctx : ConstructionContext) (id : Nat)
    (b : String) (w : EventWorld) :
    (∀ par, ctx.parent = some par →
      (Event.construct ctx id b w).1._name = par.name ++ "." ++ b ∧
      (Event.construct ctx id b w).1.parent = some par.id ∧
      (Event.construct ctx id b w).2.childEvents = addChildEvent w.childEvents par.id id ∧
      (Event.construct ctx id b w).2.topLevelEvents = w.topLevelEvents) ∧
    (ctx.parent = none →
      (Event.construct ctx id b w).1._name = b ∧
      (Event.construct ctx id b w).1.parent = none ∧
      (Event.construct ctx id b w).2.topLevelEvents
        = w.topLevelEvents ++ [(Event.construct ctx id b w).1] ∧
      (Event.construct ctx id b w).2.childEvents = w.childEvents) ∧
    (Event.construct ctx id b w).2.allEvents
      = w.allEvents ++ [(Event.construct ctx id b w).1] ∧
    (Event.construct ctx id b w).2.allEvents.count (Event.construct ctx id b w).1
      = w.allEvents.count (Event.construct ctx id b w).1 + 1 ∧
    ((Event.construct ctx id b w).1.inHierarchy = true
      ↔ (Event.construct ctx id b w).1._name ≠ "") ∧
    (Event.construct ctx id b w).1._basename = b ∧
    (Event.construct ctx id b w).1._sc_event = id ∧
    (Event.construct ctx id b w).2.eq = w.eq := by
  have hall : (Event.construct ctx id b w).2.allEvents
      = w.allEvents ++ [(Event.construct ctx id b w).1] := by
    unfold Event.construct
    cases ctx.parent <;> rfl
  refine ⟨?_, ?_, hall, ?_, length_ne_zero_iff_ne_empty _, rfl, rfl, ?_⟩
  · intro par hp
    simp [Event.construct, hp]
  · intro hp
    simp [Event.construct, hp]
  · rw [hall, List.count_append]
    simp
  · unfold Event.construct
    cases ctx.parent <;> rfl

/-- Witness of C20: an event `b` constructed while the module `top` is current,
one constructed by the running process `top.p`, and one constructed with
neither. -/
theorem construct_fixes_name_and_registration_witness :
    (Event.construct { currentModule := some (some { id := 7, name := "top" }), current := none }
      1 "b" EventWorld.empty).1._name = "top.b" ∧
    (Event.construct { currentModule := none, current := some { id := 8, name := "top.p" } }
      2 "b" EventWorld.empty).2.topLevelEvents = [] ∧
    (Event.construct { currentModule := none, current := none } 3 "b" EventWorld.empty).1._name
      = "b" :=
  ⟨((construct_fixes_name_and_registration
      { currentModule := some (some { id := 7, name := "top" }), current := none }
      1 "b" EventWorld.empty).1 { id := 7, name := "top" } (by decide)).1,
    ((construct_fixes_name_and_registration
      { currentModule := none, current := some { id := 8, name := "top.p" } }
      2 "b" EventWorld.empty).1 { id := 8, name := "top.p" } (by decide)).2.2.2,
    ((construct_fixes_name_and_registration { currentModule := none, current := none }
      3 "b" EventWorld.empty).2.1 (by decide)).1⟩

/-! ## Signalling work -/

theorem EventQueue.when_deschedule_other (q : EventQueue) (h k : Handle) (hk : k ≠ h) :
    (q.deschedule k).when h = q.when h := by
  unfold EventQueue.when EventQueue.deschedule
  simp only
  have : (q.pending.filter (fun e => decide (e.1 ≠ k))).find? (fun e => decide (e.1 = h))
      = q.pending.find? (fun e => decide (e.1 = h)) := by
    induction q.pending with
    | nil => rfl
    | cons x rest ih =>
      by_cases hx : x.1 = h
      · have hxk : x.1 ≠ k := fun e => hk (e ▸ hx)
        rw [List.filter_cons_of_pos (by simpa using hxk)]
        simp [List.find?_cons, hx]
      · have hd : decide (x.1 = h) = false := by simpa using hx
        by_cases hxk : x.1 = k
        · rw [List.filter_cons_of_neg (by simpa using hxk)]
          simp only [List.find?_cons, hd]
          exact ih
        · rw [List.filter_cons_of_pos (by simpa using hxk)]
          simp only [List.find?_cons, hd]
          exact ih
  rw [this]

/-- What `scheduleReadyEvent` leaves on the queue when the two timers were not
both armed. -/
theorem scheduleReadyEvent_spec (s : Scheduler) (q : EventQueue) (hq : s.eq = some q)
    (hex : TimersExclusive s) :
    ∃ q', scheduleReadyEvent s = Outcome.ok { s with eq := some q' } ∧
      q'.scheduled Handle.readyEvent = true ∧ q'.scheduled Handle.starvationEvent = false ∧
      q'.when Handle.readyEvent
        = (if q.scheduled Handle.readyEvent = true then q.when Handle.readyEvent
           else q.getCurTick) ∧
      q'.getCurTick = q.getCurTick := by
  unfold scheduleReadyEvent
  simp only [Scheduler.scheduled, hq]
  cases hr : q.scheduled Handle.readyEvent with
  | true =>
    refine ⟨q, ?_, hr, ?_, by simp, rfl⟩
    · simp only [Bool.not_true, Bool.false_eq_true, if_false]
      rw [← hq]
    · cases hs : q.scheduled Handle.starvationEvent with
      | false => rfl
      | true => exact absurd ⟨by simp [Scheduler.scheduled, hq, hr],
          by simp [Scheduler.scheduled, hq, hs]⟩ hex
  | false =>
    simp only [Bool.not_false, if_true]
    have hfresh := EventQueue.when_schedule_fresh q Handle.readyEvent q.getCurTick hr
    split
    · refine ⟨_, rfl, ?_, EventQueue.scheduled_deschedule_self _ _, ?_, rfl⟩
      · rw [EventQueue.scheduled_deschedule_other _ _ _ (by decide)]
        exact EventQueue.scheduled_schedule_self _ _ _
      · rw [EventQueue.when_deschedule_other _ _ _ (by decide), hfresh]
        simp
    · rename_i hns
      refine ⟨_, rfl, EventQueue.scheduled_schedule_self _ _ _, ?_, ?_, rfl⟩
      · simpa using hns
      · rw [hfresh]; simp

/-- C22: `ready()` and `requestUpdate()` signal work. In every state the
scheduler can reach, with a host queue installed, `ready(p)` returns and so
does `requestUpdate(c)`; afterwards the ready-dispatch timer is armed, at the
tick it was due before when it was armed already and at the current tick when
it was not, the starvation timer is not armed, and the current tick is what it
was. -/
theorem ready_signals_work (env : Env) (s : Scheduler) (q : EventQueue) (p : Process)
    (c : Channel) (hreach : Reachable env s) (hq : s.eq = some q) :
    (∃ s' q', ready p s = Outcome.ok s' ∧ s'.eq = some q' ∧
      q'.scheduled Handle.readyEvent = true ∧ q'.scheduled Handle.starvationEvent = false ∧
      q'.when Handle.readyEvent
        = (if q.scheduled Handle.readyEvent = true then q.when Handle.readyEvent
           else q.getCurTick) ∧
      q'.getCurTick = q.getCurTick) ∧
    (∃ s' q', requestUpdate c s = Outcome.ok s' ∧ s'.eq = some q' ∧
      q'.scheduled Handle.readyEvent = true ∧ q'.scheduled Handle.starvationEvent = false ∧
      q'.when Handle.readyEvent
        = (if q.scheduled Handle.readyEvent = true then q.when Handle.readyEvent
           else q.getCurTick) ∧
      q'.getCurTick = q.getCurTick) := by
  have hex : TimersExclusive s := (TimerInv.reachable env s hreach).1
  have hex' : ∀ t : Scheduler, t.eq = s.eq → TimersExclusive t := by
    intro t ht
    unfold TimersExclusive Scheduler.scheduled at *
    rw [ht]
    exact hex
  constructor
  · unfold ready
    split
    · obtain ⟨q', h, h1, h2, h3, h4⟩ := scheduleReadyEvent_spec (readyPushFirst p s) q hq
        (hex' _ rfl)
      exact ⟨_, q', h, rfl, h1, h2, h3, h4⟩
    · obtain ⟨q', h, h1, h2, h3, h4⟩ := scheduleReadyEvent_spec (readyPushLast p s) q hq
        (hex' _ rfl)
      exact ⟨_, q', h, rfl, h1, h2, h3, h4⟩
  · unfold requestUpdate
    obtain ⟨q', h, h1, h2, h3, h4⟩ := scheduleReadyEvent_spec
      { popChannel c s with updateList := (popChannel c s).updateList ++ [c] } q hq
      (hex' _ rfl)
    exact ⟨_, q', h, rfl, h1, h2, h3, h4⟩

/-- Witness of C22: with the starvation timer armed, `ready` arms the
ready-dispatch timer and disarms the starvation timer. -/
theorem ready_signals_work_witness :
    exampleStarved.scheduled Handle.starvationEvent = true ∧
    ∃ s' q', ready (exampleMethod 2) exampleStarved = Outcome.ok s' ∧ s'.eq = some q' ∧
      q'.scheduled Handle.readyEvent = true ∧ q'.scheduled Handle.starvationEvent = false := by
  refine ⟨by decide, ?_⟩
  obtain ⟨s', q', h, hq', h1, h2, _⟩ := (ready_signals_work Env.idle exampleStarved
    { curTick := 0, pending := [(Handle.starvationEvent, 0)] } (exampleMethod 2) { id := 1 }
    (Reachable.of_runOps Env.idle
      [Op.setEventQueue { curTick := 0, pending := [] }, Op.ready (exampleThread 1),
        Op.fire 2 Handle.readyEvent] Scheduler.new _ Reachable.constructed (by decide))
    (by decide)).1
  exact ⟨s', q', h, hq', h1, h2⟩

/-! ## Shape of the ready list -/

/-- C25: the exact shape of the ready list. With the event manager installed
and the ready list empty, `ready()` called on distinct processes in the order
of `ps` returns each time and leaves the ready list holding the processes of
method kind in the reverse of their call order, followed by the other
processes in their call order. -/
theorem ready_list_exact_shape (ps : List Process) (s : Scheduler)
    (hq : s.eq.isSome = true) (hempty : s.readyList = []) (hdistinct : ps.Nodup) :
    ∃ s', readyAll ps s = Outcome.ok s' ∧
      s'.readyList = (ps.filter (fun p => p.isMethod)).reverse
        ++ ps.filter (fun p => !p.isMethod) := by
  obtain ⟨s', h, hr, _⟩ := readyAll_shape ps s hq hdistinct
    (by intro p _; rw [hempty]; exact List.not_mem_nil p)
  refine ⟨s', h, ?_⟩
  rw [hr, hempty, List.append_nil]

/-- Witness of C25: two threads and two methods, made ready alternately. -/
theorem ready_list_exact_shape_witness :
    ∃ s', readyAll [exampleThread 1, exampleMethod 2, exampleThread 3, exampleMethod 4]
        Scheduler.installed = Outcome.ok s' ∧
      s'.readyList = [exampleMethod 4, exampleMethod 2, exampleThread 1, exampleThread 3] := by
  obtain ⟨s', h, hr⟩ := ready_list_exact_shape
    [exampleThread 1, exampleMethod 2, exampleThread 3, exampleMethod 4] Scheduler.installed
    (by decide) (by decide) (by decide)
  exact ⟨s', h, by rw [hr]; decide⟩

/-! ## What calls from outside code leave alone -/

theorem flushReady_fields (n : Nat) : ∀ s : Scheduler,
    (flushReady n s).log = s.log ∧ (flushReady n s)._current = s._current ∧
    (flushReady n s)._numCycles = s._numCycles ∧ (flushReady n s).status = s.status ∧
    (flushReady n s).stopAfterCallbacks = s.stopAfterCallbacks ∧
    (flushReady n s).endComplete = s.endComplete ∧
    (flushReady n s).startComplete = s.startComplete := by
  induction n with
  | zero => intro s; exact ⟨rfl, rfl, rfl, rfl, rfl, rfl, rfl⟩
  | succ n ih =>
    intro s
    unfold flushReady
    split
    · exact ⟨rfl, rfl, rfl, rfl, rfl, rfl, rfl⟩
    · exact ih (popListNode _ s)

theorem flushUpdates_fields (n : Nat) : ∀ s : Scheduler,
    (flushUpdates n s).log = s.log ∧ (flushUpdates n s)._current = s._current ∧
    (flushUpdates n s)._numCycles = s._numCycles ∧ (flushUpdates n s).status = s.status ∧
    (flushUpdates n s).stopAfterCallbacks = s.stopAfterCallbacks ∧
    (flushUpdates n s).endComplete = s.endComplete ∧
    (flushUpdates n s).startComplete = s.startComplete := by
  induction n with
  | zero => intro s; exact ⟨rfl, rfl, rfl, rfl, rfl, rfl, rfl⟩
  | succ n ih =>
    intro s
    unfold flushUpdates
    split
    · exact ⟨rfl, rfl, rfl, rfl, rfl, rfl, rfl⟩
    · exact ih (popChannel _ s)

theorem ScriptStable.stable_scheduleReadyEvent {R : Scheduler → Scheduler → Prop}
    (hR : ScriptStable R) (s : Scheduler) : (scheduleReadyEvent s).Rel R s := by
  unfold sc_gem5.scheduleReadyEvent
  split
  · split
    · exact Outcome.Rel.rel_abort _ s _
    · simp only
      split <;> exact Outcome.Rel.rel_ok (hR.2.1 _ _ rfl rfl rfl rfl rfl rfl rfl)
  · exact Outcome.Rel.rel_ok (hR.2.1 _ _ rfl rfl rfl rfl rfl rfl rfl)

theorem ScriptStable.stable_eqScheduleNow {R : Scheduler → Scheduler → Prop}
    (hR : ScriptStable R) (h : Handle) (s : Scheduler) : (eqScheduleNow h s).Rel R s := by
  unfold sc_gem5.eqScheduleNow
  split
  · exact Outcome.Rel.rel_abort _ s _
  · exact Outcome.Rel.rel_ok (hR.2.1 _ _ rfl rfl rfl rfl rfl rfl rfl)

theorem ScriptStable.stable_ready {R : Scheduler → Scheduler → Prop}
    (hR : ScriptStable R) (p : Process) (s : Scheduler) : (ready p s).Rel R s := by
  unfold sc_gem5.ready
  split
  · exact Outcome.Rel.rel_from hR.1 (b := readyPushFirst p s)
      (hR.2.1 _ _ rfl rfl rfl rfl rfl rfl rfl) (ScriptStable.stable_scheduleReadyEvent hR _)
  · exact Outcome.Rel.rel_from hR.1 (b := readyPushLast p s)
      (hR.2.1 _ _ rfl rfl rfl rfl rfl rfl rfl) (ScriptStable.stable_scheduleReadyEvent hR _)

theorem ScriptStable.stable_requestUpdate {R : Scheduler → Scheduler → Prop}
    (hR : ScriptStable R) (c : Channel) (s : Scheduler) : (requestUpdate c s).Rel R s := by
  unfold sc_gem5.requestUpdate
  refine Outcome.Rel.rel_from hR.1 ?_ (ScriptStable.stable_scheduleReadyEvent hR _)
  exact hR.2.1 _ _ rfl rfl rfl rfl rfl rfl rfl

theorem ScriptStable.stable_reg {R : Scheduler → Scheduler → Prop}
    (hR : ScriptStable R) (p : Process) (s : Scheduler) : (reg p s).Rel R s := by
  unfold sc_gem5.reg
  split
  · exact Outcome.Rel.rel_from hR.1 (b := finalize p s) (hR.2.2 p s)
      (ScriptStable.stable_ready hR p _)
  · exact Outcome.Rel.rel_ok (hR.2.1 _ _ rfl rfl rfl rfl rfl rfl rfl)

theorem ScriptStable.stable_dontInitialize {R : Scheduler → Scheduler → Prop}
    (hR : ScriptStable R) (p : Process) (s : Scheduler) : R s (dontInitialize p s) := by
  unfold sc_gem5.dontInitialize
  split <;> exact hR.2.1 _ _ rfl rfl rfl rfl rfl rfl rfl

theorem ScriptStable.stable_schedulePause {R : Scheduler → Scheduler → Prop}
    (hR : ScriptStable R) (s : Scheduler) : (schedulePause s).Rel R s := by
  unfold sc_gem5.schedulePause
  split
  · exact Outcome.Rel.rel_ok (hR.2.1 _ _ rfl rfl rfl rfl rfl rfl rfl)
  · exact ScriptStable.stable_eqScheduleNow hR _ s

theorem ScriptStable.stable_scheduleStop {R : Scheduler → Scheduler → Prop}
    (hR : ScriptStable R) (finish_delta : Bool) (s : Scheduler) :
    (scheduleStop finish_delta s).Rel R s := by
  unfold sc_gem5.scheduleStop
  split
  · exact Outcome.Rel.rel_ok (hR.2.1 _ _ rfl rfl rfl rfl rfl rfl rfl)
  · refine Outcome.Rel.rel_from hR.1 ?_ (ScriptStable.stable_eqScheduleNow hR _ _)
    split
    · simp only
      obtain ⟨a1, a2, a3, a4, a5, a6, a7⟩ := flushReady_fields s.readyList.length s
      obtain ⟨b1, b2, b3, b4, b5, b6, b7⟩ := flushUpdates_fields
        (flushReady s.readyList.length s).updateList.length (flushReady s.readyList.length s)
      exact hR.2.1 _ _ (b1.trans a1) (b2.trans a2) (b3.trans a3) (b4.trans a4) (b5.trans a5)
        (b6.trans a6) (b7.trans a7)
    · exact hR.2.1 _ _ rfl rfl rfl rfl rfl rfl rfl

theorem ScriptStable.stable_apply {R : Scheduler → Scheduler → Prop}
    (hR : ScriptStable R) (a : Action) (s : Scheduler) : (a.apply s).Rel R s := by
  cases a with
  | ready p => exact ScriptStable.stable_ready hR p s
  | requestUpdate c => exact ScriptStable.stable_requestUpdate hR c s
  | reg p => exact ScriptStable.stable_reg hR p s
  | dontInitialize p => exact Outcome.Rel.rel_ok (ScriptStable.stable_dontInitialize hR p s)
  | schedulePause => exact ScriptStable.stable_schedulePause hR s
  | scheduleStop fd => exact ScriptStable.stable_scheduleStop hR fd s
  | setException p exc => exact Outcome.Rel.rel_ok (hR.2.1 _ _ rfl rfl rfl rfl rfl rfl rfl)

theorem ScriptStable.stable_runScript {R : Scheduler → Scheduler → Prop}
    (hR : ScriptStable R) (script : List Action) :
    ∀ s : Scheduler, (runScript script s).Rel R s := by
  induction script with
  | nil => intro s; exact Outcome.Rel.rel_ok (hR.2.1 _ _ rfl rfl rfl rfl rfl rfl rfl)
  | cons a rest ih =>
    intro s
    exact Outcome.Rel.rel_bind hR.1 (ScriptStable.stable_apply hR a s) (fun s1 _ => ih s1)

theorem Untouched.untouched_stable : ScriptStable Untouched := by
  refine ⟨?_, ?_, ?_⟩
  · intro a b c h1 h2
    exact ⟨h2.1.trans h1.1, h2.2.1.trans h1.2.1, h2.2.2.1.trans h1.2.2.1,
      h2.2.2.2.1.trans h1.2.2.2.1, h2.2.2.2.2.trans h1.2.2.2.2⟩
  · intro s s' _ _ h1 h2 h3 h4 h5
    exact ⟨h1, h2, h3, h4, h5⟩
  · intro p s
    exact ⟨rfl, rfl, rfl, rfl, rfl⟩

theorem RunsNothing.runsNothing_stable : ScriptStable RunsNothing := by
  refine ⟨?_, ?_, ?_⟩
  · intro a b c h1 h2
    obtain ⟨c1, n1, e1, d1⟩ := h1
    obtain ⟨c2, n2, e2, d2⟩ := h2
    refine ⟨c2.trans c1, n1 ++ n2, by rw [e2, e1, List.append_assoc], ?_⟩
    rw [dispatched_append, d1, d2]
    rfl
  · intro s s' hl hc _ _ _ _ _
    exact ⟨hc, [], by simp [hl], rfl⟩
  · intro p s
    exact ⟨rfl, [Obs.finalize p], rfl, rfl⟩

theorem ReturnsOrAborts.roa_ok (s : Scheduler) : (Outcome.ok s).ReturnsOrAborts :=
  Or.inl ⟨s, rfl⟩

theorem ReturnsOrAborts.roa_abort (why : Abort) : (Outcome.abort why).ReturnsOrAborts :=
  Or.inr ⟨why, rfl⟩

theorem ReturnsOrAborts.roa_bind {o : Outcome} {f : Scheduler → Outcome}
    (ho : o.ReturnsOrAborts) (hf : ∀ s, (f s).ReturnsOrAborts) : (o.bind f).ReturnsOrAborts := by
  rcases ho with ⟨s, rfl⟩ | ⟨why, rfl⟩
  · exact hf s
  · exact Or.inr ⟨why, rfl⟩

theorem ReturnsOrAborts.roa_scheduleReadyEvent (s : Scheduler) :
    (scheduleReadyEvent s).ReturnsOrAborts := by
  unfold scheduleReadyEvent
  split
  · split
    · exact ReturnsOrAborts.roa_abort _
    · simp only
      split <;> exact ReturnsOrAborts.roa_ok _
  · exact ReturnsOrAborts.roa_ok _

theorem ReturnsOrAborts.roa_eqScheduleNow (h : Handle) (s : Scheduler) :
    (eqScheduleNow h s).ReturnsOrAborts := by
  unfold eqScheduleNow
  split
  · exact ReturnsOrAborts.roa_abort _
  · exact ReturnsOrAborts.roa_ok _

theorem ReturnsOrAborts.roa_ready (p : Process) (s : Scheduler) :
    (ready p s).ReturnsOrAborts := by
  unfold ready
  split <;> exact ReturnsOrAborts.roa_scheduleReadyEvent _

theorem ReturnsOrAborts.roa_apply (a : Action) (s : Scheduler) :
    (a.apply s).ReturnsOrAborts := by
  cases a with
  | ready p => exact ReturnsOrAborts.roa_ready p s
  | requestUpdate c => exact ReturnsOrAborts.roa_scheduleReadyEvent _
  | reg p =>
    simp only [Action.apply, sc_gem5.reg]
    split
    · exact ReturnsOrAborts.roa_ready p _
    · exact ReturnsOrAborts.roa_ok _
  | dontInitialize p => exact ReturnsOrAborts.roa_ok _
  | schedulePause =>
    simp only [Action.apply, sc_gem5.schedulePause]
    split
    · exact ReturnsOrAborts.roa_ok _
    · exact ReturnsOrAborts.roa_eqScheduleNow _ _
  | scheduleStop fd =>
    simp only [Action.apply, sc_gem5.scheduleStop]
    split
    · exact ReturnsOrAborts.roa_ok _
    · exact ReturnsOrAborts.roa_eqScheduleNow _ _
  | setException p exc => exact ReturnsOrAborts.roa_ok _

theorem ReturnsOrAborts.roa_runScript (script : List Action) :
    ∀ s : Scheduler, (runScript script s).ReturnsOrAborts := by
  induction script with
  | nil => intro s; exact ReturnsOrAborts.roa_ok s
  | cons a rest ih =>
    intro s
    exact ReturnsOrAborts.roa_bind (ReturnsOrAborts.roa_apply a s) ih

theorem update_returns_empty (env : Env) (n : Nat) :
    ∀ s s' : Scheduler, update env n s = Outcome.ok s' → s'.updateList = [] := by
  induction n with
  | zero =>
    intro s s' h
    unfold update at h
    cases hl : s.updateList with
    | nil => simp only [getNext, hl, List.head?_nil] at h; cases h; exact hl
    | cons c rest => simp only [getNext, hl, List.head?_cons] at h; cases h
  | succ n ih =>
    intro s s' h
    unfold update at h
    cases hl : s.updateList with
    | nil => simp only [getNext, hl, List.head?_nil] at h; cases h; exact hl
    | cons c rest =>
      simp only [getNext, hl, List.head?_cons] at h
      obtain ⟨s1, _, h2⟩ := (Outcome.bind_eq_ok _ _ _).mp h
      exact ih s1 s' h2

theorem eqScheduleNow_updateList (h : Handle) (s s' : Scheduler)
    (hs : eqScheduleNow h s = Outcome.ok s') : s'.updateList = s.updateList := by
  unfold eqScheduleNow at hs
  split at hs
  · cases hs
  · cases hs; rfl

theorem ready_updateList (p : Process) (s s' : Scheduler) (h : ready p s = Outcome.ok s') :
    s'.updateList = s.updateList := by
  unfold ready at h
  split at h
  · rw [scheduleReadyEvent_onlyQueue _ _ h]; rfl
  · rw [scheduleReadyEvent_onlyQueue _ _ h]; rfl

/-- What a call from outside code does to the update list: `requestUpdate(c)`
moves `c` to its end, a call that stops at once empties it or leaves it, and
every other call leaves it. -/
theorem Action.apply_updateList (a : Action) (s s' : Scheduler)
    (h : a.apply s = Outcome.ok s') :
    (∀ c, a = Action.requestUpdate c → s'.updateList = s.updateList.erase c ++ [c]) ∧
    (a.isRequestUpdate = false → s'.updateList = s.updateList ∨ s'.updateList = []) ∧
    (a.isRequestUpdate = false → a ≠ Action.scheduleStop false →
      s'.updateList = s.updateList) := by
  cases a with
  | ready p =>
    have := ready_updateList p s s' h
    exact ⟨(fun c hc => by cases hc), fun _ => Or.inl this, fun _ _ => this⟩
  | requestUpdate c =>
    simp only [Action.apply, sc_gem5.requestUpdate] at h
    refine ⟨?_, (fun hc => by cases hc), (fun hc => by cases hc)⟩
    intro c' hc
    cases hc
    rw [scheduleReadyEvent_onlyQueue _ _ h]
    rfl
  | reg p =>
    have : s'.updateList = s.updateList := by
      simp only [Action.apply, sc_gem5.reg] at h
      split at h
      · rw [ready_updateList p _ s' h]; rfl
      · cases h; rfl
    exact ⟨(fun c hc => by cases hc), fun _ => Or.inl this, fun _ _ => this⟩
  | dontInitialize p =>
    have : s'.updateList = s.updateList := by
      simp only [Action.apply, sc_gem5.dontInitialize] at h
      cases h
      split <;> rfl
    exact ⟨(fun c hc => by cases hc), fun _ => Or.inl this, fun _ _ => this⟩
  | schedulePause =>
    have : s'.updateList = s.updateList := by
      simp only [Action.apply, sc_gem5.schedulePause] at h
      split at h
      · cases h; rfl
      · exact eqScheduleNow_updateList _ _ _ h
    exact ⟨(fun c hc => by cases hc), fun _ => Or.inl this, fun _ _ => this⟩
  | scheduleStop fd =>
    simp only [Action.apply, sc_gem5.scheduleStop] at h
    refine ⟨(fun c hc => by cases hc), ?_, ?_⟩
    · intro _
      split at h
      · cases h; exact Or.inl rfl
      · rw [eqScheduleNow_updateList _ _ _ h]
        split
        · exact Or.inr (flushUpdates_empties _ _ (Nat.le_refl _))
        · exact Or.inl rfl
    · intro _ hne
      cases fd with
      | false => exact absurd rfl hne
      | true =>
        split at h
        · cases h; rfl
        · rw [eqScheduleNow_updateList _ _ _ h]
          rfl
  | setException p exc =>
    have : s'.updateList = s.updateList := by
      simp only [Action.apply] at h
      cases h; rfl
    exact ⟨(fun c hc => by cases hc), fun _ => Or.inl this, fun _ _ => this⟩

/-- A script without a stop at once keeps every channel of the update list in
it and leaves in it every channel whose update it requests. -/
theorem runScript_keeps_requested (script : List Action)
    (hstop : Action.scheduleStop false ∉ script) :
    ∀ s s' : Scheduler, runScript script s = Outcome.ok s' →
      (∀ d ∈ s.updateList, d ∈ s'.updateList) ∧
      (∀ d, Action.requestUpdate d ∈ script → d ∈ s'.updateList) := by
  induction script with
  | nil =>
    intro s s' h
    cases h
    exact ⟨(fun d hd => hd), (fun d hd => by cases hd)⟩
  | cons a rest ih =>
    intro s s' h
    simp only [runScript] at h
    obtain ⟨s1, h1, h2⟩ := (Outcome.bind_eq_ok _ _ _).mp h
    obtain ⟨k1, k2⟩ := ih (fun hm => hstop (List.mem_cons_of_mem _ hm)) s1 s' h2
    obtain ⟨a1, _, a3⟩ := Action.apply_updateList a s s1 h1
    have hne : a ≠ Action.scheduleStop false := fun e => hstop (e ▸ List.mem_cons_self _ _)
    have hkeep : ∀ d ∈ s.updateList, d ∈ s1.updateList := by
      intro d hd
      cases hr : a.isRequestUpdate with
      | false => rw [a3 hr hne]; exact hd
      | true =>
        cases a with
        | requestUpdate c =>
          rw [a1 c rfl]
          by_cases hdc : d = c
          · rw [hdc]; simp
          · exact List.mem_append_left _ ((List.mem_erase_of_ne hdc).mpr hd)
        | _ => cases hr
    refine ⟨fun d hd => k1 d (hkeep d hd), ?_⟩
    intro d hd
    rcases List.mem_cons.mp hd with e | hm
    · exact k1 d (by rw [a1 d e.symm]; simp)
    · exact k2 d hm

theorem runChannel_logExtends (env : Env) (c : Channel) (s s1 : Scheduler)
    (h : runScript (env.update c (recordUpdate c s)) (recordUpdate c s) = Outcome.ok s1) :
    ∃ added, s1.log = s.log ++ Obs.update c s.readyList s.updateList :: added := by
  obtain ⟨_, added, hlog, _⟩ := ScriptStable.stable_runScript RunsNothing.runsNothing_stable
    (env.update c (recordUpdate c s)) (recordUpdate c s) s1 (by rw [h]; rfl)
  exact ⟨added, by rw [hlog]; simp [recordUpdate]⟩

/-- When no `update()` stops the simulation at once, the `update()` of every
channel of the update list is called before `Scheduler::update` returns. -/
theorem update_calls_all (env : Env)
    (hstop : ∀ (c : Channel) (s : Scheduler), Action.scheduleStop false ∉ env.update c s)
    (n : Nat) :
    ∀ s s' : Scheduler, update env n s = Outcome.ok s' →
      ∃ added, s'.log = s.log ++ added ∧
        ∀ d ∈ s.updateList, d ∈ (updateCalls added).map Prod.fst := by
  induction n with
  | zero =>
    intro s s' h
    unfold update at h
    cases hl : s.updateList with
    | nil =>
      simp only [getNext, hl, List.head?_nil] at h
      cases h
      exact ⟨[], by simp, fun d hd => by cases hd⟩
    | cons c rest => simp only [getNext, hl, List.head?_cons] at h; cases h
  | succ n ih =>
    intro s s' h
    unfold update at h
    cases hl : s.updateList with
    | nil =>
      simp only [getNext, hl, List.head?_nil] at h
      cases h
      exact ⟨[], by simp, fun d hd => by cases hd⟩
    | cons c rest =>
      simp only [getNext, hl, List.head?_cons] at h
      obtain ⟨s1, h1, h2⟩ := (Outcome.bind_eq_ok _ _ _).mp h
      have h1' : runScript (env.update c (recordUpdate c (popChannel c s)))
          (recordUpdate c (popChannel c s)) = Outcome.ok s1 := h1
      obtain ⟨a1, hl1⟩ := runChannel_logExtends env c (popChannel c s) s1 h1'
      obtain ⟨k1, _⟩ := runScript_keeps_requested _ (hstop _ _) _ s1 h1'
      obtain ⟨a2, hl2, hall⟩ := ih s1 s' h2
      refine ⟨Obs.update c (popChannel c s).readyList (popChannel c s).updateList :: (a1 ++ a2),
        by rw [hl2, hl1]; simp [popChannel], ?_⟩
      intro d hd
      rcases List.mem_cons.mp hd with e | hm
      · rw [e]; simp [updateCalls]
      · have hd1 : d ∈ s1.updateList := by
          apply k1
          simp [recordUpdate, popChannel, hl, hm]
        have := hall d hd1
        rw [List.mem_map] at this ⊢
        obtain ⟨x, hx, hxd⟩ := this
        refine ⟨x, ?_, hxd⟩
        rw [show Obs.update c (popChannel c s).readyList (popChannel c s).updateList :: (a1 ++ a2)
          = [Obs.update c (popChannel c s).readyList (popChannel c s).updateList] ++ a1 ++ a2
          by simp, updateCalls_append]
        exact List.mem_append_right _ hx

theorem runScript_updateList_le (script : List Action)
    (hreq : ∀ a ∈ script, a.isRequestUpdate = false) :
    ∀ s s' : Scheduler, runScript script s = Outcome.ok s' →
      s'.updateList.length ≤ s.updateList.length := by
  induction script with
  | nil => intro s s' h; cases h; exact Nat.le_refl _
  | cons a rest ih =>
    intro s s' h
    simp only [runScript] at h
    obtain ⟨s1, h1, h2⟩ := (Outcome.bind_eq_ok _ _ _).mp h
    have k := ih (fun x hx => hreq x (List.mem_cons_of_mem _ hx)) s1 s' h2
    have : s1.updateList.length ≤ s.updateList.length := by
      rcases (Action.apply_updateList a s s1 h1).2.1 (hreq a (List.mem_cons_self _ _))
        with e | e
      · rw [e]
      · rw [e]; exact Nat.zero_le _
    exact Nat.le_trans k this

/-- When no `update()` requests an update, a turn of the loop for each channel
of the update list is enough: `Scheduler::update` does not run out of fuel, and
with the event manager installed it returns. -/
theorem update_terminates (env : Env)
    (hreq : ∀ (c : Channel) (s : Scheduler), ∀ a ∈ env.update c s, a.isRequestUpdate = false)
    (n : Nat) :
    ∀ s : Scheduler, s.updateList.length ≤ n →
      (update env n s).ReturnsOrAborts ∧
      (s.eq.isSome = true → ∃ s', update env n s = Outcome.ok s' ∧ s'.updateList = []) := by
  induction n with
  | zero =>
    intro s hlen
    have hl : s.updateList = [] := List.length_eq_zero.mp (Nat.le_zero.mp hlen)
    have : update env 0 s = Outcome.ok s := by
      unfold update
      simp only [getNext, hl, List.head?_nil]
    rw [this]
    exact ⟨ReturnsOrAborts.roa_ok s, fun _ => ⟨s, rfl, hl⟩⟩
  | succ n ih =>
    intro s hlen
    cases hl : s.updateList with
    | nil =>
      have : update env (n + 1) s = Outcome.ok s := by
        unfold update
        simp only [getNext, hl, List.head?_nil]
      rw [this]
      exact ⟨ReturnsOrAborts.roa_ok s, fun _ => ⟨s, rfl, hl⟩⟩
    | cons c rest =>
      have hu : update env (n + 1) s
          = (runScript (env.update c (recordUpdate c (popChannel c s)))
              (recordUpdate c (popChannel c s))).bind (update env n) := by
        conv => lhs; unfold update
        simp only [getNext, hl, List.head?_cons]
        rfl
      have hpop : (recordUpdate c (popChannel c s)).updateList = rest := by
        simp [recordUpdate, popChannel, hl]
      have hrest : rest.length ≤ n := by
        rw [hl] at hlen
        exact Nat.le_of_succ_le_succ hlen
      have hnext : ∀ s1, runScript (env.update c (recordUpdate c (popChannel c s)))
          (recordUpdate c (popChannel c s)) = Outcome.ok s1 → s1.updateList.length ≤ n := by
        intro s1 h1
        have := runScript_updateList_le _ (hreq _ _) _ s1 h1
        rw [hpop] at this
        exact Nat.le_trans this hrest
      rw [hu]
      constructor
      · rcases ReturnsOrAborts.roa_runScript (env.update c (recordUpdate c (popChannel c s)))
          (recordUpdate c (popChannel c s)) with ⟨s1, h1⟩ | ⟨why, h1⟩
        · rw [h1]
          exact (ih s1 (hnext s1 h1)).1
        · rw [h1]
          exact ReturnsOrAborts.roa_abort why
      · intro hq
        obtain ⟨s1, h1, hq1⟩ := runScript_ok (env.update c (recordUpdate c (popChannel c s)))
          (recordUpdate c (popChannel c s)) hq
        rw [h1]
        exact (ih s1 (hnext s1 h1)).2 hq1

/-- Counterexample to C26 as stated: the `update()` of channel 1 requests the
update of channel 3 and then stops the simulation at once, which empties the
update list. `Scheduler::update` returns, and the `update()` of channel 3 was
not called. -/
theorem update_drops_requested_channel :
    Action.requestUpdate { id := 3 } ∈ Env.updateRequestsThenStops.update { id := 1 }
      (recordUpdate { id := 1 }
        (popChannel { id := 1 } (requestAll [{ id := 1 }] Scheduler.installed).get)) ∧
    update Env.updateRequestsThenStops 5 (requestAll [{ id := 1 }] Scheduler.installed).get
      = Outcome.ok (update Env.updateRequestsThenStops 5
          (requestAll [{ id := 1 }] Scheduler.installed).get).get ∧
    (updateCalls (update Env.updateRequestsThenStops 5
      (requestAll [{ id := 1 }] Scheduler.installed).get).get.log).map Prod.fst
        = [{ id := 1 }] := by
  decide

/-- C26, amended: updates requested during the drain run in the same drain,
unless the simulation is stopped at once meanwhile. Whenever
`Scheduler::update` returns, the update list is empty. When no `update()`
calls `scheduleStop(false)`: if `update` returns, started with `c` at the head
of the update list and `rest` behind it, then `c->update()` was called first,
with `rest` as the update list, and after it the `update()` of every channel
of `rest` and of every channel whose update `c->update()` requested, `c`
itself included. When no `update()` requests an update, a turn of the loop for
each channel of the list is enough for `update` to end, and with the event
manager installed it returns. -/
theorem update_reruns_requested (env : Env) :
    (∀ (fuel : Nat) (s s' : Scheduler), update env fuel s = Outcome.ok s' →
      s'.updateList = []) ∧
    ((∀ (c : Channel) (s : Scheduler), Action.scheduleStop false ∉ env.update c s) →
      ∀ (fuel : Nat) (s s' : Scheduler) (c : Channel) (rest : List Channel),
        s.updateList = c :: rest → update env fuel s = Outcome.ok s' →
        ∃ added, s'.log = s.log ++ Obs.update c s.readyList rest :: added ∧
          (∀ d ∈ rest, d ∈ (updateCalls added).map Prod.fst) ∧
          ∀ d, Action.requestUpdate d ∈ env.update c (recordUpdate c (popChannel c s)) →
            d ∈ (updateCalls added).map Prod.fst) ∧
    ((∀ (c : Channel) (s : Scheduler), ∀ a ∈ env.update c s, a.isRequestUpdate = false) →
      ∀ (fuel : Nat) (s : Scheduler), s.updateList.length ≤ fuel →
        (update env fuel s).ReturnsOrAborts ∧
        (s.eq.isSome = true →
          ∃ s', update env fuel s = Outcome.ok s' ∧ s'.updateList = [])) := by
  refine ⟨fun fuel s s' h => update_returns_empty env fuel s s' h, ?_,
    fun hreq fuel s hlen => update_terminates env hreq fuel s hlen⟩
  intro hstop fuel s s' c rest hl h
  cases fuel with
  | zero =>
    unfold update at h
    simp only [getNext, hl, List.head?_cons] at h
    cases h
  | succ n =>
    unfold update at h
    simp only [getNext, hl, List.head?_cons] at h
    obtain ⟨s1, h1, h2⟩ := (Outcome.bind_eq_ok _ _ _).mp h
    have h1' : runScript (env.update c (recordUpdate c (popChannel c s)))
        (recordUpdate c (popChannel c s)) = Outcome.ok s1 := h1
    obtain ⟨a1, hl1⟩ := runChannel_logExtends env c (popChannel c s) s1 h1'
    obtain ⟨k1, k2⟩ := runScript_keeps_requested _ (hstop _ _) _ s1 h1'
    obtain ⟨a2, hl2, hall⟩ := update_calls_all env hstop n s1 s' h2
    have hin : ∀ d, d ∈ s1.updateList → d ∈ (updateCalls (a1 ++ a2)).map Prod.fst := by
      intro d hd
      have := hall d hd
      rw [updateCalls_append, List.map_append]
      exact List.mem_append_right _ this
    refine ⟨a1 ++ a2, ?_, ?_, ?_⟩
    · rw [hl2, hl1]
      simp [popChannel, hl]
    · intro d hd
      exact hin d (k1 d (by simp [recordUpdate, popChannel, hl, hd]))
    · intro d hd
      exact hin d (k2 d hd)

theorem updateAgain_never_stops (c : Channel) (s : Scheduler) :
    Action.scheduleStop false ∉ Env.updateAgain.update c s := by
  simp only [Env.updateAgain, Env.idle]
  split
  · split <;> simp
  · simp

/-- Witness of C26: the `update()` of channel 1 requests the update of channel
1 again and that of channel 2, and both are updated before `update` returns;
with channels that request nothing, two turns drain a list of two. -/
theorem update_reruns_requested_witness :
    (∃ added, (update Env.updateAgain 10
        (requestAll [{ id := 1 }] Scheduler.installed).get).get.log
        = (requestAll [{ id := 1 }] Scheduler.installed).get.log
          ++ Obs.update { id := 1 } [] [] :: added ∧
      ({ id := 1 } : Channel) ∈ (updateCalls added).map Prod.fst) ∧
    (∃ s', update Env.idle 2 (requestAll [{ id := 1 }, { id := 2 }] Scheduler.installed).get
      = Outcome.ok s' ∧ s'.updateList = []) := by
  constructor
  · obtain ⟨added, hlog, _, hreq⟩ := (update_reruns_requested Env.updateAgain).2.1
      updateAgain_never_stops 10 (requestAll [{ id := 1 }] Scheduler.installed).get
      (update Env.updateAgain 10 (requestAll [{ id := 1 }] Scheduler.installed).get).get
      { id := 1 } [] (by decide) (by decide)
    exact ⟨added, hlog, hreq { id := 1 } (by decide)⟩
  · exact ((update_reruns_requested Env.idle).2.2
      (fun c s a ha => by cases ha) 2
      (requestAll [{ id := 1 }, { id := 2 }] Scheduler.installed).get (by decide)).2 (by decide)

/-! ## Stopping during elaboration -/

/-- With the stop flag set, `stopWork` does not return: it ends in the fatal
error once the `end_of_simulation()` callbacks have returned, and in the abort
of a callback otherwise. -/
theorem stopWork_aborts (env : Env) (t : Scheduler) (hflag : t.stopAfterCallbacks = true) :
    (∃ why, stopWork env t = Outcome.abort why) ∧
    (∀ t2, runScript (env.end_of_simulation (beginEndOfSimulation t)) (beginEndOfSimulation t)
        = Outcome.ok t2 → stopWork env t = Outcome.abort Abort.fatal) := by
  have hw : stopWork env t
      = (runScript (env.end_of_simulation (beginEndOfSimulation t))
          (beginEndOfSimulation t)).bind fun s2 =>
        if ({ s2 with endComplete := true, status := sc_status.SC_STOPPED } :
            Scheduler).stopAfterCallbacks = true
        then Outcome.abort Abort.fatal
        else Outcome.ok { s2 with endComplete := true, status := sc_status.SC_STOPPED } := rfl
  have hfatal : ∀ t2, runScript (env.end_of_simulation (beginEndOfSimulation t))
      (beginEndOfSimulation t) = Outcome.ok t2 → stopWork env t = Outcome.abort Abort.fatal := by
    intro t2 h2
    have hu := ScriptStable.stable_runScript Untouched.untouched_stable
      (env.end_of_simulation (beginEndOfSimulation t)) (beginEndOfSimulation t) t2
      (by rw [h2]; rfl)
    have hf2 : t2.stopAfterCallbacks = true := by
      rw [hu.2.2.1]; exact hflag
    rw [hw, h2]
    simp only [Outcome.bind]
    rw [if_pos hf2]
  refine ⟨?_, hfatal⟩
  rcases ReturnsOrAborts.roa_runScript (env.end_of_simulation (beginEndOfSimulation t))
    (beginEndOfSimulation t) with ⟨t2, h2⟩ | ⟨why, h2⟩
  · exact ⟨Abort.fatal, hfatal t2 h2⟩
  · exact ⟨why, by rw [hw, h2]; rfl⟩

theorem kernelStop_before_running (env : Env) (s : Scheduler)
    (hs : s.status.toNat < sc_status.SC_RUNNING.toNat) :
    kernelStop env s = Outcome.ok { s with stopAfterCallbacks := true } := by
  unfold kernelStop
  rw [if_pos hs]

theorem ReturnsOrAborts.roa_runCallbacks (env : Env) (cbs : List Callback) :
    ∀ s : Scheduler, s.status.toNat < sc_status.SC_RUNNING.toNat →
      (runCallbacks env cbs s).ReturnsOrAborts ∧
      ∀ s', runCallbacks env cbs s = Outcome.ok s' →
        s'.status = s.status ∧
        ((s.stopAfterCallbacks = true ∨ Callback.stop ∈ cbs) →
          s'.stopAfterCallbacks = true) := by
  induction cbs with
  | nil =>
    intro s _
    refine ⟨ReturnsOrAborts.roa_ok s, ?_⟩
    intro s' h
    cases h
    refine ⟨rfl, ?_⟩
    rintro (h | h)
    · exact h
    · cases h
  | cons cb rest ih =>
    intro s hs
    cases cb with
    | call a =>
      have hrun : runCallbacks env (Callback.call a :: rest) s
          = (a.apply s).bind (runCallbacks env rest) := rfl
      rw [hrun]
      rcases ReturnsOrAborts.roa_apply a s with ⟨s1, h1⟩ | ⟨why, h1⟩
      · have hu := ScriptStable.stable_apply Untouched.untouched_stable a s s1
          (by rw [h1]; rfl)
        have hs1 : s1.status.toNat < sc_status.SC_RUNNING.toNat := by rw [hu.2.1]; exact hs
        obtain ⟨r1, r2⟩ := ih s1 hs1
        rw [h1]
        refine ⟨r1, ?_⟩
        intro s' h
        obtain ⟨e1, e2⟩ := r2 s' h
        refine ⟨e1.trans hu.2.1, ?_⟩
        rintro (hf | hm)
        · exact e2 (Or.inl (by rw [hu.2.2.1]; exact hf))
        · rcases List.mem_cons.mp hm with e | hm
          · cases e
          · exact e2 (Or.inr hm)
      · rw [h1]
        exact ⟨ReturnsOrAborts.roa_abort why, fun s' h => by cases h⟩
    | stop =>
      have hrun : runCallbacks env (Callback.stop :: rest) s
          = (kernelStop env s).bind (runCallbacks env rest) := rfl
      rw [hrun, kernelStop_before_running env s hs]
      obtain ⟨r1, r2⟩ := ih { s with stopAfterCallbacks := true } hs
      refine ⟨r1, ?_⟩
      intro s' h
      obtain ⟨e1, e2⟩ := r2 s' h
      exact ⟨e1, fun _ => e2 (Or.inl rfl)⟩

/-- A phase of elaboration in which a stop is or comes to be asked for does
not return: the check after the callbacks runs `stopWork`. -/
theorem phase_aborts (env : Env) (cbs : List Callback) (s1 : Scheduler)
    (hs : s1.status.toNat < sc_status.SC_RUNNING.toNat)
    (hstop : s1.stopAfterCallbacks = true ∨ Callback.stop ∈ cbs)
    (check : Scheduler → Outcome)
    (hcheck : ∀ s2, s2.stopAfterCallbacks = true → ∃ why, check s2 = Outcome.abort why) :
    ∃ why, (runCallbacks env cbs s1).bind check = Outcome.abort why := by
  obtain ⟨r1, r2⟩ := ReturnsOrAborts.roa_runCallbacks env cbs s1 hs
  rcases r1 with ⟨s2, h2⟩ | ⟨why, h2⟩
  · rw [h2]
    exact hcheck s2 ((r2 s2 h2).2 hstop)
  · exact ⟨why, by rw [h2]; rfl⟩

/-- Counterexample to C21 as stated: in each of the four phases before
`SC_RUNNING`, `Kernel::stop()` returns normally, and all it has done is to set
`stopAfterCallbacks`. -/
theorem kernelStop_returns_during_elaboration :
    kernelStop Env.idle Scheduler.new
      = Outcome.ok { Scheduler.new with stopAfterCallbacks := true } ∧
    kernelStop Env.idle { Scheduler.new with status := sc_status.SC_BEFORE_END_OF_ELABORATION }
      = Outcome.ok { Scheduler.new with status := sc_status.SC_BEFORE_END_OF_ELABORATION,
                                        stopAfterCallbacks := true } ∧
    kernelStop Env.idle { Scheduler.new with status := sc_status.SC_END_OF_ELABORATION }
      = Outcome.ok { Scheduler.new with status := sc_status.SC_END_OF_ELABORATION,
                                        stopAfterCallbacks := true } ∧
    kernelStop Env.idle { Scheduler.new with status := sc_status.SC_START_OF_SIMULATION }
      = Outcome.ok { Scheduler.new with status := sc_status.SC_START_OF_SIMULATION,
                                        stopAfterCallbacks := true } := by
  decide

/-- C21, amended: a stop during elaboration is recorded and reported at the
end of the phase. For a kernel whose status is before `SC_RUNNING`,
`Kernel::stop()` returns normally and sets `stopAfterCallbacks`, nothing
else. With that flag set `stopWork` does not return normally, and it ends in
the fatal error whenever the `end_of_simulation()` callbacks return. Each of
`Kernel::init`, `Kernel::regStats` and `Kernel::startup`, entered with the flag
set or with a callback of its phase that calls `Kernel::stop()`, does not
return normally: it aborts. -/
theorem stop_during_elaboration_is_deferred (env : Env) (mods : Modules) (s : Scheduler)
    (hs : s.status.toNat < sc_status.SC_RUNNING.toNat) :
    kernelStop env s = Outcome.ok { s with stopAfterCallbacks := true } ∧
    (∀ t : Scheduler, t.stopAfterCallbacks = true →
      (∃ why, stopWork env t = Outcome.abort why) ∧
      ∀ t2, runScript (env.end_of_simulation (beginEndOfSimulation t)) (beginEndOfSimulation t)
          = Outcome.ok t2 → stopWork env t = Outcome.abort Abort.fatal) ∧
    (∀ t : Scheduler,
      (t.stopAfterCallbacks = true ∨ Callback.stop ∈ mods.before_end_of_elaboration
        { t with status := sc_status.SC_BEFORE_END_OF_ELABORATION }) →
      ∃ why, kernelInit env mods t = Outcome.abort why) ∧
    (∀ t : Scheduler,
      (t.stopAfterCallbacks = true ∨ Callback.stop ∈ mods.end_of_elaboration
        { t with status := sc_status.SC_END_OF_ELABORATION }) →
      ∃ why, kernelRegStats env mods t = Outcome.abort why) ∧
    (∀ (t : Scheduler) (t0Event : Handle) (eventQueue : EventQueue) (fuel : Nat),
      (t.stopAfterCallbacks = true ∨ Callback.stop ∈ mods.start_of_simulation
        { t with status := sc_status.SC_START_OF_SIMULATION }) →
      ∃ why, kernelStartup env mods t0Event eventQueue fuel t = Outcome.abort why) := by
  refine ⟨kernelStop_before_running env s hs, fun t ht => stopWork_aborts env t ht, ?_, ?_, ?_⟩
  · intro t ht
    exact phase_aborts env
      (mods.before_end_of_elaboration
        { t with status := sc_status.SC_BEFORE_END_OF_ELABORATION })
      { t with status := sc_status.SC_BEFORE_END_OF_ELABORATION } (by simp [sc_status.toNat]) ht
      (fun s2 => if s2.stopAfterCallbacks = true then stopWork env s2 else Outcome.ok s2)
      (fun s2 h2 => by
        simp only [h2, if_true]
        exact (stopWork_aborts env s2 h2).1)
  · intro t ht
    exact phase_aborts env
      (mods.end_of_elaboration { t with status := sc_status.SC_END_OF_ELABORATION })
      { t with status := sc_status.SC_END_OF_ELABORATION } (by simp [sc_status.toNat]) ht
      (fun s2 => if s2.stopAfterCallbacks = true then stopWork env s2 else Outcome.ok s2)
      (fun s2 h2 => by
        simp only [h2, if_true]
        exact (stopWork_aborts env s2 h2).1)
  · intro t t0Event eventQueue fuel ht
    exact phase_aborts env
      (mods.start_of_simulation { t with status := sc_status.SC_START_OF_SIMULATION })
      { t with status := sc_status.SC_START_OF_SIMULATION } (by simp [sc_status.toNat]) ht
      (fun s2 =>
        (if ({ s2 with startComplete := true } : Scheduler).stopAfterCallbacks = true
          then stopWork env { s2 with startComplete := true }
          else Outcome.ok { s2 with startComplete := true }).bind fun s4 =>
        update env fuel
          (setEventQueue (eventQueue.schedule t0Event eventQueue.getCurTick)
            { s4 with status := sc_status.SC_RUNNING }))
      (fun s2 h2 => by
        obtain ⟨why, hw⟩ := (stopWork_aborts env { s2 with startComplete := true } h2).1
        refine ⟨why, ?_⟩
        have hf : ({ s2 with startComplete := true } : Scheduler).stopAfterCallbacks = true := h2
        simp only []
        rw [if_pos hf, hw]
        rfl)

/-- Witness of C21: `Kernel::stop()` called before `Kernel::init` returns, and
`Kernel::init` then ends in the fatal error; a callback of
`end_of_elaboration()` that calls `Kernel::stop()` makes `Kernel::regStats`
abort. -/
theorem stop_during_elaboration_is_deferred_witness :
    kernelStop Env.idle Scheduler.new
      = Outcome.ok { Scheduler.new with stopAfterCallbacks := true } ∧
    stopWork Env.idle { Scheduler.new with stopAfterCallbacks := true }
      = Outcome.abort Abort.fatal ∧
    kernelInit Env.idle Modules.idle { Scheduler.new with stopAfterCallbacks := true }
      = Outcome.abort Abort.fatal ∧
    ∃ why, kernelRegStats Env.idle Modules.stopping Scheduler.new = Outcome.abort why :=
  ⟨(stop_during_elaboration_is_deferred Env.idle Modules.idle Scheduler.new (by decide)).1,
    ((stop_during_elaboration_is_deferred Env.idle Modules.idle Scheduler.new
      (by decide)).2.1 { Scheduler.new with stopAfterCallbacks := true } (by decide)).2
      (beginEndOfSimulation { Scheduler.new with stopAfterCallbacks := true }) (by decide),
    by decide,
    (stop_during_elaboration_is_deferred Env.idle Modules.stopping Scheduler.new
      (by decide)).2.2.2.1 Scheduler.new (Or.inr (by decide))⟩

/-- Counterexample to C3 as stated: the tick is computed in 64-bit arithmetic,
so the pending tick is not the minimum of current tick plus delay times
ticks-per-picosecond once a product or a sum passes `2 ^ 64`. With two ticks
per picosecond, a call with delay 20 and then, at the same tick 0, a call with
the longer delay `2 ^ 63 + 5` leave the notification at tick 10, not at the
original tick 40. With one tick per picosecond, a call at tick 0 with delay 10
and a call at tick 5 with delay `2 ^ 64 - 1` leave it at tick 4. -/
theorem Event.notify_longer_delay_wraps_earlier :
    (Event.notifyAll 2 ⟨1, "e", "e", none⟩ [(0, 20), (0, 9223372036854775813)] ⟨0, []⟩).when
        (Handle.delayedNotifyEvent 1) = 10 ∧
    (20 : Nat) ≤ 9223372036854775813 ∧ 9223372036854775813 < TickMod ∧
    min (0 + 20 * 2) (0 + 9223372036854775813 * 2) = 40 ∧
    (Event.notifyAll 1 ⟨1, "e", "e", none⟩ [(0, 10), (5, 18446744073709551615)] ⟨0, []⟩).when
        (Handle.delayedNotifyEvent 1) = 4 ∧
    (10 : Nat) ≤ 18446744073709551615 ∧ 18446744073709551615 < TickMod ∧
    min (0 + 10 * 1) (5 + 18446744073709551615 * 1) = 10 := by
  decide

/-- C3, amended: after a non-empty sequence of `notify(delay)` calls on an
event that had no delayed notification pending, with nothing firing and no
`cancel` in between, exactly one delayed notification is pending, and it is
due at the earliest of the requested ticks, the requested tick of a call being
the 64-bit value the source computes (current tick plus delay times
ticks-per-picosecond, modulo `2 ^ 64`): the pending tick is one of the
requested ticks and is at most each of them; for two calls an earlier second
request moves the delivery to the second tick and a later or equal one leaves
it at the first. When for every call the exact sum of current tick and delay
times ticks-per-picosecond fits 64 bits, the pending tick is the minimum of
those sums; and then for two calls made at the same tick, a shorter second
delay puts the delivery at the tick of the second call and a longer or equal
one leaves it at the tick of the first. -/
theorem Event.notify_earliest_wins (ps : Nat) (e : Event) (q : EventQueue)
    (first : Tick × Nat) (later : List (Tick × Nat))
    (hq : q.scheduled e.delayedNotifyEvent = false) :
    (Event.notifyAll ps e (first :: later) q).handles e.delayedNotifyEvent = 1 ∧
    (Event.notifyAll ps e (first :: later) q).when e.delayedNotifyEvent
      ∈ (first :: later).map (Event.requested ps) ∧
    (∀ call ∈ first :: later,
      (Event.notifyAll ps e (first :: later) q).when e.delayedNotifyEvent
        ≤ Event.requested ps call) ∧
    (∀ second : Tick × Nat, later = [second] →
      (Event.requested ps second < Event.requested ps first →
        (Event.notifyAll ps e (first :: later) q).when e.delayedNotifyEvent
          = Event.requested ps second) ∧
      (Event.requested ps first ≤ Event.requested ps second →
        (Event.notifyAll ps e (first :: later) q).when e.delayedNotifyEvent
          = Event.requested ps first)) ∧
    (∀ call ∈ first :: later, call.1 + call.2 * ps < TickMod →
      Event.requested ps call = call.1 + call.2 * ps) ∧
    ((∀ call ∈ first :: later, call.1 + call.2 * ps < TickMod) →
      (Event.notifyAll ps e (first :: later) q).when e.delayedNotifyEvent
        ∈ (first :: later).map (fun call => call.1 + call.2 * ps) ∧
      (∀ call ∈ first :: later,
        (Event.notifyAll ps e (first :: later) q).when e.delayedNotifyEvent
          ≤ call.1 + call.2 * ps) ∧
      ∀ second : Tick × Nat, later = [second] → second.1 = first.1 →
        (second.2 < first.2 →
          (Event.notifyAll ps e (first :: later) q).when e.delayedNotifyEvent
            = second.1 + second.2 * ps) ∧
        (first.2 ≤ second.2 →
          (Event.notifyAll ps e (first :: later) q).when e.delayedNotifyEvent
            = first.1 + first.2 * ps)) := by
  obtain ⟨h1, h2, h3, h4, h5⟩ := Event.notifyAll_earliest ps e q first later hq
  refine ⟨h1, h2, h3, h4, h5, ?_⟩
  intro hfit
  have hmap : (first :: later).map (Event.requested ps)
      = (first :: later).map (fun call => call.1 + call.2 * ps) :=
    List.map_congr_left fun call hc => h5 call hc (hfit call hc)
  refine ⟨by rw [← hmap]; exact h2, fun call hc => ?_, ?_⟩
  · rw [← h5 call hc (hfit call hc)]
    exact h3 call hc
  · intro second hsecond htick
    have e1 := h5 first (List.mem_cons_self _ _) (hfit first (List.mem_cons_self _ _))
    have e2 := h5 second (by rw [hsecond]; simp) (hfit second (by rw [hsecond]; simp))
    obtain ⟨g1, g2⟩ := h4 second hsecond
    constructor
    · intro hlt
      have hle : second.2 * ps ≤ first.2 * ps := Nat.mul_le_mul_right ps (Nat.le_of_lt hlt)
      rcases Nat.lt_or_ge (Event.requested ps second) (Event.requested ps first) with hc | hc
      · rw [g1 hc, e2]
      · rw [g2 hc, e1]
        rw [e1, e2, htick] at hc
        rw [htick, Nat.le_antisymm (Nat.le_of_add_le_add_left hc) hle]
    · intro hge
      have hle : first.2 * ps ≤ second.2 * ps := Nat.mul_le_mul_right ps hge
      have hc : Event.requested ps first ≤ Event.requested ps second := by
        rw [e1, e2, htick]; exact Nat.add_le_add_left hle _
      rw [g2 hc, e1]

/-- Witness of C3: three calls at ticks 0, 2 and 3 with delays 10, 5 and 20
(one tick per picosecond) leave one notification, due at tick 7. -/
theorem Event.notify_earliest_wins_witness :
    (Event.notifyAll 1 ⟨1, "e", "e", none⟩ [(0, 10), (2, 5), (3, 20)] ⟨0, []⟩).handles
        (Handle.delayedNotifyEvent 1) = 1 ∧
    (Event.notifyAll 1 ⟨1, "e", "e", none⟩ [(0, 10), (2, 5), (3, 20)] ⟨0, []⟩).when
        (Handle.delayedNotifyEvent 1) = 7 :=
  ⟨(Event.notify_earliest_wins 1 ⟨1, "e", "e", none⟩ ⟨0, []⟩ (0, 10) [(2, 5), (3, 20)]
      (by decide)).1, by decide⟩

/-! ## Lookup by the names the program builds -/

/-- C19: `findEvent` is an exact-match first-hit lookup. For a registry and a
name that hold no NUL character (names are built from C strings),
`findEvent(name)` returns a position of the registry or its length (the end
sentinel); the sentinel exactly when no registered event has a name equal to
`name`; otherwise the position of the first event of the registry whose name
equals `name`: the name at the returned position is `name` and no earlier
position has that name. -/
theorem findEvent_first_exact_match (allEvents : List Event) (name : String)
    (hn : NoNul name) (hall : ∀ e ∈ allEvents, NoNul e._name) :
    findEvent allEvents name ≤ allEvents.length ∧
    (findEvent allEvents name = allEvents.length ↔ ∀ e ∈ allEvents, e._name ≠ name) ∧
    (∀ h : findEvent allEvents name < allEvents.length,
      (allEvents.get ⟨findEvent allEvents name, h⟩)._name = name) ∧
    (∀ (j : Nat) (hj : j < allEvents.length), j < findEvent allEvents name →
      (allEvents.get ⟨j, hj⟩)._name ≠ name) := by
  obtain ⟨h1, _, _, _, h5⟩ := findEvent_first_c_str_match allEvents name
  obtain ⟨g1, g2, g3⟩ := h5 hn hall
  exact ⟨h1, g1, g2, g3⟩

/-- Witness of C19: in a registry of two events `findEvent` finds `top.b` at
position 1, and returns the end sentinel for the prefix `top`. -/
theorem findEvent_first_exact_match_witness :
    (exampleRegistry.get ⟨findEvent exampleRegistry "top.b", by decide⟩)._name = "top.b" ∧
    findEvent exampleRegistry "top.b" = 1 ∧
    findEvent exampleRegistry "top" = exampleRegistry.length :=
  ⟨(findEvent_first_exact_match exampleRegistry "top.b"
      (by unfold NoNul; decide) exampleRegistry_noNul).2.2.1 (by decide),
    by decide,
    (findEvent_first_exact_match exampleRegistry "top"
      (by unfold NoNul; decide) exampleRegistry_noNul).2.1.mpr (by decide)⟩

end sc_gem5
